import Mathlib

/-! JAM21 driver: consistency verdict, acyclicity search, coherence queries,
error and warning checks, relation builders and prefix views.

A shallow embedding of `src/Verification/Consistency/JAM21Driver.cpp`.

The execution graph, its labels, events and views are declared outside the
driver source; they are modelled here as plain data (lists of labels, one
coherence list per address) together with a few accessor parameters.
Coherence iterators are modelled as indices into the coherence list of an
address: `co_begin` is `0` and `co_end` is the length of the list.
-/

namespace JAM21

/-! ## Data model -/

/-- Modelled from the spec: an event is identified by its thread id and its
sequence index within the thread (the declaration of `Event` is outside the
driver source; the driver reads the two members `thread` and `index`). -/
structure Event where
  thread : Int
  index : Int
deriving DecidableEq, Repr

namespace Event

/-- Modelled from the spec: `Event::getInit()`, the special event that precedes
all others and is the origin of every coherence order. -/
def getInit : Event := ⟨0, 0⟩

/-- Modelled from the spec: `Event::isInitializer()`. -/
def isInitializer (e : Event) : Bool := decide (e = getInit)

/-- Modelled from the spec: `Event::prev()`, the position just before `e` in its
thread. -/
def prev (e : Event) : Event := ⟨e.thread, e.index - 1⟩

/-- Modelled from the spec: `Event::next()`, the position just after `e` in its
thread. -/
def next (e : Event) : Event := ⟨e.thread, e.index + 1⟩

end Event

/-- Memory addresses (`SAddr`). -/
abbrev SAddr := Nat

/-- Modelled from the spec: a view maps a thread id to the highest index of that
thread visible to the owning event. -/
structure View where
  view_ : List Int
deriving DecidableEq, Repr

namespace View

/-- The empty view. -/
def empty : View := ⟨[]⟩

/-- Modelled from the spec: the highest visible index of a thread (0 for a
thread the view has no entry for). -/
def getMax (v : View) (thread : Int) : Int :=
  if thread < 0 then 0 else v.view_.getD thread.toNat 0

/-- Modelled from the spec: membership test, "does this view contain event e". -/
def contains (v : View) (e : Event) : Bool := decide (e.index ≤ v.getMax e.thread)

/-- Modelled from the spec: `setMax`, which grows the view to hold the thread of
`e` and sets the entry of that thread to the index of `e`. -/
def setMax (v : View) (e : Event) : View :=
  ⟨(v.view_ ++ List.replicate (e.thread.toNat + 1 - v.view_.length) 0).set
      e.thread.toNat e.index⟩

/-- Modelled from the spec: `updateIdx`, which raises the entry of the thread of
`e` to the index of `e` when it is smaller. -/
def updateIdx (v : View) (e : Event) : View :=
  if v.getMax e.thread < e.index then v.setMax e else v

/-- Modelled from the spec: `update`, the pointwise (per-thread maximum) join. -/
def update (v o : View) : View :=
  ⟨(List.range (max v.view_.length o.view_.length)).map
      (fun i => max (v.view_.getD i 0) (o.view_.getD i 0))⟩

end View

/-- Modelled from the spec: the kinds of event labels. -/
inductive EventLabelKind where
  | Init | Read | Write | Fence | ThreadStart | ThreadFinish | ThreadJoin | ThreadCreate
  | Malloc | Free | HpRetire
deriving DecidableEq, Repr

/-- The memory ordering tag of a label (`llvm::AtomicOrdering`). -/
inductive AtomicOrdering where
  | NotAtomic | Unordered | Monotonic | Acquire | Release | AcquireRelease
  | SequentiallyConsistent
deriving DecidableEq, Repr

/-- Modelled from the spec: an event label: position, kind, ordering tag, stamp
and, for memory accesses, the address, the prefix view `view(0)` and (for a
read) the position of the write it reads from. The view that the source reads
through `getPrefixView()` is kept in a field of its own, `prefixView`;
`parentCreate` is `getParentCreate()` of a thread start and `childId` is
`getChildId()` of a thread join. -/
structure EventLabel where
  pos : Event
  kind : EventLabelKind
  ordering : AtomicOrdering := AtomicOrdering.NotAtomic
  stamp : Nat := 0
  addr : SAddr := 0
  view0 : View := View.empty
  rf : Option Event := none
  revisitable : Bool := true
  addedMax : Bool := true
  prefixView : View := View.empty
  parentCreate : Event := Event.getInit
  childId : Int := 0
deriving DecidableEq, Repr

namespace EventLabel

/-- The test `llvm::isa<ReadLabel>`. -/
def isRead (l : EventLabel) : Bool := decide (l.kind = EventLabelKind.Read)

/-- The test `llvm::isa<WriteLabel>`. -/
def isWrite (l : EventLabel) : Bool := decide (l.kind = EventLabelKind.Write)

/-- The test `llvm::isa<MemAccessLabel>`. -/
def isMemAccess (l : EventLabel) : Bool := l.isRead || l.isWrite

/-- The test `llvm::isa<HpRetireLabel>`. -/
def isHpRetire (l : EventLabel) : Bool := decide (l.kind = EventLabelKind.HpRetire)

/-- The test `llvm::isa<FreeLabel>`; a hazard-pointer retire is a free label. -/
def isFree (l : EventLabel) : Bool :=
  decide (l.kind = EventLabelKind.Free) || l.isHpRetire

/-- The test `isNotAtomic()`. -/
def isNotAtomic (l : EventLabel) : Bool := decide (l.ordering = AtomicOrdering.NotAtomic)

end EventLabel

/-- Modelled from the spec: the execution graph as consumed by the driver. The
labels are listed in stamp order; `co addr` is the coherence order of `addr`
from `co_begin` to `co_end` (the writes, without `Init`). The remaining fields
are queries whose code is outside the driver source (graph queries, the
iterators `samelocs`, `alloc_pred`, `alloc_succs`, `free_pred`, `free_succ`,
the address test `isDynamic` and the base driver's `isHazptrProtected`); they
are taken as parameters. -/
structure ExecutionGraph where
  labels : List EventLabel
  co : SAddr → List EventLabel := fun _ => []
  isRMWStore : Event → Bool := fun _ => false
  getPendingRMW : EventLabel → Event := fun _ => Event.getInit
  getRevisitable : EventLabel → View → List Event := fun _ _ => []
  getViewFromStamp : Nat → View := fun _ => View.empty
  tc_succ : EventLabel → Option EventLabel := fun _ => none
  tj_succ : EventLabel → Option EventLabel := fun _ => none
  samelocs : EventLabel → List EventLabel := fun _ => []
  alloc_pred : EventLabel → Option EventLabel := fun _ => none
  alloc_succs : EventLabel → List EventLabel := fun _ => []
  free_pred : EventLabel → Option EventLabel := fun _ => none
  free_succ : EventLabel → Option EventLabel := fun _ => none
  isDynamic : SAddr → Bool := fun _ => false
  isHazptrProtected : EventLabel → Bool := fun _ => false
  getLastThreadLabel : Int → Option EventLabel := fun _ => none

namespace ExecutionGraph

/-- Modelled from the spec: `getEventLabel`, the label at a position (`none`
when the graph has no label there). -/
def getEventLabel (g : ExecutionGraph) (e : Event) : Option EventLabel :=
  g.labels.find? (fun l => decide (l.pos = e))

/-- Modelled from the spec: `getMaxStamp()`, the largest stamp of a label of the
graph. -/
def getMaxStamp (g : ExecutionGraph) : Nat :=
  g.labels.foldl (fun m l => max m l.stamp) 0

/-- Modelled from the spec: `readers()` of a write, the reads it supplies a
value to. -/
def readers (g : ExecutionGraph) (w : EventLabel) : List EventLabel :=
  g.labels.filter (fun r => r.isRead && decide (r.rf = some w.pos))

/-- Modelled from the spec: `co_max(addr)`, the position of the coherence-order
maximum of an address, `Init` when the address has no writes. -/
def co_max (g : ExecutionGraph) (addr : SAddr) : Event :=
  match (g.co addr).getLast? with
  | none => Event.getInit
  | some l => l.pos

/-- Modelled from the spec: `isCoMaximal(addr, e)`. -/
def isCoMaximal (g : ExecutionGraph) (addr : SAddr) (e : Event) : Bool :=
  decide (g.co_max addr = e)

/-- Modelled from the spec: the range `co_succ_begin(w) .. co_succ_end(w)`, the
writes coherence-after `w` at its address. -/
def co_succs (g : ExecutionGraph) (w : EventLabel) : List EventLabel :=
  ((g.co w.addr).dropWhile (fun l => decide (l.pos ≠ w.pos))).drop 1

/-- Modelled from the spec: the range `co_pred_begin(w) .. co_pred_end(w)`, the
writes coherence-before `w` at its address, nearest first. -/
def co_preds (g : ExecutionGraph) (w : EventLabel) : List EventLabel :=
  ((g.co w.addr).takeWhile (fun l => decide (l.pos ≠ w.pos))).reverse

/-- Modelled from the spec: `po_imm_pred`, the immediate program-order
predecessor. -/
def po_imm_pred (g : ExecutionGraph) (lab : EventLabel) : Option EventLabel :=
  g.getEventLabel lab.pos.prev

/-- Modelled from the spec: `po_imm_succ`, the immediate program-order
successor. -/
def po_imm_succ (g : ExecutionGraph) (lab : EventLabel) : Option EventLabel :=
  g.getEventLabel lab.pos.next

/-- Modelled from the spec: `rf_succs`, the readers of a write (none for other
kinds). -/
def rf_succs (g : ExecutionGraph) (lab : EventLabel) : List EventLabel :=
  if lab.isWrite then g.readers lab else []

/-- Modelled from the spec: `co_imm_succ`, the coherence-immediate successor of
a write. -/
def co_imm_succ (g : ExecutionGraph) (lab : EventLabel) : Option EventLabel :=
  if lab.isWrite then (g.co_succs lab).head? else none

/-- Modelled from the spec: `fr_imm_succ` of a read, the first write
coherence-after its source (the first write of the address when it reads from
`Init`). -/
def fr_imm_succ (g : ExecutionGraph) (lab : EventLabel) : Option EventLabel :=
  if lab.isRead then
    match lab.rf with
    | none => none
    | some w =>
      if w.isInitializer then (g.co lab.addr).head?
      else (((g.co lab.addr).dropWhile (fun l => decide (l.pos ≠ w))).drop 1).head?
  else none

end ExecutionGraph

/-! ## Driver state and the consistency verdict -/

/-- An event-to-event map (`relationRA`, `relationSVO`, `relationSpush`), as an
association list. -/
abbrev EventMap := List (Event × Event)

/-- The assignment `m[k] = v`. -/
def EventMap.assign (m : EventMap) (k v : Event) : EventMap :=
  if m.any (fun p => decide (p.1 = k)) then
    m.map (fun p => if p.1 = k then (k, v) else p)
  else m ++ [(k, v)]

/-- The value stored for a key, if any. -/
def EventMap.lookup (m : EventMap) (k : Event) : Option Event :=
  (m.find? (fun p => decide (p.1 = k))).map (fun p => p.2)

/-- The mutable relation tables of the driver and its counterexample slot
`cexLab` (`none` is the null pointer). -/
structure DriverState where
  relationRA : EventMap := []
  relationSVO : EventMap := []
  relationSpush : EventMap := []
  cexLab : Option EventLabel := none
deriving DecidableEq, Repr

/-- `JAM21Driver::calculateRA`: `RA := po; [REL | ACQ | V]; po`. The second
predecessor is taken from the first before the null test; a null first
predecessor is propagated. -/
def calculateRA (g : ExecutionGraph) (st : DriverState) (lab : EventLabel) : DriverState :=
  let po_pred := g.po_imm_pred lab
  let initial_po := po_pred.bind g.po_imm_pred
  match po_pred, initial_po with
  | some p, some i =>
    let isReadOrWrite :=
      decide (p.kind = EventLabelKind.Read) || decide (p.kind = EventLabelKind.Write)
    if !isReadOrWrite then st
    else
      let isCorrectAccessType :=
        decide (p.ordering = AtomicOrdering.Release)
          || decide (p.ordering = AtomicOrdering.Acquire)
          || decide (p.ordering = AtomicOrdering.SequentiallyConsistent)
      if !isCorrectAccessType then st
      else { st with relationRA := st.relationRA.assign i.pos lab.pos }
  | _, _ => st

/-- `JAM21Driver::calculateSVO`:
`svo := po; [F Rel]; po; [W | R]; po; [F Acq]; po`. -/
def calculateSVO (g : ExecutionGraph) (st : DriverState) (lab : EventLabel) : DriverState :=
  match g.po_imm_pred lab with
  | none => st
  | some first_po_pred =>
    if !(decide (first_po_pred.kind = EventLabelKind.Fence)
          && decide (first_po_pred.ordering = AtomicOrdering.Acquire)) then st
    else
      match g.po_imm_pred first_po_pred with
      | none => st
      | some second_po_pred =>
        if !(decide (second_po_pred.kind = EventLabelKind.Read)
              || decide (second_po_pred.kind = EventLabelKind.Write)) then st
        else
          match g.po_imm_pred second_po_pred with
          | none => st
          | some third_po_pred =>
            if !(decide (third_po_pred.kind = EventLabelKind.Fence)
                  && decide (third_po_pred.ordering = AtomicOrdering.Release)) then st
            else
              match g.po_imm_pred third_po_pred with
              | none => st
              | some initial_po =>
                { st with relationSVO := st.relationSVO.assign initial_po.pos lab.pos }

/-- `JAM21Driver::isConsistent`: the verdict together with the updated relation
tables. -/
def isConsistent (g : ExecutionGraph) (st : DriverState) (lab : EventLabel) :
    Bool × DriverState :=
  let st1 := calculateRA g st lab
  let st2 := calculateSVO g st1 lab
  (true, st2)

/-- `JAM21Driver::calculateSpush`: `spush := po; [sc fence]; po`. The second
predecessor is taken from the first before the null test; a null first
predecessor is propagated. -/
def calculateSpush (g : ExecutionGraph) (st : DriverState) (lab : EventLabel) : DriverState :=
  let po_pred := g.po_imm_pred lab
  let initial_po := po_pred.bind g.po_imm_pred
  match po_pred, initial_po with
  | some p, some i =>
    if !(decide (p.kind = EventLabelKind.Fence)
          && decide (p.ordering = AtomicOrdering.SequentiallyConsistent)) then st
    else { st with relationSpush := st.relationSpush.assign i.pos lab.pos }
  | _, _ => st

/-- `JAM21Driver::calculateVolint`, headed in the source by the comment
`volint := [volotile access]; po; [volotile access]`. The second test returns
when the predecessor IS sequentially consistent, and the edge is stored in
`relationSpush`. -/
def calculateVolint (g : ExecutionGraph) (st : DriverState) (lab : EventLabel) : DriverState :=
  if lab.ordering ≠ AtomicOrdering.SequentiallyConsistent then st
  else
    match g.po_imm_pred lab with
    | none => st
    | some initial_po =>
      if initial_po.ordering = AtomicOrdering.SequentiallyConsistent then st
      else { st with relationSpush := st.relationSpush.assign initial_po.pos lab.pos }

/-- Modelled from the spec: `getPreviousLabel`, the label just before `lab` in
its thread (`none` when there is none). -/
def ExecutionGraph.getPreviousLabel (g : ExecutionGraph) (lab : EventLabel) :
    Option EventLabel :=
  g.getEventLabel lab.pos.prev

/-- The prefix view of the label at a position (the empty view, neutral for the
join, where the graph has no label; the source dereferences the label
unconditionally). -/
def prefixViewAt (g : ExecutionGraph) (e : Event) : View :=
  match g.getEventLabel e with
  | some l => l.prefixView
  | none => View.empty

/-- `JAM21Driver::calcPPoRfBefore`. -/
def calcPPoRfBefore (g : ExecutionGraph) (lab : EventLabel) : View :=
  let pporf := View.empty.updateIdx lab.pos
  match g.getPreviousLabel lab with
  | none => pporf
  | some pLab =>
    let pporf1 := pporf.update pLab.prefixView
    let pporf2 :=
      if pLab.kind = EventLabelKind.Read then
        pporf1.update (match pLab.rf with
          | some w => prefixViewAt g w
          | none => View.empty)
      else pporf1
    let pporf3 :=
      if pLab.kind = EventLabelKind.ThreadStart then
        pporf2.update (prefixViewAt g pLab.parentCreate)
      else pporf2
    if pLab.kind = EventLabelKind.ThreadJoin then
      pporf3.update (match g.getLastThreadLabel pLab.childId with
        | some l => l.prefixView
        | none => View.empty)
    else pporf3

/-- `JAM21Driver::calculatePrefixView`. -/
def calculatePrefixView (g : ExecutionGraph) (lab : EventLabel) : View :=
  calcPPoRfBefore g lab

/-- The successors that `visitConsAcyclic1_0` walks from a label, in the order
of the source: `tc_succ`, `tj_succ`, `rf_succs`, `co_imm_succ`, `fr_imm_succ`,
`po_imm_succ`. -/
def consSuccs (g : ExecutionGraph) (lab : EventLabel) : List EventLabel :=
  (g.tc_succ lab).toList ++ (g.tj_succ lab).toList ++ g.rf_succs lab
    ++ (g.co_imm_succ lab).toList ++ (g.fr_imm_succ lab).toList
    ++ (g.po_imm_succ lab).toList

/-- One edge of the union relation walked by `visitConsAcyclic1_0`. -/
def consEdge (g : ExecutionGraph) (a b : EventLabel) : Prop := b ∈ consSuccs g a

instance (g : ExecutionGraph) (a b : EventLabel) : Decidable (consEdge g a b) :=
  inferInstanceAs (Decidable (b ∈ consSuccs g a))

/-- The union relation has a cycle through some label of the graph. -/
def hasConsCycle (g : ExecutionGraph) : Prop :=
  ∃ a ∈ g.labels, Relation.TransGen (consEdge g) a a

/-! ## The acyclicity search -/

/-- Modelled from the spec: the three states of a node of the depth-first
search. -/
inductive NodeStatus where
  | unseen | entered | left
deriving DecidableEq, Repr

/-- Modelled from the spec: an entry of the status table, the value of the visit
counter when the entry was written and the state of the node. A fresh entry is
`unseen` with count 0. -/
structure NodeCountStatus where
  count : Nat := 0
  status : NodeStatus := NodeStatus.unseen
deriving DecidableEq, Repr

/-- The two mutable members used by `visitConsAcyclic1_0`: the visit counter and
the status table indexed by stamp. -/
structure AcyclicState where
  visitedConsAcyclic1Accepting : Nat := 0
  visitedConsAcyclic1_0 : List NodeCountStatus := []
deriving DecidableEq, Repr

/-- The table entry `visitedConsAcyclic1_0[stamp]` (a fresh entry when the stamp
is outside the table). -/
def AcyclicState.node (st : AcyclicState) (stamp : Nat) : NodeCountStatus :=
  st.visitedConsAcyclic1_0.getD stamp {}

/-- The assignment `visitedConsAcyclic1_0[stamp] = { count, status }`. -/
def AcyclicState.setNode (st : AcyclicState) (stamp : Nat) (n : NodeCountStatus) :
    AcyclicState :=
  { st with visitedConsAcyclic1_0 := st.visitedConsAcyclic1_0.set stamp n }

/-- The six successor blocks of `visitConsAcyclic1_0`, run over the successors
in order: an unseen successor is visited and a failed visit is propagated, an
entered successor fails at once, a left successor is skipped. `none` is a visit
that ran out of fuel. -/
def visitSuccsConsAcyclic1
    (visit : EventLabel → AcyclicState → Option (Bool × AcyclicState)) :
    List EventLabel → AcyclicState → Option (Bool × AcyclicState)
  | [], st => some (true, st)
  | pLab :: rest, st =>
    match (st.node pLab.stamp).status with
    | NodeStatus.unseen =>
      match visit pLab st with
      | none => none
      | some (false, st1) => some (false, st1)
      | some (true, st1) => visitSuccsConsAcyclic1 visit rest st1
    | NodeStatus.entered => some (false, st)
    | NodeStatus.left => visitSuccsConsAcyclic1 visit rest st

/-- `JAM21Driver::visitConsAcyclic1_0`, with a bound on the depth of the
recursion (`none` when the bound is reached). The test of an entered successor,
`visitedConsAcyclic1Accepting > node.count || 1`, is always true. -/
def visitConsAcyclic1_0 (g : ExecutionGraph) :
    Nat → EventLabel → AcyclicState → Option (Bool × AcyclicState)
  | 0, _, _ => none
  | fuel + 1, lab, st =>
    let acc := st.visitedConsAcyclic1Accepting + 1
    let st1 : AcyclicState :=
      ({ st with visitedConsAcyclic1Accepting := acc }).setNode lab.stamp
        { count := acc, status := NodeStatus.entered }
    match visitSuccsConsAcyclic1 (visitConsAcyclic1_0 g fuel) (consSuccs g lab) st1 with
    | none => none
    | some (false, st2) => some (false, st2)
    | some (true, st2) =>
      let acc2 := st2.visitedConsAcyclic1Accepting - 1
      some (true,
        ({ st2 with visitedConsAcyclic1Accepting := acc2 }).setNode lab.stamp
          { count := acc2, status := NodeStatus.left })

/-- The reset at the start of `visitConsAcyclic1` and `visitConsAcyclic1Full`:
the counter is zeroed and the table is cleared and resized to
`getMaxStamp() + 1` fresh entries. -/
def resetConsAcyclic1 (g : ExecutionGraph) (_st : AcyclicState) : AcyclicState :=
  { visitedConsAcyclic1Accepting := 0,
    visitedConsAcyclic1_0 := List.replicate (g.getMaxStamp + 1) {} }

/-- The fold `std::ranges::all_of` of `visitConsAcyclic1Full` over the labels:
a label that is not unseen is passed over, an unseen one is visited, and the
first failed visit ends the fold. -/
def visitRootsConsAcyclic1
    (visit : EventLabel → AcyclicState → Option (Bool × AcyclicState)) :
    List EventLabel → AcyclicState → Option (Bool × AcyclicState)
  | [], st => some (true, st)
  | lab :: rest, st =>
    if (st.node lab.stamp).status ≠ NodeStatus.unseen then
      visitRootsConsAcyclic1 visit rest st
    else
      match visit lab st with
      | none => none
      | some (false, st1) => some (false, st1)
      | some (true, st1) => visitRootsConsAcyclic1 visit rest st1

/-- `JAM21Driver::visitConsAcyclic1`. -/
def visitConsAcyclic1 (g : ExecutionGraph) (fuel : Nat) (lab : EventLabel)
    (st : AcyclicState) : Option (Bool × AcyclicState) :=
  visitRootsConsAcyclic1 (visitConsAcyclic1_0 g fuel) [lab] (resetConsAcyclic1 g st)

/-- `JAM21Driver::visitConsAcyclic1Full`. -/
def visitConsAcyclic1Full (g : ExecutionGraph) (fuel : Nat) (st : AcyclicState) :
    Option (Bool × AcyclicState) :=
  visitRootsConsAcyclic1 (visitConsAcyclic1_0 g fuel) g.labels (resetConsAcyclic1 g st)

/-- `JAM21Driver::checkConsAcyclic1`. -/
def checkConsAcyclic1 (g : ExecutionGraph) (fuel : Nat) (lab : EventLabel)
    (st : AcyclicState) : Option (Bool × AcyclicState) :=
  visitConsAcyclic1 g fuel lab st

/-- The state of a label in the status table. -/
def AcyclicState.statusOf (st : AcyclicState) (l : EventLabel) : NodeStatus :=
  (st.node l.stamp).status

/-- Well-formedness of a graph for the search: the labels have pairwise
distinct stamps and the successors of a label are labels of the graph. -/
structure ConsWellFormed (g : ExecutionGraph) : Prop where
  stamps_nodup : (g.labels.map (fun l => l.stamp)).Nodup
  succs_closed : ∀ a ∈ g.labels, ∀ b ∈ consSuccs g a, b ∈ g.labels

/-- The invariant of the search: the table has one entry per stamp up to the
maximum, the successors of a left label are left, and no left label lies on a
cycle. -/
structure DfsInv (g : ExecutionGraph) (st : AcyclicState) : Prop where
  sized : st.visitedConsAcyclic1_0.length = g.getMaxStamp + 1
  closed : ∀ a ∈ g.labels, st.statusOf a = NodeStatus.left →
    ∀ b ∈ consSuccs g a, st.statusOf b = NodeStatus.left
  acyclic : ∀ a ∈ g.labels, st.statusOf a = NodeStatus.left →
    ¬ Relation.TransGen (consEdge g) a a

/-- What a successful visit guarantees about the table it leaves: the invariant
holds, the entered labels are those entered before, left labels stay left and
no label becomes unseen. -/
structure DfsStep (g : ExecutionGraph) (st st2 : AcyclicState) : Prop where
  inv : DfsInv g st2
  entered_iff : ∀ e ∈ g.labels,
    (st2.statusOf e = NodeStatus.entered ↔ st.statusOf e = NodeStatus.entered)
  left_mono : ∀ e ∈ g.labels, st.statusOf e = NodeStatus.left →
    st2.statusOf e = NodeStatus.left
  unseen_anti : ∀ e ∈ g.labels, st2.statusOf e = NodeStatus.unseen →
    st.statusOf e = NodeStatus.unseen

/-- The contract of a visit started at an unseen label from which every entered
label is reachable, in a table with at most `bound` unseen labels: the visit
returns; when it succeeds the label is left and the table is as `DfsStep`
says; when it fails the relation has a cycle. -/
def VisitContract (g : ExecutionGraph)
    (visit : EventLabel → AcyclicState → Option (Bool × AcyclicState)) (bound : Nat) : Prop :=
  ∀ (lab : EventLabel) (st : AcyclicState),
    lab ∈ g.labels → st.statusOf lab = NodeStatus.unseen → DfsInv g st →
    (∀ e ∈ g.labels, st.statusOf e = NodeStatus.entered →
      Relation.TransGen (consEdge g) e lab) →
    g.labels.countP (fun l => decide (st.statusOf l = NodeStatus.unseen)) ≤ bound →
    ∃ b st2, visit lab st = some (b, st2)
      ∧ (b = true → DfsStep g st st2 ∧ st2.statusOf lab = NodeStatus.left)
      ∧ (b = false → hasConsCycle g)

/-- The number of labels of the graph that are still unseen. -/
def unseenCount (g : ExecutionGraph) (st : AcyclicState) : Nat :=
  g.labels.countP (fun l => decide (st.statusOf l = NodeStatus.unseen))

/-! ## Coherence queries -/

/-- `JAM21Driver::isDepTracking`. -/
def isDepTracking : Bool := false

/-- `JAM21Driver::isWriteRfBefore`: the body of the source is commented out and
the function returns `false` for every pair of events. -/
def isWriteRfBefore (_g : ExecutionGraph) (_a _b : Event) : Bool := false

/-- `getInitRfsAtLoc`: the reads of `addr` that read from the initializer. -/
def getInitRfsAtLoc (g : ExecutionGraph) (addr : SAddr) : List Event :=
  (g.labels.filter (fun lab =>
    lab.isRead
      && (match lab.rf with
          | some w => w.isInitializer
          | none => false)
      && decide (lab.addr = addr))).map (fun lab => lab.pos)

/-- `JAM21Driver::isHbOptRfBefore`; `none` is the `BUG_ON` taken when `write`
is not the position of a write label. -/
def isHbOptRfBefore (g : ExecutionGraph) (e write : Event) : Option Bool :=
  match g.getEventLabel write with
  | none => none
  | some sLab =>
    if !sLab.isWrite then none
    else if sLab.view0.contains e then some true
    else some ((g.readers sLab).any (fun rLab => rLab.view0.contains e))

/-- The iterator returned by `std::find_if` over a forward range, as an index
(the length of the range when no element satisfies the test); `none` when the
test hits a `BUG_ON`. -/
def findIfOpt (p : EventLabel → Option Bool) : List EventLabel → Option Nat
  | [] => some 0
  | x :: xs =>
    match p x with
    | none => none
    | some true => some 0
    | some false => (findIfOpt p xs).map (fun i => i + 1)

/-- `JAM21Driver::splitLocMOBefore`: the reverse scan for the coherence-latest
write for which `isWriteRfBefore` holds, converted to the forward iterator just
past it (`co_begin` when there is none). -/
def splitLocMOBefore (g : ExecutionGraph) (addr : SAddr) (e : Event) : Nat :=
  match (g.co addr).reverse.findIdx? (fun lab => isWriteRfBefore g lab.pos e) with
  | none => 0
  | some i => (g.co addr).length - i

/-- The view `view(0)` of the label at a position (the empty view where the
graph has no label; the source dereferences the label unconditionally). -/
def viewAt (g : ExecutionGraph) (e : Event) : View :=
  match g.getEventLabel e with
  | some l => l.view0
  | none => View.empty

/-- The stamp of the label at a position (0 where the graph has no label; the
source dereferences the label unconditionally). -/
def stampAt (g : ExecutionGraph) (e : Event) : Nat :=
  match g.getEventLabel e with
  | some l => l.stamp
  | none => 0

/-- `JAM21Driver::splitLocMOAfterHb`. -/
def splitLocMOAfterHb (g : ExecutionGraph) (addr : SAddr) (read : Event) : Option Nat :=
  let initRfs := getInitRfsAtLoc g addr
  if initRfs.any (fun rf => (viewAt g rf).contains read) then some 0
  else
    match findIfOpt (fun lab => isHbOptRfBefore g read lab.pos) (g.co addr) with
    | none => none
    | some it =>
      match (g.co addr).get? it with
      | none => some it
      | some lab => if lab.view0.contains read then some it else some (it + 1)

/-- `JAM21Driver::splitLocMOAfter`. -/
def splitLocMOAfter (g : ExecutionGraph) (addr : SAddr) (e : Event) : Option Nat :=
  findIfOpt (fun lab => isHbOptRfBefore g e lab.pos) (g.co addr)

/-- The position reached by `(--it)->getPos()` for a forward iterator `it` that
is not `co_begin`. -/
def posBefore (co : List EventLabel) (it : Nat) : Event :=
  match co.get? (it - 1) with
  | some l => l.pos
  | none => Event.getInit

/-- `JAM21Driver::getCoherentStores`; `none` only through a `BUG_ON` of the
dependency-tracking branch. -/
def getCoherentStores (g : ExecutionGraph) (addr : SAddr) (read : Event) :
    Option (List Event) :=
  let comax :=
    match (g.co addr).getLast? with
    | none => Event.getInit
    | some l => l.pos
  if comax.thread = read.thread ∧ comax.index < read.index then some [comax]
  else
    let begIt := splitLocMOBefore g addr read
    let stores := if begIt = 0 then [Event.getInit] else [posBefore (g.co addr) begIt]
    match (if isDepTracking then splitLocMOAfterHb g addr read
           else some (g.co addr).length) with
    | none => none
    | some endIt =>
      some (stores ++ (((g.co addr).drop begIt).take (endIt - begIt)).map (fun lab => lab.pos))

/-- `JAM21Driver::getMOOptRfAfter`: the writes coherence-after `sLab`, followed
by the readers of those writes. -/
def getMOOptRfAfter (g : ExecutionGraph) (sLab : EventLabel) : List Event :=
  let succs := g.co_succs sLab
  succs.map (fun wLab => wLab.pos)
    ++ (succs.flatMap (fun wLab => g.readers wLab)).map (fun rLab => rLab.pos)

/-- `JAM21Driver::getMOInvOptRfAfter`: the writes coherence-before `sLab`, the
readers of those writes, and the readers of the initializer at the address. -/
def getMOInvOptRfAfter (g : ExecutionGraph) (sLab : EventLabel) : List Event :=
  let preds := g.co_preds sLab
  preds.map (fun wLab => wLab.pos)
    ++ (preds.flatMap (fun wLab => g.readers wLab)).map (fun rLab => rLab.pos)
    ++ getInitRfsAtLoc g sLab.addr

/-- `getRevisitableFrom`: the revisitable readers of `coPred` outside `pporf`,
minus those stamped after a pending RMW. -/
def getRevisitableFrom (g : ExecutionGraph) (sLab : EventLabel) (pporf : View)
    (coPred : EventLabel) : List Event :=
  let pendingRMW := g.getPendingRMW sLab
  let loads :=
    ((g.readers coPred).filter (fun rLab =>
      !pporf.contains rLab.pos && decide (rLab.addr = sLab.addr)
        && rLab.revisitable && rLab.addedMax)).map (fun rLab => rLab.pos)
  if !pendingRMW.isInitializer then
    loads.filter (fun e => !decide (stampAt g e > stampAt g pendingRMW))
  else loads

/-- `JAM21Driver::getCoherentRevisits`. -/
def getCoherentRevisits (g : ExecutionGraph) (sLab : EventLabel) (pporf : View) :
    List Event :=
  let prevCoMaxIt := (g.co sLab.addr).reverse.find? (fun lab => decide (lab.pos ≠ sLab.pos))
  let ls :=
    match prevCoMaxIt with
    | some prevCoMax =>
      if pporf.contains prevCoMax.pos then getRevisitableFrom g sLab pporf prevCoMax
      else g.getRevisitable sLab pporf
    | none => g.getRevisitable sLab pporf
  if !isDepTracking && g.isCoMaximal sLab.addr sLab.pos then ls
  else
    let optRfs := getMOOptRfAfter g sLab
    let ls1 := ls.filter (fun e => !(optRfs.any (fun ev => (viewAt g e).contains ev)))
    if !isDepTracking then ls1
    else
      let ls2 := ls1.filter (fun e => !((viewAt g sLab.pos).contains e))
      let moInvOptRfs := getMOInvOptRfAfter g sLab
      ls2.filter (fun e =>
        let v := (g.getViewFromStamp (stampAt g e)).update pporf
        !(moInvOptRfs.any (fun ev => v.contains ev && (viewAt g ev).contains e)))

/-- The position of `co_imm_pred` of the write at index `i` of a coherence
list, `Init` when it is the first. -/
def coImmPredPos (co : List EventLabel) (i : Nat) : Event :=
  if i = 0 then Event.getInit else posBefore co i

/-- The candidates pushed by the filter/transform pipeline of
`getCoherentPlacings` for the writes of `co` at indices `i, i+1, ...` given as
`rest`: the coherence-immediate predecessor of every non-RMW write. -/
def placingsFrom (g : ExecutionGraph) (co : List EventLabel) :
    Nat → List EventLabel → List Event
  | _, [] => []
  | i, sLab :: rest =>
    if !g.isRMWStore sLab.pos then coImmPredPos co i :: placingsFrom g co (i + 1) rest
    else placingsFrom g co (i + 1) rest

/-- `JAM21Driver::getCoherentPlacings`; `none` is a `BUG_ON`. -/
def getCoherentPlacings (g : ExecutionGraph) (addr : SAddr) (store : Event) (isRMW : Bool) :
    Option (List Event) :=
  if isRMW then
    match g.getEventLabel store.prev with
    | none => none
    | some rLab =>
      if !rLab.isRead then none
      else
        match rLab.rf with
        | none => none
        | some rfPos => some [rfPos]
  else
    let rangeBegin := splitLocMOBefore g addr store
    match (if isDepTracking then splitLocMOAfter g addr store
           else some (g.co addr).length) with
    | none => none
    | some rangeEnd =>
      let cos :=
        placingsFrom g (g.co addr) rangeBegin
          (((g.co addr).drop rangeBegin).take (rangeEnd - rangeBegin))
      let last :=
        if rangeEnd = (g.co addr).length then g.co_max addr
        else coImmPredPos (g.co addr) rangeEnd
      some (cos ++ [last])

/-! ## Error and warning checks -/

/-- The verdicts of the error and warning checks (`VerificationError`). -/
inductive VerificationError where
  | VE_OK | VE_AccessNonMalloc | VE_DoubleFree | VE_AccessFreed | VE_RaceNotAtomic
  | VE_WWRace
deriving DecidableEq, Repr

/-- The loop `for (p : ps) if (!visit(p)) return false;` followed by falling
through: the labels are visited in order until one visit fails. -/
def visitEach (visit : EventLabel → DriverState → Bool × DriverState) :
    List EventLabel → DriverState → Bool × DriverState
  | [], st => (true, st)
  | p :: ps, st =>
    match visit p st with
    | (false, st1) => (false, st1)
    | (true, st1) => visitEach visit ps st1

/-- A sequence of statements, each of which may `return false`; the function
returns `true` when all fall through. -/
def inOrder : List (DriverState → Bool × DriverState) → DriverState → Bool × DriverState
  | [], st => (true, st)
  | c :: cs, st =>
    match c st with
    | (false, st1) => (false, st1)
    | (true, st1) => inOrder cs st1

/-- The first index `i` with `lhs[i] && !rhs[i]`, as searched by the loop that
closes `visitUnlessError3`, `visitUnlessError5` and `visitUnlessError7`. -/
def firstAccepting (lhs rhs : List Bool) : Option Nat :=
  (List.range lhs.length).find? (fun i => lhs.getD i false && !rhs.getD i false)

/-- The tail of `visitUnlessError3/5/7` after the left-hand visit succeeded: the
two accepting tables, cleared and resized to `getMaxStamp() + 1` at the start of
the check and written by no visitor, are compared; a stamp accepted on the left
only becomes the counterexample. -/
def acceptingLoop (g : ExecutionGraph) (st : DriverState) : Bool × DriverState :=
  let visitedLHS := List.replicate (g.getMaxStamp + 1) false
  let visitedRHS := List.replicate (g.getMaxStamp + 1) false
  match firstAccepting visitedLHS visitedRHS with
  | some i => (false, { st with cexLab := g.labels.find? (fun l => decide (l.stamp = i)) })
  | none => (true, st)

/-- The pattern `if (visitUnlessErrorN(lab)) return true; return visitErrorN(lab);`
of every `checkErrorN`. -/
def unlessThen (visited : Bool × DriverState) (visitError : Bool) : Bool × DriverState :=
  match visited with
  | (true, st1) => (true, st1)
  | (false, st1) => (visitError, st1)

/-- `JAM21Driver::visitError2`. -/
def visitError2 (_lab : EventLabel) : Bool := false

/-- `JAM21Driver::visitLHSUnlessError2_0`: the test of the view is commented
out in the source and the function returns `true`. -/
def visitLHSUnlessError2_0 (_lab : EventLabel) (_v : View) (st : DriverState) :
    Bool × DriverState :=
  (true, st)

/-- `JAM21Driver::visitLHSUnlessError2_1`. -/
def visitLHSUnlessError2_1 (g : ExecutionGraph) (lab : EventLabel) (v : View)
    (st : DriverState) : Bool × DriverState :=
  visitEach (fun pLab => visitLHSUnlessError2_0 pLab v) (g.alloc_pred lab).toList st

/-- `JAM21Driver::visitUnlessError2`. -/
def visitUnlessError2 (g : ExecutionGraph) (lab : EventLabel) (st : DriverState) :
    Bool × DriverState :=
  visitLHSUnlessError2_1 g lab lab.view0 st

/-- `JAM21Driver::checkError2`. -/
def checkError2 (g : ExecutionGraph) (lab : EventLabel) (st : DriverState) :
    Bool × DriverState :=
  unlessThen (visitUnlessError2 g lab st) (visitError2 lab)

/-- `JAM21Driver::visitError3`. -/
def visitError3 (_lab : EventLabel) : Bool := false

/-- `JAM21Driver::visitLHSUnlessError3_0`: returns `false` and leaves the
counterexample slot as it is. -/
def visitLHSUnlessError3_0 (_lab : EventLabel) (st : DriverState) : Bool × DriverState :=
  (false, st)

/-- `JAM21Driver::visitLHSUnlessError3_1`: the four pairings of a plain free or
a hazard-pointer retire with a same-location plain free or retire. -/
def visitLHSUnlessError3_1 (g : ExecutionGraph) (lab : EventLabel) (st : DriverState) :
    Bool × DriverState :=
  inOrder
    [ fun st =>
        if lab.isFree && !lab.isHpRetire then
          visitEach visitLHSUnlessError3_0
            ((g.samelocs lab).filter (fun pLab => pLab.isFree && !pLab.isHpRetire)) st
        else (true, st),
      fun st =>
        if lab.isFree && !lab.isHpRetire then
          visitEach visitLHSUnlessError3_0
            ((g.samelocs lab).filter (fun pLab => pLab.isHpRetire)) st
        else (true, st),
      fun st =>
        if lab.isHpRetire then
          visitEach visitLHSUnlessError3_0
            ((g.samelocs lab).filter (fun pLab => pLab.isFree && !pLab.isHpRetire)) st
        else (true, st),
      fun st =>
        if lab.isHpRetire then
          visitEach visitLHSUnlessError3_0
            ((g.samelocs lab).filter (fun pLab => pLab.isHpRetire)) st
        else (true, st) ] st

/-- `JAM21Driver::visitUnlessError3`. -/
def visitUnlessError3 (g : ExecutionGraph) (lab : EventLabel) (st : DriverState) :
    Bool × DriverState :=
  match visitLHSUnlessError3_1 g lab st with
  | (false, st1) => (false, st1)
  | (true, st1) => acceptingLoop g st1

/-- `JAM21Driver::checkError3`. -/
def checkError3 (g : ExecutionGraph) (lab : EventLabel) (st : DriverState) :
    Bool × DriverState :=
  unlessThen (visitUnlessError3 g lab st) (visitError3 lab)

/-- `JAM21Driver::visitError4`. -/
def visitError4 (_lab : EventLabel) : Bool := false

/-- `JAM21Driver::visitLHSUnlessError4_0`: a label outside the view becomes the
counterexample. -/
def visitLHSUnlessError4_0 (lab : EventLabel) (v : View) (st : DriverState) :
    Bool × DriverState :=
  if !v.contains lab.pos then (false, { st with cexLab := some lab }) else (true, st)

/-- `JAM21Driver::visitLHSUnlessError4_1`. -/
def visitLHSUnlessError4_1 (g : ExecutionGraph) (lab : EventLabel) (v : View)
    (st : DriverState) : Bool × DriverState :=
  visitEach (fun pLab => visitLHSUnlessError4_0 pLab v) (g.alloc_succs lab) st

/-- `JAM21Driver::visitLHSUnlessError4_2`. -/
def visitLHSUnlessError4_2 (g : ExecutionGraph) (lab : EventLabel) (v : View)
    (st : DriverState) : Bool × DriverState :=
  inOrder
    [ fun st =>
        if lab.isFree && !lab.isHpRetire then
          visitEach (fun pLab => visitLHSUnlessError4_1 g pLab v) (g.free_pred lab).toList st
        else (true, st),
      fun st =>
        if lab.isFree && !lab.isHpRetire then
          visitEach (fun pLab => visitLHSUnlessError4_0 pLab v) (g.free_pred lab).toList st
        else (true, st) ] st

/-- `JAM21Driver::visitUnlessError4`. -/
def visitUnlessError4 (g : ExecutionGraph) (lab : EventLabel) (st : DriverState) :
    Bool × DriverState :=
  visitLHSUnlessError4_2 g lab lab.view0 st

/-- `JAM21Driver::checkError4`: the two calls are commented out in the source
and the function returns `true`. -/
def checkError4 (_g : ExecutionGraph) (_lab : EventLabel) (st : DriverState) :
    Bool × DriverState :=
  (true, st)

/-- `JAM21Driver::visitError5`. -/
def visitError5 (_lab : EventLabel) : Bool := false

/-- `JAM21Driver::visitLHSUnlessError5_0`: returns `false` and leaves the
counterexample slot as it is. -/
def visitLHSUnlessError5_0 (_lab : EventLabel) (st : DriverState) : Bool × DriverState :=
  (false, st)

/-- `JAM21Driver::visitLHSUnlessError5_1`. -/
def visitLHSUnlessError5_1 (g : ExecutionGraph) (lab : EventLabel) (st : DriverState) :
    Bool × DriverState :=
  visitEach visitLHSUnlessError5_0
    ((g.free_succ lab).toList.filter (fun pLab => pLab.isFree && !pLab.isHpRetire)) st

/-- `JAM21Driver::visitLHSUnlessError5_2`. -/
def visitLHSUnlessError5_2 (g : ExecutionGraph) (lab : EventLabel) (st : DriverState) :
    Bool × DriverState :=
  visitEach (fun pLab => visitLHSUnlessError5_1 g pLab) (g.alloc_pred lab).toList st

/-- `JAM21Driver::visitUnlessError5`. -/
def visitUnlessError5 (g : ExecutionGraph) (lab : EventLabel) (st : DriverState) :
    Bool × DriverState :=
  match visitLHSUnlessError5_2 g lab st with
  | (false, st1) => (false, st1)
  | (true, st1) => acceptingLoop g st1

/-- `JAM21Driver::checkError5`. -/
def checkError5 (g : ExecutionGraph) (lab : EventLabel) (st : DriverState) :
    Bool × DriverState :=
  unlessThen (visitUnlessError5 g lab st) (visitError5 lab)

/-- The guard `isa<MemAccessLabel>(l) && getAddr().isDynamic() &&
!isHazptrProtected(l)` of the hazard-pointer checks. -/
def unprotectedDynAccess (g : ExecutionGraph) (l : EventLabel) : Bool :=
  l.isMemAccess && g.isDynamic l.addr && !g.isHazptrProtected l

/-- `JAM21Driver::visitError6`. -/
def visitError6 (_lab : EventLabel) : Bool := false

/-- `JAM21Driver::visitLHSUnlessError6_0`: a label outside the view becomes the
counterexample. -/
def visitLHSUnlessError6_0 (lab : EventLabel) (v : View) (st : DriverState) :
    Bool × DriverState :=
  if !v.contains lab.pos then (false, { st with cexLab := some lab }) else (true, st)

/-- `JAM21Driver::visitLHSUnlessError6_1`. -/
def visitLHSUnlessError6_1 (g : ExecutionGraph) (lab : EventLabel) (v : View)
    (st : DriverState) : Bool × DriverState :=
  visitEach (fun pLab => visitLHSUnlessError6_0 pLab v)
    ((g.alloc_succs lab).filter (unprotectedDynAccess g)) st

/-- `JAM21Driver::visitLHSUnlessError6_2`. -/
def visitLHSUnlessError6_2 (g : ExecutionGraph) (lab : EventLabel) (v : View)
    (st : DriverState) : Bool × DriverState :=
  inOrder
    [ fun st =>
        if lab.isHpRetire then
          visitEach (fun pLab => visitLHSUnlessError6_1 g pLab v) (g.free_pred lab).toList st
        else (true, st),
      fun st =>
        if lab.isHpRetire then
          visitEach (fun pLab => visitLHSUnlessError6_0 pLab v)
            ((g.free_pred lab).toList.filter (unprotectedDynAccess g)) st
        else (true, st) ] st

/-- `JAM21Driver::visitUnlessError6`. -/
def visitUnlessError6 (g : ExecutionGraph) (lab : EventLabel) (st : DriverState) :
    Bool × DriverState :=
  visitLHSUnlessError6_2 g lab lab.view0 st

/-- `JAM21Driver::checkError6`. -/
def checkError6 (g : ExecutionGraph) (lab : EventLabel) (st : DriverState) :
    Bool × DriverState :=
  unlessThen (visitUnlessError6 g lab st) (visitError6 lab)

/-- `JAM21Driver::visitError7`. -/
def visitError7 (_lab : EventLabel) : Bool := false

/-- `JAM21Driver::visitLHSUnlessError7_0`: returns `false` and leaves the
counterexample slot as it is. -/
def visitLHSUnlessError7_0 (_lab : EventLabel) (st : DriverState) : Bool × DriverState :=
  (false, st)

/-- `JAM21Driver::visitLHSUnlessError7_1`. -/
def visitLHSUnlessError7_1 (g : ExecutionGraph) (lab : EventLabel) (st : DriverState) :
    Bool × DriverState :=
  visitEach visitLHSUnlessError7_0
    ((g.free_succ lab).toList.filter (fun pLab => pLab.isHpRetire)) st

/-- `JAM21Driver::visitLHSUnlessError7_2`. -/
def visitLHSUnlessError7_2 (g : ExecutionGraph) (lab : EventLabel) (st : DriverState) :
    Bool × DriverState :=
  if unprotectedDynAccess g lab then
    visitEach (fun pLab => visitLHSUnlessError7_1 g pLab) (g.alloc_pred lab).toList st
  else (true, st)

/-- `JAM21Driver::visitUnlessError7`. -/
def visitUnlessError7 (g : ExecutionGraph) (lab : EventLabel) (st : DriverState) :
    Bool × DriverState :=
  match visitLHSUnlessError7_2 g lab st with
  | (false, st1) => (false, st1)
  | (true, st1) => acceptingLoop g st1

/-- `JAM21Driver::checkError7`. -/
def checkError7 (g : ExecutionGraph) (lab : EventLabel) (st : DriverState) :
    Bool × DriverState :=
  unlessThen (visitUnlessError7 g lab st) (visitError7 lab)

/-- `JAM21Driver::visitError8`. -/
def visitError8 (_lab : EventLabel) : Bool := false

/-- `JAM21Driver::visitLHSUnlessError8_0`: a label outside the view becomes the
counterexample. -/
def visitLHSUnlessError8_0 (lab : EventLabel) (v : View) (st : DriverState) :
    Bool × DriverState :=
  if !v.contains lab.pos then (false, { st with cexLab := some lab }) else (true, st)

/-- `JAM21Driver::visitLHSUnlessError8_1`: the six pairings of the event under
test with a same-location access. -/
def visitLHSUnlessError8_1 (g : ExecutionGraph) (lab : EventLabel) (v : View)
    (st : DriverState) : Bool × DriverState :=
  inOrder
    [ fun st =>
        if lab.isNotAtomic && lab.isWrite then
          visitEach (fun pLab => visitLHSUnlessError8_0 pLab v)
            ((g.samelocs lab).filter (fun pLab => pLab.isWrite)) st
        else (true, st),
      fun st =>
        if lab.isNotAtomic && lab.isWrite then
          visitEach (fun pLab => visitLHSUnlessError8_0 pLab v)
            ((g.samelocs lab).filter (fun pLab => pLab.isRead)) st
        else (true, st),
      fun st =>
        if lab.isNotAtomic && lab.isRead then
          visitEach (fun pLab => visitLHSUnlessError8_0 pLab v)
            ((g.samelocs lab).filter (fun pLab => pLab.isWrite)) st
        else (true, st),
      fun st =>
        if lab.isWrite then
          visitEach (fun pLab => visitLHSUnlessError8_0 pLab v)
            ((g.samelocs lab).filter (fun pLab => pLab.isNotAtomic && pLab.isWrite)) st
        else (true, st),
      fun st =>
        if lab.isWrite then
          visitEach (fun pLab => visitLHSUnlessError8_0 pLab v)
            ((g.samelocs lab).filter (fun pLab => pLab.isNotAtomic && pLab.isRead)) st
        else (true, st),
      fun st =>
        if lab.isRead then
          visitEach (fun pLab => visitLHSUnlessError8_0 pLab v)
            ((g.samelocs lab).filter (fun pLab => pLab.isNotAtomic && pLab.isWrite)) st
        else (true, st) ] st

/-- `JAM21Driver::visitUnlessError8`. -/
def visitUnlessError8 (g : ExecutionGraph) (lab : EventLabel) (st : DriverState) :
    Bool × DriverState :=
  visitLHSUnlessError8_1 g lab lab.view0 st

/-- `JAM21Driver::checkError8`. -/
def checkError8 (g : ExecutionGraph) (lab : EventLabel) (st : DriverState) :
    Bool × DriverState :=
  unlessThen (visitUnlessError8 g lab st) (visitError8 lab)

/-- `JAM21Driver::visitWarning9`. -/
def visitWarning9 (_lab : EventLabel) : Bool := false

/-- `JAM21Driver::visitLHSUnlessWarning9_0`: a label outside the view becomes
the counterexample. -/
def visitLHSUnlessWarning9_0 (lab : EventLabel) (v : View) (st : DriverState) :
    Bool × DriverState :=
  if !v.contains lab.pos then (false, { st with cexLab := some lab }) else (true, st)

/-- `JAM21Driver::visitLHSUnlessWarning9_1`. -/
def visitLHSUnlessWarning9_1 (g : ExecutionGraph) (lab : EventLabel) (v : View)
    (st : DriverState) : Bool × DriverState :=
  if lab.isWrite then
    visitEach (fun pLab => visitLHSUnlessWarning9_0 pLab v)
      ((g.samelocs lab).filter (fun pLab => pLab.isWrite)) st
  else (true, st)

/-- `JAM21Driver::visitUnlessWarning9`. -/
def visitUnlessWarning9 (g : ExecutionGraph) (lab : EventLabel) (st : DriverState) :
    Bool × DriverState :=
  visitLHSUnlessWarning9_1 g lab lab.view0 st

/-- `JAM21Driver::checkWarning9`: the body is commented out in the source and
the function returns `true`. -/
def checkWarning9 (_g : ExecutionGraph) (_lab : EventLabel) (st : DriverState) :
    Bool × DriverState :=
  (true, st)

/-- `JAM21Driver::checkErrors`: the verdict, the value of the output parameter
`race` after the call (its value before the call when no check fails) and the
driver state after the call. -/
def checkErrors (g : ExecutionGraph) (lab : EventLabel) (race : Option EventLabel)
    (st : DriverState) : VerificationError × Option EventLabel × DriverState :=
  match checkError2 g lab st with
  | (false, st2) => (VerificationError.VE_AccessNonMalloc, st2.cexLab, st2)
  | (true, st2) =>
    match checkError3 g lab st2 with
    | (false, st3) => (VerificationError.VE_DoubleFree, st3.cexLab, st3)
    | (true, st3) =>
      match checkError4 g lab st3 with
      | (false, st4) => (VerificationError.VE_AccessFreed, st4.cexLab, st4)
      | (true, st4) =>
        match checkError5 g lab st4 with
        | (false, st5) => (VerificationError.VE_AccessFreed, st5.cexLab, st5)
        | (true, st5) =>
          match checkError6 g lab st5 with
          | (false, st6) => (VerificationError.VE_AccessFreed, st6.cexLab, st6)
          | (true, st6) =>
            match checkError7 g lab st6 with
            | (false, st7) => (VerificationError.VE_AccessFreed, st7.cexLab, st7)
            | (true, st7) =>
              match checkError8 g lab st7 with
              | (false, st8) => (VerificationError.VE_RaceNotAtomic, st8.cexLab, st8)
              | (true, st8) => (VerificationError.VE_OK, race, st8)

/-- `JAM21Driver::checkWarnings`: the returned warnings, `racyLabs` after the
call and the driver state after the call. -/
def checkWarnings (g : ExecutionGraph) (lab : EventLabel)
    (seenWarnings : List VerificationError) (racyLabs : List (Option EventLabel))
    (st : DriverState) :
    List VerificationError × List (Option EventLabel) × DriverState :=
  if seenWarnings.count VerificationError.VE_WWRace = 0 then
    match checkWarning9 g lab st with
    | (false, st1) => ([VerificationError.VE_WWRace], racyLabs ++ [st1.cexLab], st1)
    | (true, st1) => ([], racyLabs, st1)
  else ([], racyLabs, st)

/-- The writes coherence-after a candidate source `w` at `addr`: the whole
coherence list when `w` is `Init`, else the writes after `w`. -/
def coAfter (g : ExecutionGraph) (addr : SAddr) (w : Event) : List EventLabel :=
  if w.isInitializer then g.co addr
  else ((g.co addr).dropWhile (fun l => decide (l.pos ≠ w))).drop 1

/-- Legality of a source `w` for a read relative to its causal history: no
write coherence-after `w` is itself, or is read by a read that is, contained in
`view(0)` of the read. -/
def legalSource (g : ExecutionGraph) (addr : SAddr) (read w : Event) : Bool :=
  !((coAfter g addr w).any (fun w2 =>
      (viewAt g read).contains w2.pos
        || (g.readers w2).any (fun r => (viewAt g read).contains r.pos)))

/-- The write at index `i` of a coherence list exists and is not an RMW
store. -/
def nonRMWAt (g : ExecutionGraph) (co : List EventLabel) (i : Nat) : Bool :=
  match co.get? i with
  | some sLab => !g.isRMWStore sLab.pos
  | none => false

/-- The outcome of a check that either passes and leaves the state as it is
(`none`) or fails with the given label stored in the counterexample slot. -/
def cexResult (r : Option EventLabel) (st : DriverState) : Bool × DriverState :=
  match r with
  | none => (true, st)
  | some p => (false, { st with cexLab := some p })

/-- The initial candidate list of `getCoherentRevisits`: `getRevisitableFrom` on
the fast path, the graph's `getRevisitable` otherwise. -/
def revisitCandidates (g : ExecutionGraph) (sLab : EventLabel) (pporf : View) : List Event :=
  match (g.co sLab.addr).reverse.find? (fun lab => decide (lab.pos ≠ sLab.pos)) with
  | some prevCoMax =>
    if pporf.contains prevCoMax.pos then getRevisitableFrom g sLab pporf prevCoMax
    else g.getRevisitable sLab pporf
  | none => g.getRevisitable sLab pporf

/-- The exclusion test in the words of the specification: `view(0)` of the read
`e` contains some coherence-successor of the store, or some read that reads
from a coherence-successor of the store. -/
def seesCoAfter (g : ExecutionGraph) (sLab : EventLabel) (e : Event) : Bool :=
  (g.co_succs sLab).any (fun w =>
    (viewAt g e).contains w.pos
      || (g.readers w).any (fun r => (viewAt g e).contains r.pos))

/-- The racing pairs in the words of the specification: both labels are a read
or a write, at least one is a write and at least one is not atomic. -/
def racePair (lab p : EventLabel) : Bool :=
  lab.isMemAccess && p.isMemAccess && (lab.isWrite || p.isWrite)
    && (lab.isNotAtomic || p.isNotAtomic)

/-- The same-location labels that `visitLHSUnlessError8_1` passes to
`visitLHSUnlessError8_0`, in the order of its six loops. -/
def raceCands (g : ExecutionGraph) (lab : EventLabel) : List EventLabel :=
  [ if lab.isNotAtomic && lab.isWrite then
      (g.samelocs lab).filter (fun pLab => pLab.isWrite) else [],
    if lab.isNotAtomic && lab.isWrite then
      (g.samelocs lab).filter (fun pLab => pLab.isRead) else [],
    if lab.isNotAtomic && lab.isRead then
      (g.samelocs lab).filter (fun pLab => pLab.isWrite) else [],
    if lab.isWrite then
      (g.samelocs lab).filter (fun pLab => pLab.isNotAtomic && pLab.isWrite) else [],
    if lab.isWrite then
      (g.samelocs lab).filter (fun pLab => pLab.isNotAtomic && pLab.isRead) else [],
    if lab.isRead then
      (g.samelocs lab).filter (fun pLab => pLab.isNotAtomic && pLab.isWrite) else [] ].flatten

/-- The same-location labels that `visitLHSUnlessError3_1` passes to
`visitLHSUnlessError3_0`, in the order of its four loops. -/
def freeCands (g : ExecutionGraph) (lab : EventLabel) : List EventLabel :=
  [ if lab.isFree && !lab.isHpRetire then
      (g.samelocs lab).filter (fun pLab => pLab.isFree && !pLab.isHpRetire) else [],
    if lab.isFree && !lab.isHpRetire then
      (g.samelocs lab).filter (fun pLab => pLab.isHpRetire) else [],
    if lab.isHpRetire then
      (g.samelocs lab).filter (fun pLab => pLab.isFree && !pLab.isHpRetire) else [],
    if lab.isHpRetire then
      (g.samelocs lab).filter (fun pLab => pLab.isHpRetire) else [] ].flatten

/-- The allocation of `lab` has a successor free that is not a hazard-pointer
retire: the pattern searched by `visitLHSUnlessError5_2`. -/
def hasPlainFree (g : ExecutionGraph) (lab : EventLabel) : Bool :=
  match g.alloc_pred lab with
  | none => false
  | some a =>
    match g.free_succ a with
    | none => false
    | some f => f.isFree && !f.isHpRetire

/-- The allocation of an unprotected dynamic access `lab` has a successor free
that is a hazard-pointer retire: the pattern searched by
`visitLHSUnlessError7_2`. -/
def hasRetireFree (g : ExecutionGraph) (lab : EventLabel) : Bool :=
  unprotectedDynAccess g lab &&
    (match g.alloc_pred lab with
     | none => false
     | some a =>
       match g.free_succ a with
       | none => false
       | some f => f.isHpRetire)

/-- The labels that `visitLHSUnlessError6_2` passes to `visitLHSUnlessError6_0`,
in order: for a hazard-pointer retire, the unprotected dynamic accesses among
the alloc-successors of its allocation, then the allocation itself when it
passes the same guard. -/
def retireCands (g : ExecutionGraph) (lab : EventLabel) : List EventLabel :=
  [ if lab.isHpRetire then
      (g.free_pred lab).toList.flatMap
        (fun a => (g.alloc_succs a).filter (unprotectedDynAccess g)) else [],
    if lab.isHpRetire then
      (g.free_pred lab).toList.filter (unprotectedDynAccess g) else [] ].flatten

/-- The candidates of `getRevisitableFrom` before the stamp test: the readers of
`coPred` outside `pporf` at the address of the store that are revisitable and
were added maximally. -/
def revisitableReaders (g : ExecutionGraph) (sLab : EventLabel) (pporf : View)
    (coPred : EventLabel) : List Event :=
  ((g.readers coPred).filter (fun rLab =>
    !pporf.contains rLab.pos && decide (rLab.addr = sLab.addr)
      && rLab.revisitable && rLab.addedMax)).map (fun rLab => rLab.pos)

/-- The second component of the join of `calcPPoRfBefore`: the prefix view of
the previous label of `lab`, the empty view when there is none. -/
def ppoPrevView (g : ExecutionGraph) (lab : EventLabel) : View :=
  match g.getPreviousLabel lab with
  | none => View.empty
  | some pLab => pLab.prefixView

/-- The third component of the join of `calcPPoRfBefore`: for a previous label
that is a read, the prefix view of the write it reads from; for a thread start,
that of its parent thread creation; for a thread join, that of the last label
of the joined thread; the empty view otherwise. -/
def ppoExtraView (g : ExecutionGraph) (lab : EventLabel) : View :=
  match g.getPreviousLabel lab with
  | none => View.empty
  | some pLab =>
    if pLab.kind = EventLabelKind.Read then
      (match pLab.rf with
       | some w => prefixViewAt g w
       | none => View.empty)
    else if pLab.kind = EventLabelKind.ThreadStart then prefixViewAt g pLab.parentCreate
    else if pLab.kind = EventLabelKind.ThreadJoin then
      (match g.getLastThreadLabel pLab.childId with
       | some l => l.prefixView
       | none => View.empty)
    else View.empty

/-- The pattern of `calculateRA` in the words of the specification: `lab` has
the immediate predecessor `e1`, which has the immediate predecessor `e0`; `e1`
is a read or a write with ordering acquire, release or sequentially
consistent. -/
def raPattern (g : ExecutionGraph) (lab e1 e0 : EventLabel) : Prop :=
  g.po_imm_pred lab = some e1 ∧ g.po_imm_pred e1 = some e0
    ∧ (e1.kind = EventLabelKind.Read ∨ e1.kind = EventLabelKind.Write)
    ∧ (e1.ordering = AtomicOrdering.Acquire ∨ e1.ordering = AtomicOrdering.Release
        ∨ e1.ordering = AtomicOrdering.SequentiallyConsistent)

/-- The pattern of `calculateSVO` in the words of the specification: going
backwards from `lab` by immediate predecessors, an acquire fence `f1`, a read
or write `a`, a release fence `f2`, and then `e0`. -/
def svoPattern (g : ExecutionGraph) (lab f1 a f2 e0 : EventLabel) : Prop :=
  g.po_imm_pred lab = some f1
    ∧ (f1.kind = EventLabelKind.Fence ∧ f1.ordering = AtomicOrdering.Acquire)
    ∧ g.po_imm_pred f1 = some a
    ∧ (a.kind = EventLabelKind.Read ∨ a.kind = EventLabelKind.Write)
    ∧ g.po_imm_pred a = some f2
    ∧ (f2.kind = EventLabelKind.Fence ∧ f2.ordering = AtomicOrdering.Release)
    ∧ g.po_imm_pred f2 = some e0

/-! ### Example graphs -/

/-- The initial label `(0,0)` of the main thread. -/
def initLab : EventLabel :=
  { pos := ⟨0, 0⟩, kind := EventLabelKind.Init, stamp := 0, view0 := ⟨[0]⟩ }

/-- The read `(0,1)` of address 0, reading from the write placed after it. -/
def cycRead : EventLabel :=
  { pos := ⟨0, 1⟩, kind := EventLabelKind.Read, stamp := 1, view0 := ⟨[1]⟩,
    rf := some ⟨0, 2⟩ }

/-- The write `(0,2)` of address 0, program-order after `cycRead`. -/
def cycWrite : EventLabel :=
  { pos := ⟨0, 2⟩, kind := EventLabelKind.Write, stamp := 2, view0 := ⟨[2]⟩ }

/-- A graph whose main thread reads address 0 from its own later write. -/
def cycGraph : ExecutionGraph :=
  { labels := [initLab, cycRead, cycWrite],
    co := fun a => if a = 0 then [cycWrite] else [] }

/-- A thread creation by the main thread at index `i`. -/
def createLab (i : Nat) (stamp : Nat) : EventLabel :=
  { pos := ⟨0, i⟩, kind := EventLabelKind.ThreadCreate, stamp := stamp,
    view0 := ⟨[(i : Int)]⟩ }

/-- The start `(t,0)` of thread `t`, with the given prefix view. -/
def startLab (t : Nat) (stamp : Nat) (v : List Int) : EventLabel :=
  { pos := ⟨t, 0⟩, kind := EventLabelKind.ThreadStart, stamp := stamp, view0 := ⟨v⟩ }

/-- The thread-create linkage of the example graphs: a creation by the main
thread at index `i` is linked to the thread start whose prefix view holds the
main thread up to `i`. -/
def tcLink (labels : List EventLabel) (l : EventLabel) : Option EventLabel :=
  if l.kind = EventLabelKind.ThreadCreate then
    labels.find? (fun s => decide (s.kind = EventLabelKind.ThreadStart)
      && decide (s.view0.getMax 0 = l.pos.index))
  else none

/-- The write `(0,1)` of address 0 in the main thread. -/
def hbWrite : EventLabel :=
  { pos := ⟨0, 1⟩, kind := EventLabelKind.Write, stamp := 1, view0 := ⟨[1]⟩ }

/-- The read `(1,1)` of address 0 in thread 1; its prefix view holds the main
thread up to the creation of thread 1, hence `hbWrite`. -/
def hbRead : EventLabel :=
  { pos := ⟨1, 1⟩, kind := EventLabelKind.Read, stamp := 4, view0 := ⟨[2, 1]⟩ }

/-- The labels of `hbGraph`. -/
def hbLabels : List EventLabel :=
  [initLab, hbWrite, createLab 2 2, startLab 1 3 [2, 0], hbRead]

/-- A graph in which the main thread writes address 0 and then creates thread
1, so that the write is causally before the read of thread 1. -/
def hbGraph : ExecutionGraph :=
  { labels := hbLabels,
    co := fun a => if a = 0 then [hbWrite] else [],
    tc_succ := tcLink hbLabels }

/-- The first write `(1,1)` of address 0 by thread 1. -/
def scenW1 : EventLabel :=
  { pos := ⟨1, 1⟩, kind := EventLabelKind.Write, stamp := 4, view0 := ⟨[1, 1]⟩ }

/-- The second write `(1,2)` of address 0 by thread 1. -/
def scenW2 : EventLabel :=
  { pos := ⟨1, 2⟩, kind := EventLabelKind.Write, stamp := 5, view0 := ⟨[1, 2]⟩ }

/-- The read `(2,1)` of address 0 by thread 2, with no write of thread 1 in its
prefix view. -/
def scenRead : EventLabel :=
  { pos := ⟨2, 1⟩, kind := EventLabelKind.Read, stamp := 7, view0 := ⟨[2, 0, 1]⟩ }

/-- The labels of the scenario graph. -/
def scenLabels : List EventLabel :=
  [initLab, createLab 1 1, createLab 2 2, startLab 1 3 [1, 0], scenW1, scenW2,
    startLab 2 6 [2, 0, 0], scenRead]

/-- The scenario graph: thread 1 writes address 0 twice, thread 2 reads it. -/
def scenGraph : ExecutionGraph :=
  { labels := scenLabels,
    co := fun a => if a = 0 then [scenW1, scenW2] else [],
    tc_succ := tcLink scenLabels }

/-- The labels of the scenario graph with the read in thread 1. -/
def scenPoLabels : List EventLabel :=
  [initLab, createLab 1 1, startLab 1 3 [1, 0], scenW1, scenW2,
    { pos := ⟨1, 3⟩, kind := EventLabelKind.Read, stamp := 6, view0 := ⟨[1, 3]⟩ }]

/-- The scenario graph with the read placed in thread 1 after the two writes. -/
def scenGraphPo : ExecutionGraph :=
  { labels := scenPoLabels,
    co := fun a => if a = 0 then [scenW1, scenW2] else [],
    tc_succ := tcLink scenPoLabels }

/-- The read `(2,1)` of address 0 reading from `scenW1`, the read part of an
RMW. -/
def rmwRead : EventLabel :=
  { pos := ⟨2, 1⟩, kind := EventLabelKind.Read, stamp := 7, view0 := ⟨[2, 1, 1]⟩,
    rf := some ⟨1, 1⟩ }

/-- The write part `(2,2)` of the RMW, not yet placed in the coherence order. -/
def rmwStore : EventLabel :=
  { pos := ⟨2, 2⟩, kind := EventLabelKind.Write, stamp := 8, view0 := ⟨[2, 1, 2]⟩ }

/-- The labels of `rmwGraph`. -/
def rmwLabels : List EventLabel :=
  [initLab, createLab 1 1, createLab 2 2, startLab 1 3 [1, 0], scenW1, scenW2,
    startLab 2 6 [2, 0, 0], rmwRead, rmwStore]

/-- A graph with an RMW in thread 2 whose read part reads from `scenW1`. -/
def rmwGraph : ExecutionGraph :=
  { labels := rmwLabels,
    co := fun a => if a = 0 then [scenW1, scenW2] else [],
    isRMWStore := fun e => decide (e = ⟨2, 2⟩),
    tc_succ := tcLink rmwLabels }

/-- A plain store `(2,1)` of address 0 by thread 2, not yet placed in the
coherence order. -/
def placeStore : EventLabel :=
  { pos := ⟨2, 1⟩, kind := EventLabelKind.Write, stamp := 7, view0 := ⟨[2, 0, 1]⟩ }

/-- The labels of `placeGraph`. -/
def placeLabels : List EventLabel :=
  [initLab, createLab 1 1, createLab 2 2, startLab 1 3 [1, 0], scenW1, scenW2,
    startLab 2 6 [2, 0, 0], placeStore]

/-- A graph in which thread 1 has written address 0 twice and thread 2 adds a
plain store to it. -/
def placeGraph : ExecutionGraph :=
  { labels := placeLabels,
    co := fun a => if a = 0 then [scenW1, scenW2] else [],
    tc_succ := tcLink placeLabels }

/-- The earlier write `(1,1)` of address 0. -/
def revOld : EventLabel :=
  { pos := ⟨1, 1⟩, kind := EventLabelKind.Write, stamp := 5, view0 := ⟨[1, 1]⟩ }

/-- The read `(2,1)` of address 0 that reads from `revOld`. -/
def revRead : EventLabel :=
  { pos := ⟨2, 1⟩, kind := EventLabelKind.Read, stamp := 7, view0 := ⟨[2, 1, 1]⟩,
    rf := some ⟨1, 1⟩ }

/-- The read `(3,1)` of address 0 in thread 3, also reading from `revOld`. -/
def revOwnRead : EventLabel :=
  { pos := ⟨3, 1⟩, kind := EventLabelKind.Read, stamp := 9, view0 := ⟨[3, 1, 0, 1]⟩,
    rf := some ⟨1, 1⟩ }

/-- The new store `(3,2)` of address 0, after `revOwnRead`. -/
def revStore : EventLabel :=
  { pos := ⟨3, 2⟩, kind := EventLabelKind.Write, stamp := 10, view0 := ⟨[3, 1, 0, 2]⟩ }

/-- The labels of `revGraph`. -/
def revLabels : List EventLabel :=
  [initLab, createLab 1 1, createLab 2 2, createLab 3 3, startLab 1 4 [1, 0], revOld,
    startLab 2 6 [2, 0, 0], revRead, startLab 3 8 [3, 0, 0, 0], revOwnRead, revStore]

/-- A graph in which the new store of thread 3 is coherence-last, the previous
coherence maximum is in its prefix view, and that write has a reader in thread
2 outside the view. -/
def revGraph : ExecutionGraph :=
  { labels := revLabels,
    co := fun a => if a = 0 then [revOld, revStore] else [],
    tc_succ := tcLink revLabels }

/-- The new store `(1,1)` of address 0, first in the coherence order. -/
def filtStore : EventLabel :=
  { pos := ⟨1, 1⟩, kind := EventLabelKind.Write, stamp := 1, view0 := ⟨[0, 1]⟩ }

/-- The write `(2,1)` of address 0, coherence-after `filtStore`. -/
def filtLater : EventLabel :=
  { pos := ⟨2, 1⟩, kind := EventLabelKind.Write, stamp := 2, view0 := ⟨[0, 0, 1]⟩ }

/-- The read `(3,1)` of address 0 that reads from `filtLater`. -/
def filtSeen : EventLabel :=
  { pos := ⟨3, 1⟩, kind := EventLabelKind.Read, stamp := 3, view0 := ⟨[0, 0, 1, 1]⟩,
    rf := some ⟨2, 1⟩ }

/-- The read `(4,1)` of address 0 that reads from `Init`. -/
def filtFree : EventLabel :=
  { pos := ⟨4, 1⟩, kind := EventLabelKind.Read, stamp := 4, view0 := ⟨[0, 0, 0, 0, 1]⟩,
    rf := some ⟨0, 0⟩ }

/-- A graph in which the store is not coherence-maximal and one of the two
revisitable reads has the later write in its view. -/
def filtGraph : ExecutionGraph :=
  { labels := [initLab, filtStore, filtLater, filtSeen, filtFree],
    co := fun a => if a = 0 then [filtStore, filtLater] else [],
    getRevisitable := fun _ _ => [⟨3, 1⟩, ⟨4, 1⟩] }

/-- The allocation `(0,1)` of address 100. -/
def heapAlloc : EventLabel :=
  { pos := ⟨0, 1⟩, kind := EventLabelKind.Malloc, stamp := 1, addr := 100, view0 := ⟨[1]⟩ }

/-- The first free `(0,2)` of address 100. -/
def heapFree1 : EventLabel :=
  { pos := ⟨0, 2⟩, kind := EventLabelKind.Free, stamp := 2, addr := 100, view0 := ⟨[2]⟩ }

/-- The second free `(0,3)` of address 100. -/
def heapFree2 : EventLabel :=
  { pos := ⟨0, 3⟩, kind := EventLabelKind.Free, stamp := 3, addr := 100, view0 := ⟨[3]⟩ }

/-- A graph whose main thread allocates address 100 and frees it twice. -/
def dfGraph : ExecutionGraph :=
  { labels := [initLab, heapAlloc, heapFree1, heapFree2],
    samelocs := fun l =>
      if l = heapFree2 then [heapFree1] else if l = heapFree1 then [heapFree2] else [],
    free_pred := fun l => if l = heapFree1 ∨ l = heapFree2 then some heapAlloc else none,
    free_succ := fun l => if l = heapAlloc then some heapFree1 else none,
    isDynamic := fun a => decide (a = 100) }

/-- The hazard-pointer retire `(0,3)` of address 100. -/
def heapRetire : EventLabel :=
  { pos := ⟨0, 3⟩, kind := EventLabelKind.HpRetire, stamp := 3, addr := 100,
    view0 := ⟨[3]⟩ }

/-- A graph whose main thread allocates address 100, frees it and then retires
it. -/
def retireGraph : ExecutionGraph :=
  { labels := [initLab, heapAlloc, heapFree1, heapRetire],
    samelocs := fun l =>
      if l = heapRetire then [heapFree1] else if l = heapFree1 then [heapRetire] else [],
    free_pred := fun l => if l = heapFree1 ∨ l = heapRetire then some heapAlloc else none,
    free_succ := fun l => if l = heapAlloc then some heapFree1 else none,
    isDynamic := fun a => decide (a = 100) }

/-- The allocation `(1,1)` of address 100 by thread 1. -/
def thrAlloc : EventLabel :=
  { pos := ⟨1, 1⟩, kind := EventLabelKind.Malloc, stamp := 1, addr := 100,
    view0 := ⟨[0, 1]⟩ }

/-- The write `(2,1)` to address 100 by thread 2, with nothing of thread 1 in
its prefix view. -/
def thrAccess : EventLabel :=
  { pos := ⟨2, 1⟩, kind := EventLabelKind.Write, stamp := 2, addr := 100,
    ordering := AtomicOrdering.Monotonic, view0 := ⟨[0, 0, 1]⟩ }

/-- A graph in which thread 2 accesses the address allocated by thread 1
without the allocation in its prefix view. -/
def nmGraph : ExecutionGraph :=
  { labels := [initLab, thrAlloc, thrAccess],
    co := fun a => if a = 100 then [thrAccess] else [],
    alloc_pred := fun l => if l = thrAccess then some thrAlloc else none,
    alloc_succs := fun l => if l = thrAlloc then [thrAccess] else [],
    isDynamic := fun a => decide (a = 100) }

/-- The free `(1,2)` of address 100 by thread 1, with the access of thread 2
outside its prefix view. -/
def thrFree : EventLabel :=
  { pos := ⟨1, 2⟩, kind := EventLabelKind.Free, stamp := 3, addr := 100,
    view0 := ⟨[0, 2]⟩ }

/-- A graph in which thread 1 frees the address while the access of thread 2
is not in the prefix view of the free. -/
def uafGraph : ExecutionGraph :=
  { labels := [initLab, thrAlloc, thrAccess, thrFree],
    co := fun a => if a = 100 then [thrAccess] else [],
    alloc_pred := fun l => if l = thrAccess then some thrAlloc else none,
    alloc_succs := fun l => if l = thrAlloc then [thrAccess] else [],
    free_pred := fun l => if l = thrFree then some thrAlloc else none,
    free_succ := fun l => if l = thrAlloc then some thrFree else none,
    isDynamic := fun a => decide (a = 100) }

/-- The read `(2,1)` of address 100 by thread 2, protected by a hazard
pointer. Its prefix view holds the allocation `(1,1)` of thread 1 and nothing
later of that thread. -/
def protRead : EventLabel :=
  { pos := ⟨2, 1⟩, kind := EventLabelKind.Read, stamp := 3, addr := 100,
    ordering := AtomicOrdering.Acquire, view0 := ⟨[0, 1, 1]⟩, rf := some ⟨0, 0⟩ }

/-- The free `(1,2)` of address 100 by thread 1, stamped before `protRead`. -/
def earlyFree : EventLabel :=
  { pos := ⟨1, 2⟩, kind := EventLabelKind.Free, stamp := 2, addr := 100,
    view0 := ⟨[0, 2]⟩ }

/-- A graph in which thread 1 allocates and frees address 100 and thread 2
reads it under hazard-pointer protection, with the allocation but not the free
in the prefix view of the read. -/
def protGraph : ExecutionGraph :=
  { labels := [initLab, thrAlloc, earlyFree, protRead],
    alloc_pred := fun l => if l = protRead then some thrAlloc else none,
    alloc_succs := fun l => if l = thrAlloc then [protRead] else [],
    free_pred := fun l => if l = earlyFree then some thrAlloc else none,
    free_succ := fun l => if l = thrAlloc then some earlyFree else none,
    isDynamic := fun a => decide (a = 100),
    isHazptrProtected := fun l => decide (l = protRead) }

/-- The hazard-pointer retire `(1,2)` of address 100 by thread 1, stamped before
`protRead`. -/
def earlyRetire : EventLabel :=
  { pos := ⟨1, 2⟩, kind := EventLabelKind.HpRetire, stamp := 2, addr := 100,
    view0 := ⟨[0, 2]⟩ }

/-- A graph in which thread 1 allocates and retires address 100 and thread 2
reads it under hazard-pointer protection, with the allocation but not the
retire in the prefix view of the read. -/
def protRetireGraph : ExecutionGraph :=
  { labels := [initLab, thrAlloc, earlyRetire, protRead],
    alloc_pred := fun l => if l = protRead then some thrAlloc else none,
    alloc_succs := fun l => if l = thrAlloc then [protRead] else [],
    free_pred := fun l => if l = earlyRetire then some thrAlloc else none,
    free_succ := fun l => if l = thrAlloc then some earlyRetire else none,
    isDynamic := fun a => decide (a = 100),
    isHazptrProtected := fun l => decide (l = protRead) }

/-- The graph `protRetireGraph` with no access protected by a hazard pointer. -/
def unprotRetireGraph : ExecutionGraph :=
  { protRetireGraph with isHazptrProtected := fun _ => false }

/-- The relaxed write `(1,1)` of address 0 by thread 1. -/
def wwFirst : EventLabel :=
  { pos := ⟨1, 1⟩, kind := EventLabelKind.Write, stamp := 1,
    ordering := AtomicOrdering.Monotonic, view0 := ⟨[0, 1]⟩ }

/-- The relaxed write `(2,1)` of address 0 by thread 2, with `wwFirst` outside
its prefix view. -/
def wwSecond : EventLabel :=
  { pos := ⟨2, 1⟩, kind := EventLabelKind.Write, stamp := 2,
    ordering := AtomicOrdering.Monotonic, view0 := ⟨[0, 0, 1]⟩ }

/-- A graph with two unordered atomic writes of address 0 by two threads. -/
def wwGraph : ExecutionGraph :=
  { labels := [initLab, wwFirst, wwSecond],
    co := fun a => if a = 0 then [wwFirst, wwSecond] else [],
    samelocs := fun l =>
      if l = wwSecond then [wwFirst] else if l = wwFirst then [wwSecond] else [] }

/-- The release write `(1,1)` of address 0. -/
def raMiddle : EventLabel :=
  { pos := ⟨1, 1⟩, kind := EventLabelKind.Write, stamp := 2,
    ordering := AtomicOrdering.Release, view0 := ⟨[0, 1]⟩, prefixView := ⟨[0, 1]⟩ }

/-- The relaxed read `(1,2)` of address 0 that reads from `Init`. -/
def raLast : EventLabel :=
  { pos := ⟨1, 2⟩, kind := EventLabelKind.Read, stamp := 3,
    ordering := AtomicOrdering.Monotonic, view0 := ⟨[0, 2]⟩, prefixView := ⟨[0, 2]⟩,
    rf := some ⟨0, 0⟩ }

/-- A graph whose thread 1 starts, writes with release ordering and reads. -/
def raGraph : ExecutionGraph :=
  { labels := [initLab, startLab 1 1 [0, 0], raMiddle, raLast],
    co := fun a => if a = 0 then [raMiddle] else [] }

/-- A fence at `(1,i)` with the given ordering. -/
def fenceLab (i : Nat) (stamp : Nat) (o : AtomicOrdering) : EventLabel :=
  { pos := ⟨1, i⟩, kind := EventLabelKind.Fence, stamp := stamp, ordering := o }

/-- The relaxed write `(1,2)` between the two fences. -/
def svoMiddle : EventLabel :=
  { pos := ⟨1, 2⟩, kind := EventLabelKind.Write, stamp := 3,
    ordering := AtomicOrdering.Monotonic }

/-- The relaxed read `(1,4)` after the acquire fence. -/
def svoLast : EventLabel :=
  { pos := ⟨1, 4⟩, kind := EventLabelKind.Read, stamp := 5,
    ordering := AtomicOrdering.Monotonic, rf := some ⟨0, 0⟩ }

/-- A graph whose thread 1 runs: start, release fence, write, acquire fence,
read. -/
def svoGraph : ExecutionGraph :=
  { labels := [initLab, startLab 1 1 [0, 0], fenceLab 1 2 AtomicOrdering.Release,
      svoMiddle, fenceLab 3 4 AtomicOrdering.Acquire, svoLast],
    co := fun a => if a = 0 then [svoMiddle] else [] }

/-- A write at `(1,i)` of address 0 with the given ordering. -/
def volLab (i : Nat) (stamp : Nat) (o : AtomicOrdering) : EventLabel :=
  { pos := ⟨1, i⟩, kind := EventLabelKind.Write, stamp := stamp, ordering := o }

/-- A graph whose thread 1 performs two sequentially consistent (volatile)
writes in a row. -/
def volGraph : ExecutionGraph :=
  { labels := [initLab, startLab 1 1 [0, 0],
      volLab 1 2 AtomicOrdering.SequentiallyConsistent,
      volLab 2 3 AtomicOrdering.SequentiallyConsistent],
    co := fun a =>
      if a = 0 then [volLab 1 2 AtomicOrdering.SequentiallyConsistent,
        volLab 2 3 AtomicOrdering.SequentiallyConsistent] else [] }

/-- A graph whose thread 1 performs a relaxed write followed by a sequentially
consistent write. -/
def volMixedGraph : ExecutionGraph :=
  { labels := [initLab, startLab 1 1 [0, 0],
      volLab 1 2 AtomicOrdering.Monotonic,
      volLab 2 3 AtomicOrdering.SequentiallyConsistent],
    co := fun a =>
      if a = 0 then [volLab 1 2 AtomicOrdering.Monotonic,
        volLab 2 3 AtomicOrdering.SequentiallyConsistent] else [] }

/-- The write `(0,1)` of address 0 by the main thread. -/
def ppoWrite : EventLabel :=
  { pos := ⟨0, 1⟩, kind := EventLabelKind.Write, stamp := 1,
    ordering := AtomicOrdering.Release, prefixView := ⟨[1]⟩ }

/-- The read `(1,1)` of address 0 by thread 1, reading from `ppoWrite`. -/
def ppoRead : EventLabel :=
  { pos := ⟨1, 1⟩, kind := EventLabelKind.Read, stamp := 3,
    ordering := AtomicOrdering.Acquire, prefixView := ⟨[0, 1]⟩, rf := some ⟨0, 1⟩ }

/-- The label `(1,2)` that follows the read in thread 1. -/
def ppoNext : EventLabel :=
  { pos := ⟨1, 2⟩, kind := EventLabelKind.Write, stamp := 4, addr := 1 }

/-- A graph in which thread 1 reads the write of the main thread and then adds
one more label. -/
def ppoGraph : ExecutionGraph :=
  { labels := [initLab, ppoWrite, startLab 1 2 [0, 0], ppoRead, ppoNext],
    co := fun a => if a = 0 then [ppoWrite] else [] }

/-- The hazard-pointer retire `(1,2)` of address 100 by thread 1, with the
access of thread 2 outside its view. -/
def thrRetire : EventLabel :=
  { pos := ⟨1, 2⟩, kind := EventLabelKind.HpRetire, stamp := 3, addr := 100,
    view0 := ⟨[0, 2]⟩ }

/-- A graph in which thread 1 retires the address it allocated while the
unprotected write of thread 2 to it is not in the view of the retire. -/
def hpGraph : ExecutionGraph :=
  { labels := [initLab, thrAlloc, thrAccess, thrRetire],
    co := fun a => if a = 100 then [thrAccess] else [],
    alloc_pred := fun l => if l = thrAccess then some thrAlloc else none,
    alloc_succs := fun l => if l = thrAlloc then [thrAccess] else [],
    free_pred := fun l => if l = thrRetire then some thrAlloc else none,
    free_succ := fun l => if l = thrAlloc then some thrRetire else none,
    isDynamic := fun a => decide (a = 100) }

/-- The graph `revGraph` with a pending RMW at `(1,1)`, stamped 5, before the
candidate read `(2,1)`, stamped 7. -/
def pendEarlyGraph : ExecutionGraph :=
  { revGraph with getPendingRMW := fun _ => ⟨1, 1⟩ }

/-- The graph `revGraph` with a pending RMW at `(3,1)`, stamped 9, after the
candidate read `(2,1)`, stamped 7. -/
def pendLateGraph : ExecutionGraph :=
  { revGraph with getPendingRMW := fun _ => ⟨3, 1⟩ }

/-! ## Theorems -/

/-- The boundary of `splitLocMOBefore` is an iterator of the coherence list. -/
theorem splitLocMOBefore_le (g : ExecutionGraph) (addr : SAddr) (e : Event) :
    splitLocMOBefore g addr e ≤ (g.co addr).length := by
  unfold splitLocMOBefore
  split
  · exact Nat.zero_le _
  · exact Nat.sub_le _ _

/-- For a boundary that is not `co_begin`, `posBefore` is the position of the
write just before it. -/
theorem posBefore_succ (co : List EventLabel) (k : Nat) (w : EventLabel)
    (h : co.get? k = some w) : posBefore co (k + 1) = w.pos := by
  unfold posBefore
  rw [Nat.add_sub_cancel, h]

/-- With `isWriteRfBefore` constantly false the reverse scan finds nothing and
the boundary is `co_begin`. -/
theorem splitLocMOBefore_eq_zero (g : ExecutionGraph) (addr : SAddr) (e : Event) :
    splitLocMOBefore g addr e = 0 := by
  unfold splitLocMOBefore
  have hnone : (g.co addr).reverse.findIdx? (fun lab => isWriteRfBefore g lab.pos e) = none :=
    List.findIdx?_eq_none_iff.mpr (fun _ _ => rfl)
  rw [hnone]

/-- The two paths of `getCoherentStores` with the dead dependency-tracking
branch removed. -/
theorem getCoherentStores_eq (g : ExecutionGraph) (addr : SAddr) (read : Event) :
    getCoherentStores g addr read =
      if (g.co_max addr).thread = read.thread ∧ (g.co_max addr).index < read.index then
        some [g.co_max addr]
      else
        some ((if splitLocMOBefore g addr read = 0 then Event.getInit
               else posBefore (g.co addr) (splitLocMOBefore g addr read))
              :: ((g.co addr).drop (splitLocMOBefore g addr read)).map (fun lab => lab.pos)) := by
  have htake : ∀ (b : Nat) (l : List EventLabel), (l.drop b).take (l.length - b) = l.drop b := by
    intro b l
    apply List.take_of_length_le
    simp
  unfold getCoherentStores ExecutionGraph.co_max
  by_cases hf : (match (g.co addr).getLast? with
      | none => Event.getInit
      | some l => l.pos).thread = read.thread ∧
      (match (g.co addr).getLast? with
      | none => Event.getInit
      | some l => l.pos).index < read.index
  · simp only [hf, and_self, if_true]
  · simp only [hf, if_false, isDepTracking, htake]
    by_cases hb : splitLocMOBefore g addr read = 0 <;> simp [hb]

/-- Claim C1, at a failing input: in the graph whose main thread reads
address 0 at `(0,1)` from its own later write `(0,2)`, `isConsistent` returns
true for every label and every state of the relation tables, although the
relation walked by `visitConsAcyclic1_0` has the cycle read -po-> write -rf->
read. -/
theorem isConsistent_accepts_cyclic_graph :
    (∀ (st : DriverState) (lab : EventLabel), (isConsistent cycGraph st lab).1 = true)
      ∧ hasConsCycle cycGraph := by
  refine ⟨fun st lab => rfl, cycRead, by decide, ?_⟩
  have h1 : consEdge cycGraph cycRead cycWrite := by decide
  have h2 : consEdge cycGraph cycWrite cycRead := by decide
  exact Relation.TransGen.tail (Relation.TransGen.single h1) h2

/-- Claim C2: for every address and read, `getCoherentStores` returns a list,
the list is not empty, and it contains `Init` or a write of the coherence order
of the address; on the fast path it has exactly one element. -/
theorem getCoherentStores_nonempty (g : ExecutionGraph) (addr : SAddr) (read : Event) :
    ∃ l, getCoherentStores g addr read = some l ∧ l ≠ []
      ∧ (Event.getInit ∈ l ∨ ∃ w ∈ g.co addr, w.pos ∈ l)
      ∧ (((g.co_max addr).thread = read.thread ∧ (g.co_max addr).index < read.index) →
          l.length = 1) := by
  rw [getCoherentStores_eq]
  by_cases hf : (g.co_max addr).thread = read.thread ∧ (g.co_max addr).index < read.index
  · refine ⟨[g.co_max addr], by simp [hf], by simp, ?_, fun _ => rfl⟩
    unfold ExecutionGraph.co_max
    cases hl : (g.co addr).getLast? with
    | none => left; simp
    | some w =>
      right
      exact ⟨w, List.mem_of_getLast?_eq_some hl, by simp⟩
  · rw [if_neg hf]
    refine ⟨_, rfl, by simp, ?_, fun h => absurd h hf⟩
    by_cases hb : splitLocMOBefore g addr read = 0
    · left; simp [hb]
    · right
      obtain ⟨k, hk⟩ := Nat.exists_eq_succ_of_ne_zero hb
      have hle := splitLocMOBefore_le g addr read
      have hlt : k < (g.co addr).length := by omega
      refine ⟨(g.co addr).get ⟨k, hlt⟩, List.get_mem _ _ _, ?_⟩
      have hget : (g.co addr).get? k = some ((g.co addr).get ⟨k, hlt⟩) := List.get?_eq_get hlt
      rw [if_neg hb, hk, Nat.succ_eq_add_one, posBefore_succ _ _ _ hget]
      simp

/-- Claim C3, at a failing input: in the graph where the main thread writes
address 0 at `(0,1)` and then creates thread 1, whose read `(1,1)` has the
write in its prefix view, `getCoherentStores` returns `Init` and the write;
`Init` is not a legal source, since the write is coherence-after it and is
contained in `view(0)` of the read. -/
theorem getCoherentStores_returns_illegal_init :
    getCoherentStores hbGraph 0 ⟨1, 1⟩ = some [Event.getInit, ⟨0, 1⟩]
      ∧ (viewAt hbGraph ⟨1, 1⟩).contains ⟨0, 1⟩ = true
      ∧ hbWrite ∈ coAfter hbGraph 0 Event.getInit
      ∧ legalSource hbGraph 0 ⟨1, 1⟩ Event.getInit = false := by
  decide

/-- Claim C4: when the coherence-order maximum of the address (`Init` when the
address has no writes) is in the thread of the read with a strictly smaller
index, `getCoherentStores` returns exactly the list holding that maximum. -/
theorem getCoherentStores_fastpath (g : ExecutionGraph) (addr : SAddr) (read : Event)
    (h : (g.co_max addr).thread = read.thread ∧ (g.co_max addr).index < read.index) :
    getCoherentStores g addr read = some [g.co_max addr] := by
  rw [getCoherentStores_eq, if_pos h]

/-- Witness of C4: the read `(1,3)` placed after the two writes of thread 1. -/
theorem getCoherentStores_fastpath_witness :
    ((scenGraphPo.co_max 0).thread = (⟨1, 3⟩ : Event).thread
        ∧ (scenGraphPo.co_max 0).index < (⟨1, 3⟩ : Event).index)
      ∧ getCoherentStores scenGraphPo 0 ⟨1, 3⟩ = some [scenGraphPo.co_max 0] :=
  ⟨by decide, getCoherentStores_fastpath scenGraphPo 0 ⟨1, 3⟩ (by decide)⟩

/-- Claim C5 as stated fails: in the scenario graph the read of thread 2 gets
`Init` as a candidate besides the two writes, so the returned set is not
`{w1, w2}`. -/
theorem getCoherentStores_scenario_counterexample :
    ∃ l, getCoherentStores scenGraph 0 scenRead.pos = some l
      ∧ Event.getInit ∈ l ∧ Event.getInit ≠ scenW1.pos ∧ Event.getInit ≠ scenW2.pos
      ∧ l ≠ [scenW1.pos, scenW2.pos] :=
  ⟨[Event.getInit, ⟨1, 1⟩, ⟨1, 2⟩], by decide, by decide, by decide, by decide, by decide⟩

/-- Claim C5, amended: when the coherence order of `x` is `w1, w2`, both in one
thread, a read of another thread that has neither write nor a reader of them in
its prefix view gets exactly `Init, w1, w2`; a read of the writes' thread placed
after `w2` gets only `w2`. -/
theorem getCoherentStores_scenario (g : ExecutionGraph) (x : SAddr) (w1 w2 : EventLabel)
    (read : Event) (hco : g.co x = [w1, w2]) (_hthr : w1.pos.thread = w2.pos.thread) :
    (read.thread ≠ w2.pos.thread →
        legalSource g x read Event.getInit = true →
        getCoherentStores g x read = some [Event.getInit, w1.pos, w2.pos])
      ∧ (read.thread = w2.pos.thread → w2.pos.index < read.index →
        getCoherentStores g x read = some [w2.pos]) := by
  have hmax : g.co_max x = w2.pos := by simp [ExecutionGraph.co_max, hco]
  have hb : splitLocMOBefore g x read = 0 := splitLocMOBefore_eq_zero g x read
  constructor
  · intro hne _
    rw [getCoherentStores_eq, hmax, if_neg (fun h => hne h.1.symm), hb, hco]
    simp
  · intro heq hlt
    rw [getCoherentStores_eq, hmax, if_pos ⟨heq.symm, hlt⟩]

/-- Witness of C5 (amended): the scenario graph, with the read in thread 2. -/
theorem getCoherentStores_scenario_witness :
    getCoherentStores scenGraph 0 ⟨2, 1⟩ = some [Event.getInit, scenW1.pos, scenW2.pos]
      ∧ getCoherentStores scenGraphPo 0 ⟨1, 3⟩ = some [scenW2.pos] :=
  ⟨(getCoherentStores_scenario scenGraph 0 scenW1 scenW2 ⟨2, 1⟩ (by decide) (by decide)).1
      (by decide) (by decide),
   (getCoherentStores_scenario scenGraphPo 0 scenW1 scenW2 ⟨1, 3⟩ (by decide) (by decide)).2
      (by decide) (by decide)⟩

/-- Claim C6: off the fast path `getCoherentStores` returns the
coherence-immediate predecessor of the boundary of `splitLocMOBefore` (`Init`
when the boundary is the beginning of the coherence order) followed by exactly
the writes from the boundary to the end of the coherence order, in order. -/
theorem getCoherentStores_general (g : ExecutionGraph) (addr : SAddr) (read : Event)
    (h : ¬ ((g.co_max addr).thread = read.thread ∧ (g.co_max addr).index < read.index)) :
    ∃ p, getCoherentStores g addr read
          = some (p :: ((g.co addr).drop (splitLocMOBefore g addr read)).map (fun lab => lab.pos))
      ∧ (splitLocMOBefore g addr read = 0 → p = Event.getInit)
      ∧ (∀ k, splitLocMOBefore g addr read = k + 1 →
          ∃ w, (g.co addr).get? k = some w ∧ p = w.pos) := by
  rw [getCoherentStores_eq, if_neg h]
  refine ⟨_, rfl, fun h0 => by simp [h0], fun k hk => ?_⟩
  have hle := splitLocMOBefore_le g addr read
  have hlt : k < (g.co addr).length := by omega
  have hget : (g.co addr).get? k = some ((g.co addr).get ⟨k, hlt⟩) := List.get?_eq_get hlt
  refine ⟨_, hget, ?_⟩
  rw [hk, if_neg (Nat.succ_ne_zero k), posBefore_succ _ _ _ hget]

/-- Witness of C6: the read of thread 2 in the scenario graph. -/
theorem getCoherentStores_general_witness :
    ∃ p, getCoherentStores scenGraph 0 ⟨2, 1⟩
          = some (p :: ((scenGraph.co 0).drop (splitLocMOBefore scenGraph 0 ⟨2, 1⟩)).map
              (fun lab => lab.pos))
      ∧ (splitLocMOBefore scenGraph 0 ⟨2, 1⟩ = 0 → p = Event.getInit)
      ∧ (∀ k, splitLocMOBefore scenGraph 0 ⟨2, 1⟩ = k + 1 →
          ∃ w, (scenGraph.co 0).get? k = some w ∧ p = w.pos) :=
  getCoherentStores_general scenGraph 0 ⟨2, 1⟩ (by decide)

/-- The pipeline of `getCoherentPlacings` over the tail of the coherence list
that starts at index `i` visits the indices `i, i+1, ...` and keeps the
predecessors of the non-RMW writes. -/
theorem placingsFrom_eq (g : ExecutionGraph) (co : List EventLabel) :
    ∀ (rest : List EventLabel) (i : Nat), co.drop i = rest →
      placingsFrom g co i rest
        = ((List.range' i rest.length).filter (nonRMWAt g co)).map (coImmPredPos co) := by
  intro rest
  induction rest with
  | nil => intro i _; simp [placingsFrom]
  | cons sLab rest ih =>
    intro i h
    have hget : co.get? i = some sLab := by
      have := List.head?_drop co i
      rw [h] at this
      simpa using this.symm
    have hrest : co.drop (i + 1) = rest := by
      rw [← List.tail_drop, h]; rfl
    have hlen : (sLab :: rest).length = rest.length + 1 := rfl
    rw [hlen, List.range'_succ, List.filter_cons]
    have hnon : nonRMWAt g co i = !g.isRMWStore sLab.pos := by
      simp only [nonRMWAt, hget]
    rw [hnon]
    unfold placingsFrom
    rw [ih (i + 1) hrest]
    cases g.isRMWStore sLab.pos <;> simp

/-- The non-RMW path of `getCoherentPlacings` with the dead
dependency-tracking branch removed. -/
theorem getCoherentPlacings_nonRMW_eq (g : ExecutionGraph) (addr : SAddr) (store : Event) :
    getCoherentPlacings g addr store false
      = some (((List.range' (splitLocMOBefore g addr store)
                  ((g.co addr).length - splitLocMOBefore g addr store)).filter
                (nonRMWAt g (g.co addr))).map (coImmPredPos (g.co addr))
              ++ [g.co_max addr]) := by
  have htake : ((g.co addr).drop (splitLocMOBefore g addr store)).take
      ((g.co addr).length - splitLocMOBefore g addr store)
        = (g.co addr).drop (splitLocMOBefore g addr store) := by
    apply List.take_of_length_le
    simp
  unfold getCoherentPlacings
  simp only [isDepTracking, Bool.false_eq_true, if_false, if_true, htake]
  rw [placingsFrom_eq g (g.co addr) _ _ rfl]
  simp

/-- The predecessor position of index `k + 1` is the position stored at index
`k`. -/
theorem coImmPredPos_succ (co : List EventLabel) (k : Nat) (h : k < co.length) :
    coImmPredPos co (k + 1) = (co.get ⟨k, h⟩).pos := by
  unfold coImmPredPos
  rw [if_neg (Nat.succ_ne_zero k)]
  exact posBefore_succ co k _ (List.get?_eq_get h)

/-- Every predecessor position of an index within the list, other than the
first, is a position of the list. -/
theorem coImmPredPos_mem (co : List EventLabel) (k : Nat) (h : k < co.length) :
    coImmPredPos co (k + 1) ∈ co.map (fun l => l.pos) := by
  rw [coImmPredPos_succ co k h]
  exact List.mem_map_of_mem _ (List.get_mem _ _ _)

/-- On a duplicate-free coherence list without `Init`, distinct indices have
distinct coherence-immediate predecessors. -/
theorem coImmPredPos_inj (co : List EventLabel)
    (hnd : (co.map (fun l => l.pos)).Nodup)
    (hinit : Event.getInit ∉ co.map (fun l => l.pos)) :
    ∀ i j, i ≤ co.length → j ≤ co.length →
      coImmPredPos co i = coImmPredPos co j → i = j := by
  intro i j hi hj heq
  cases i with
  | zero =>
    cases j with
    | zero => rfl
    | succ m =>
      exfalso
      apply hinit
      have hm : m < co.length := hj
      have := coImmPredPos_mem co m hm
      rw [← heq] at this
      simpa [coImmPredPos] using this
  | succ k =>
    have hk : k < co.length := hi
    cases j with
    | zero =>
      exfalso
      apply hinit
      have := coImmPredPos_mem co k hk
      rw [heq] at this
      simpa [coImmPredPos] using this
    | succ m =>
      have hm : m < co.length := hj
      rw [coImmPredPos_succ co k hk, coImmPredPos_succ co m hm] at heq
      have hk2 : k < (co.map (fun l => l.pos)).length := by simpa using hk
      have hm2 : m < (co.map (fun l => l.pos)).length := by simpa using hm
      have hpos : (co.map (fun l => l.pos)).get ⟨k, hk2⟩
          = (co.map (fun l => l.pos)).get ⟨m, hm2⟩ := by
        simpa using heq
      have := (List.Nodup.get_inj_iff hnd).mp hpos
      have hkm : k = m := by simpa using this
      rw [hkm]

/-- The coherence-order maximum is the predecessor position of the end
iterator. -/
theorem co_max_eq_coImmPredPos (g : ExecutionGraph) (addr : SAddr) :
    g.co_max addr = coImmPredPos (g.co addr) (g.co addr).length := by
  unfold ExecutionGraph.co_max
  cases hl : (g.co addr).length with
  | zero =>
    have hnil : g.co addr = [] := List.length_eq_zero.mp hl
    simp [hnil, coImmPredPos]
  | succ n =>
    have hn : n < (g.co addr).length := by omega
    have h1 : (g.co addr).length - 1 = n := by omega
    have hlast : (g.co addr).getLast? = some ((g.co addr).get ⟨n, hn⟩) := by
      rw [List.getLast?_eq_getElem?, h1]
      exact List.getElem?_eq_getElem hn
    rw [coImmPredPos_succ _ n hn, hlast]

/-- Claim C7: for an RMW store, `getCoherentPlacings` returns a list exactly
when the label just before the store is a read with a reads-from source, and
the list then holds only the position of that source; in every other case the
call ends in a `BUG_ON` (`none`). The result depends on the labels alone, not
on the address or on what the coherence order contains. -/
theorem getCoherentPlacings_rmw (g : ExecutionGraph) (addr : SAddr) (store : Event) :
    (∀ l, getCoherentPlacings g addr store true = some l ↔
        ∃ rLab w, g.getEventLabel store.prev = some rLab ∧ rLab.isRead = true
          ∧ rLab.rf = some w ∧ l = [w])
      ∧ ((¬ ∃ rLab w, g.getEventLabel store.prev = some rLab ∧ rLab.isRead = true
            ∧ rLab.rf = some w) → getCoherentPlacings g addr store true = none)
      ∧ (∀ (g2 : ExecutionGraph) (addr2 : SAddr), g2.labels = g.labels →
          getCoherentPlacings g2 addr2 store true = getCoherentPlacings g addr store true) := by
  refine ⟨?_, ?_, ?_⟩
  · intro l
    unfold getCoherentPlacings
    simp only [if_true]
    cases hlab : g.getEventLabel store.prev with
    | none => simp
    | some rLab =>
      by_cases hrd : rLab.isRead = true
      · cases hrf : rLab.rf with
        | none => simp [hrd, hrf]
        | some w =>
          simp only [hrd, hrf, Bool.not_true, Bool.false_eq_true, if_false, Option.some.injEq]
          constructor
          · intro h
            exact ⟨rLab, w, rfl, hrd, hrf, h.symm⟩
          · rintro ⟨r2, w2, h1, _, h3, h4⟩
            cases h1
            rw [hrf] at h3
            cases h3
            exact h4.symm
      · simp [hrd]
  · intro hno
    unfold getCoherentPlacings
    simp only [if_true]
    cases hlab : g.getEventLabel store.prev with
    | none => rfl
    | some rLab =>
      by_cases hrd : rLab.isRead = true
      · cases hrf : rLab.rf with
        | none => simp [hrd, hrf]
        | some w => exact absurd ⟨rLab, w, hlab, hrd, hrf⟩ hno
      · simp [hrd]
  · intro g2 addr2 hlabels
    unfold getCoherentPlacings ExecutionGraph.getEventLabel
    simp only [if_true, hlabels]

/-- Witness of C7: the RMW store `(2,2)` whose read part `(2,1)` reads from the
write `(1,1)` is placed just after that write. -/
theorem getCoherentPlacings_rmw_witness :
    getCoherentPlacings rmwGraph 0 ⟨2, 2⟩ true = some [⟨1, 1⟩] :=
  ((getCoherentPlacings_rmw rmwGraph 0 ⟨2, 2⟩).1 [⟨1, 1⟩]).mpr
    ⟨rmwRead, ⟨1, 1⟩, by decide, by decide, by decide, rfl⟩

/-- Claim C8: for a non-RMW store, `getCoherentPlacings` returns, in order, the
coherence-immediate predecessor (`Init` for the first write) of each non-RMW
write from the boundary of `splitLocMOBefore` to the end of the coherence
order, followed by the coherence-order maximum of the address (`Init` when it
has no writes); its length is the number of those writes plus one and its last
element is the coherence-order maximum. -/
theorem getCoherentPlacings_nonRMW (g : ExecutionGraph) (addr : SAddr) (store : Event) :
    ∃ l, getCoherentPlacings g addr store false = some l
      ∧ l = ((List.range' (splitLocMOBefore g addr store)
                ((g.co addr).length - splitLocMOBefore g addr store)).filter
              (nonRMWAt g (g.co addr))).map (coImmPredPos (g.co addr))
            ++ [g.co_max addr]
      ∧ l.length = ((List.range' (splitLocMOBefore g addr store)
                ((g.co addr).length - splitLocMOBefore g addr store)).filter
              (nonRMWAt g (g.co addr))).length + 1
      ∧ l.getLast? = some (g.co_max addr)
      ∧ (g.co addr = [] → g.co_max addr = Event.getInit) := by
  refine ⟨_, getCoherentPlacings_nonRMW_eq g addr store, rfl, by simp, by simp, ?_⟩
  intro hnil
  simp [ExecutionGraph.co_max, hnil]

/-- Claim C9: when the coherence order of the address is duplicate-free and
does not contain `Init`, the list `getCoherentPlacings` returns for a non-RMW
store has no repeated element. -/
theorem getCoherentPlacings_nodup (g : ExecutionGraph) (addr : SAddr) (store : Event)
    (hnd : ((g.co addr).map (fun l => l.pos)).Nodup)
    (hinit : Event.getInit ∉ (g.co addr).map (fun l => l.pos)) :
    ∃ l, getCoherentPlacings g addr store false = some l ∧ l.Nodup := by
  refine ⟨_, getCoherentPlacings_nonRMW_eq g addr store, ?_⟩
  have hle := splitLocMOBefore_le g addr store
  have hlt : ∀ i ∈ (List.range' (splitLocMOBefore g addr store)
      ((g.co addr).length - splitLocMOBefore g addr store)).filter (nonRMWAt g (g.co addr)),
      i < (g.co addr).length := by
    intro i hi
    have := (List.mem_filter.mp hi).1
    rw [List.mem_range'_1] at this
    omega
  rw [List.nodup_append]
  refine ⟨?_, List.nodup_singleton _, ?_⟩
  · apply List.Nodup.map_on
    · intro i hi j hj heq
      exact coImmPredPos_inj _ hnd hinit i j (Nat.le_of_lt (hlt i hi)) (Nat.le_of_lt (hlt j hj)) heq
    · exact List.Nodup.filter _ (List.nodup_range' _ _)
  · rw [List.disjoint_singleton]
    intro hmem
    obtain ⟨i, hi, heq⟩ := List.mem_map.mp hmem
    rw [co_max_eq_coImmPredPos] at heq
    have := coImmPredPos_inj _ hnd hinit i _ (Nat.le_of_lt (hlt i hi)) (Nat.le_refl _) heq
    have := hlt i hi
    omega

/-- Witness of C9: the plain store `(2,1)` added to the two writes of thread 1. -/
theorem getCoherentPlacings_nodup_witness :
    ∃ l, getCoherentPlacings placeGraph 0 ⟨2, 1⟩ false = some l ∧ l.Nodup :=
  getCoherentPlacings_nodup placeGraph 0 ⟨2, 1⟩ (by decide) (by decide)

/-- Every event returned by `getRevisitableFrom` is the position of a reader of
`coPred` that passed the four tests of the source. -/
theorem mem_getRevisitableFrom (g : ExecutionGraph) (sLab : EventLabel) (pporf : View)
    (coPred : EventLabel) (e : Event) (h : e ∈ getRevisitableFrom g sLab pporf coPred) :
    ∃ rLab ∈ g.labels, rLab.pos = e ∧ rLab.isRead = true ∧ rLab.rf = some coPred.pos
      ∧ rLab.addr = sLab.addr ∧ rLab.revisitable = true ∧ rLab.addedMax = true
      ∧ pporf.contains e = false := by
  have hbase : e ∈ ((g.readers coPred).filter (fun rLab =>
      !pporf.contains rLab.pos && decide (rLab.addr = sLab.addr)
        && rLab.revisitable && rLab.addedMax)).map (fun rLab => rLab.pos) := by
    unfold getRevisitableFrom at h
    by_cases hp : (g.getPendingRMW sLab).isInitializer = true
    · simpa [hp] using h
    · simp only [hp] at h
      exact (List.mem_filter.mp h).1
  obtain ⟨rLab, hr, hpos⟩ := List.mem_map.mp hbase
  obtain ⟨hreader, htests⟩ := List.mem_filter.mp hr
  unfold ExecutionGraph.readers at hreader
  obtain ⟨hlab, hrd⟩ := List.mem_filter.mp hreader
  simp only [Bool.and_eq_true, decide_eq_true_eq, Bool.not_eq_true'] at htests hrd
  refine ⟨rLab, hlab, hpos, hrd.1, hrd.2, htests.1.1.2, htests.1.2, htests.2, ?_⟩
  rw [← hpos]
  exact htests.1.1.1

/-- Claim C10: when the coherence-latest write at the address of `sLab` other
than `sLab` itself exists and is contained in `pporf`, every event returned by
`getCoherentRevisits` is the position of a read label of the graph that reads
from that write, accesses the address of `sLab`, is revisitable, was added
maximally, and is not contained in `pporf`. -/
theorem getCoherentRevisits_fastpath (g : ExecutionGraph) (sLab : EventLabel) (pporf : View)
    (prevCoMax : EventLabel)
    (hfind : (g.co sLab.addr).reverse.find? (fun lab => decide (lab.pos ≠ sLab.pos))
      = some prevCoMax)
    (hin : pporf.contains prevCoMax.pos = true) :
    ∀ e ∈ getCoherentRevisits g sLab pporf,
      ∃ rLab ∈ g.labels, rLab.pos = e ∧ rLab.isRead = true ∧ rLab.rf = some prevCoMax.pos
        ∧ rLab.addr = sLab.addr ∧ rLab.revisitable = true ∧ rLab.addedMax = true
        ∧ pporf.contains e = false := by
  intro e he
  apply mem_getRevisitableFrom g sLab pporf prevCoMax e
  unfold getCoherentRevisits at he
  simp only [hfind, hin, if_true, isDepTracking, Bool.not_false, Bool.true_and] at he
  by_cases hmax : g.isCoMaximal sLab.addr sLab.pos = true
  · simpa [hmax] using he
  · simp only [hmax] at he
    exact (List.mem_filter.mp he).1

/-- Witness of C10: the new store `(3,2)` after the write `(1,1)`, which is in
the store's view and has the reader `(2,1)` outside it; that reader is
returned. -/
theorem getCoherentRevisits_fastpath_witness :
    getCoherentRevisits revGraph revStore revStore.view0 = [⟨2, 1⟩]
      ∧ ∀ e ∈ getCoherentRevisits revGraph revStore revStore.view0,
          ∃ rLab ∈ revGraph.labels, rLab.pos = e ∧ rLab.isRead = true
            ∧ rLab.rf = some revOld.pos ∧ rLab.addr = revStore.addr
            ∧ rLab.revisitable = true ∧ rLab.addedMax = true
            ∧ revStore.view0.contains e = false :=
  ⟨by decide,
   getCoherentRevisits_fastpath revGraph revStore revStore.view0 revOld (by decide) (by decide)⟩

/-! ### The visitor combinators -/

/-- Visiting a concatenation visits the first list and, when no visit failed,
the second. -/
theorem visitEach_append (f : EventLabel → DriverState → Bool × DriverState)
    (l1 l2 : List EventLabel) (st : DriverState) :
    visitEach f (l1 ++ l2) st =
      match visitEach f l1 st with
      | (false, s) => (false, s)
      | (true, s) => visitEach f l2 s := by
  induction l1 generalizing st with
  | nil => simp [visitEach]
  | cons p ps ih =>
    simp only [List.cons_append, visitEach]
    rcases hp : f p st with ⟨b, s⟩
    cases b
    · simp
    · simp [ih]

/-- A sequence of loops with one visitor is one loop over the concatenated
lists. -/
theorem inOrder_visitEach (f : EventLabel → DriverState → Bool × DriverState)
    (ls : List (List EventLabel)) (st : DriverState) :
    inOrder (ls.map (fun l => visitEach f l)) st = visitEach f ls.flatten st := by
  induction ls generalizing st with
  | nil => simp [inOrder, visitEach]
  | cons l ls ih =>
    simp only [List.map_cons, inOrder, List.flatten_cons, visitEach_append]
    rcases hl : visitEach f l st with ⟨b, s⟩
    cases b
    · simp
    · simp [ih]

/-- A guarded loop is a loop over a list that is empty when the guard fails. -/
theorem guarded_visitEach (c : Bool) (f : EventLabel → DriverState → Bool × DriverState)
    (l : List EventLabel) :
    (fun st => if c = true then visitEach f l st else (true, st))
      = visitEach f (if c = true then l else []) := by
  funext st
  cases c <;> simp [visitEach]

/-- A loop whose body is itself a loop over `inner p` is one loop over the
concatenation of the inner lists. -/
theorem visitEach_flatMap (f : EventLabel → DriverState → Bool × DriverState)
    (inner : EventLabel → List EventLabel) (l : List EventLabel) (st : DriverState) :
    visitEach (fun p => visitEach f (inner p)) l st = visitEach f (l.flatMap inner) st := by
  induction l generalizing st with
  | nil => simp [visitEach]
  | cons p ps ih =>
    simp only [List.flatMap_cons, visitEach_append, visitEach]
    rcases hp : visitEach f (inner p) st with ⟨b, s⟩
    cases b
    · simp
    · simp [ih]

/-- A loop whose visitor always fails without touching the state fails exactly
when the list is not empty. -/
theorem visitEach_silent (f : EventLabel → DriverState → Bool × DriverState)
    (hf : ∀ p st, f p st = (false, st)) (l : List EventLabel) (st : DriverState) :
    visitEach f l st = (l.isEmpty, st) := by
  cases l with
  | nil => rfl
  | cons p ps => simp [visitEach, hf]

/-- A loop whose visitor tests membership in a view stops at the first label
outside the view and stores it. -/
theorem visitEach_view (f : EventLabel → DriverState → Bool × DriverState) (v : View)
    (hf : ∀ p st, f p st =
      if (!v.contains p.pos) = true then (false, { st with cexLab := some p }) else (true, st))
    (l : List EventLabel) (st : DriverState) :
    visitEach f l st = cexResult (l.find? (fun p => !v.contains p.pos)) st := by
  induction l generalizing st with
  | nil => rfl
  | cons p ps ih =>
    simp only [visitEach, hf, List.find?_cons]
    cases hc : v.contains p.pos
    · simp [cexResult]
    · simp [ih]

/-- No stamp is accepted by tables that hold `false` everywhere. -/
theorem firstAccepting_replicate (n : Nat) :
    firstAccepting (List.replicate n false) (List.replicate n false) = none := by
  unfold firstAccepting
  rw [List.find?_eq_none]
  intro i _
  have h : (List.replicate n false).getD i false = false := by
    rw [List.getD_eq_getElem?_getD]
    cases hget : (List.replicate n false)[i]? with
    | none => rfl
    | some b =>
      have hmem : b ∈ List.replicate n false := List.getElem?_mem hget
      have hb : b = false := (List.mem_replicate.mp hmem).2
      simp [hb]
  simp [h]

/-- The comparison of the accepting tables never finds a counterexample. -/
theorem acceptingLoop_eq (g : ExecutionGraph) (st : DriverState) :
    acceptingLoop g st = (true, st) := by
  unfold acceptingLoop
  simp only [firstAccepting_replicate]

/-! ### The seven checks in closed form -/

/-- `checkError2` passes on every input and leaves the state as it is. -/
theorem checkError2_eq (g : ExecutionGraph) (lab : EventLabel) (st : DriverState) :
    checkError2 g lab st = (true, st) := by
  unfold checkError2 visitUnlessError2 visitLHSUnlessError2_1
  cases g.alloc_pred lab <;>
    simp [visitEach, visitLHSUnlessError2_0, unlessThen]

/-- The left-hand visit of `checkError3` is one loop over `freeCands`. -/
theorem visitLHSUnlessError3_1_eq (g : ExecutionGraph) (lab : EventLabel) (st : DriverState) :
    visitLHSUnlessError3_1 g lab st = ((freeCands g lab).isEmpty, st) := by
  unfold visitLHSUnlessError3_1 freeCands
  simp only [guarded_visitEach]
  rw [← visitEach_silent visitLHSUnlessError3_0 (fun _ _ => rfl), ← inOrder_visitEach]
  rfl

/-- `checkError3` fails exactly when `freeCands` is not empty, and never writes
the counterexample slot. -/
theorem checkError3_eq (g : ExecutionGraph) (lab : EventLabel) (st : DriverState) :
    checkError3 g lab st = ((freeCands g lab).isEmpty, st) := by
  unfold checkError3 visitUnlessError3
  rw [visitLHSUnlessError3_1_eq]
  cases (freeCands g lab).isEmpty <;>
    simp [acceptingLoop_eq, unlessThen, visitError3]

/-- `checkError5` fails exactly when the allocation of `lab` has a plain free
successor, and never writes the counterexample slot. -/
theorem checkError5_eq (g : ExecutionGraph) (lab : EventLabel) (st : DriverState) :
    checkError5 g lab st = (!hasPlainFree g lab, st) := by
  unfold checkError5 visitUnlessError5 visitLHSUnlessError5_2 hasPlainFree
  cases ha : g.alloc_pred lab with
  | none => simp [visitEach, acceptingLoop_eq, unlessThen]
  | some a =>
    simp only [Option.toList, visitEach, visitLHSUnlessError5_1]
    cases hf : g.free_succ a with
    | none => simp [visitEach, acceptingLoop_eq, unlessThen]
    | some f =>
      cases hb : (f.isFree && !f.isHpRetire) <;>
        simp [Option.toList, List.filter, hb, visitEach, visitLHSUnlessError5_0,
          acceptingLoop_eq, unlessThen, visitError5]

/-- `checkError7` fails exactly when `lab` is an unprotected dynamic access
whose allocation has a retire successor, and never writes the counterexample
slot. -/
theorem checkError7_eq (g : ExecutionGraph) (lab : EventLabel) (st : DriverState) :
    checkError7 g lab st = (!hasRetireFree g lab, st) := by
  unfold checkError7 visitUnlessError7 visitLHSUnlessError7_2 hasRetireFree
  cases hu : unprotectedDynAccess g lab with
  | false => simp [acceptingLoop_eq, unlessThen]
  | true =>
    cases ha : g.alloc_pred lab with
    | none => simp [visitEach, acceptingLoop_eq, unlessThen]
    | some a =>
      simp only [Option.toList, visitEach, visitLHSUnlessError7_1]
      cases hf : g.free_succ a with
      | none => simp [visitEach, acceptingLoop_eq, unlessThen]
      | some f =>
        cases hb : f.isHpRetire <;>
          simp [Option.toList, List.filter, hb, visitEach, visitLHSUnlessError7_0,
            acceptingLoop_eq, unlessThen, visitError7]

/-- `checkError6` fails exactly when some label of `retireCands` is outside
`view(0)` of `lab`; the first such label is stored as the counterexample. -/
theorem checkError6_eq (g : ExecutionGraph) (lab : EventLabel) (st : DriverState) :
    checkError6 g lab st
      = cexResult ((retireCands g lab).find? (fun p => !lab.view0.contains p.pos)) st := by
  have h61 : (fun pLab => visitLHSUnlessError6_1 g pLab lab.view0)
      = (fun pLab => visitEach (fun q => visitLHSUnlessError6_0 q lab.view0)
          ((g.alloc_succs pLab).filter (unprotectedDynAccess g))) := rfl
  have hmid : visitLHSUnlessError6_2 g lab lab.view0 st
      = visitEach (fun q => visitLHSUnlessError6_0 q lab.view0) (retireCands g lab) st := by
    unfold visitLHSUnlessError6_2 retireCands
    rw [h61]
    simp only [visitEach_flatMap, guarded_visitEach]
    rw [← inOrder_visitEach]
    rfl
  unfold checkError6 visitUnlessError6
  rw [hmid, visitEach_view (fun q => visitLHSUnlessError6_0 q lab.view0) lab.view0
    (fun _ _ => rfl)]
  cases (retireCands g lab).find? (fun p => !lab.view0.contains p.pos) <;>
    simp [cexResult, unlessThen, visitError6]

/-- `checkError8` fails exactly when some label of `raceCands` is outside
`view(0)` of `lab`; the first such label is stored as the counterexample. -/
theorem checkError8_eq (g : ExecutionGraph) (lab : EventLabel) (st : DriverState) :
    checkError8 g lab st
      = cexResult ((raceCands g lab).find? (fun p => !lab.view0.contains p.pos)) st := by
  have hmid : visitLHSUnlessError8_1 g lab lab.view0 st
      = visitEach (fun q => visitLHSUnlessError8_0 q lab.view0) (raceCands g lab) st := by
    unfold visitLHSUnlessError8_1 raceCands
    simp only [guarded_visitEach]
    rw [← inOrder_visitEach]
    rfl
  unfold checkError8 visitUnlessError8
  rw [hmid, visitEach_view (fun q => visitLHSUnlessError8_0 q lab.view0) lab.view0
    (fun _ _ => rfl)]
  cases (raceCands g lab).find? (fun p => !lab.view0.contains p.pos) <;>
    simp [cexResult, unlessThen, visitError8]

/-- `checkErrors` in closed form: the first failing check decides the verdict;
the checks 3, 5 and 7 hand out the counterexample slot as they found it, the
checks 6 and 8 the label they stored. -/
theorem checkErrors_eq (g : ExecutionGraph) (lab : EventLabel) (race : Option EventLabel)
    (st : DriverState) :
    checkErrors g lab race st =
      if (freeCands g lab).isEmpty = false then
        (VerificationError.VE_DoubleFree, st.cexLab, st)
      else if hasPlainFree g lab = true then
        (VerificationError.VE_AccessFreed, st.cexLab, st)
      else
        match (retireCands g lab).find? (fun p => !lab.view0.contains p.pos) with
        | some p => (VerificationError.VE_AccessFreed, some p, { st with cexLab := some p })
        | none =>
          if hasRetireFree g lab = true then
            (VerificationError.VE_AccessFreed, st.cexLab, st)
          else
            match (raceCands g lab).find? (fun p => !lab.view0.contains p.pos) with
            | some p =>
              (VerificationError.VE_RaceNotAtomic, some p, { st with cexLab := some p })
            | none => (VerificationError.VE_OK, race, st) := by
  unfold checkErrors
  simp only [checkError2_eq, checkError3_eq, checkError4, checkError5_eq]
  cases h3 : (freeCands g lab).isEmpty
  · simp
  · cases h5 : hasPlainFree g lab
    · simp only [Bool.not_false, checkError6_eq]
      cases h6 : (retireCands g lab).find? (fun p => !lab.view0.contains p.pos) with
      | some p => simp [cexResult]
      | none =>
        simp only [cexResult, checkError7_eq]
        cases h7 : hasRetireFree g lab
        · simp only [Bool.not_false, checkError8_eq]
          cases h8 : (raceCands g lab).find? (fun p => !lab.view0.contains p.pos) with
          | some p => simp [cexResult]
          | none => simp [cexResult]
        · simp
    · simp

/-! ### Revisits -/

/-- A test holds for some event of `getMOOptRfAfter` exactly when it holds for
some coherence-successor of the store or for some reader of one. -/
theorem any_getMOOptRfAfter (g : ExecutionGraph) (sLab : EventLabel) (q : Event → Bool) :
    (getMOOptRfAfter g sLab).any q
      = (g.co_succs sLab).any (fun w => q w.pos || (g.readers w).any (fun r => q r.pos)) := by
  rw [Bool.eq_iff_iff]
  simp only [getMOOptRfAfter, List.any_eq_true, List.mem_append, List.mem_map,
    List.mem_flatMap, Bool.or_eq_true]
  constructor
  · rintro ⟨e, he, hq⟩
    rcases he with ⟨w, hw, rfl⟩ | ⟨r, ⟨w, hw, hr⟩, rfl⟩
    · exact ⟨w, hw, Or.inl hq⟩
    · exact ⟨w, hw, Or.inr ⟨r, hr, hq⟩⟩
  · rintro ⟨w, hw, hq | ⟨r, hr, hq⟩⟩
    · exact ⟨w.pos, Or.inl ⟨w, hw, rfl⟩, hq⟩
    · exact ⟨r.pos, Or.inr ⟨r, ⟨w, hw, hr⟩, rfl⟩, hq⟩

/-- In a duplicate-free list whose last position is `x` (or that is empty),
nothing follows the first label at position `x`. -/
theorem drop_after_last (l : List EventLabel) (x : Event)
    (hnd : (l.map (fun z => z.pos)).Nodup)
    (hlast : ∀ z, l.getLast? = some z → z.pos = x) :
    (l.dropWhile (fun z => decide (z.pos ≠ x))).drop 1 = [] := by
  induction l with
  | nil => rfl
  | cons a rest ih =>
    cases rest with
    | nil =>
      have ha : a.pos = x := hlast a rfl
      simp [List.dropWhile, ha]
    | cons b rest2 =>
      have hnd2 : ((b :: rest2).map (fun z => z.pos)).Nodup := (List.nodup_cons.mp hnd).2
      have hnotin : a.pos ∉ (b :: rest2).map (fun z => z.pos) := (List.nodup_cons.mp hnd).1
      have hlast2 : ∀ z, (b :: rest2).getLast? = some z → z.pos = x := by
        intro z hz
        apply hlast z
        rw [List.getLast?_cons_cons]
        exact hz
      have hne : a.pos ≠ x := by
        intro heq
        apply hnotin
        obtain ⟨z, hz⟩ : ∃ z, (b :: rest2).getLast? = some z := by
          cases hg : (b :: rest2).getLast? with
          | none => simp at hg
          | some z => exact ⟨z, rfl⟩
        have hzx := hlast2 z hz
        rw [heq, ← hzx]
        exact List.mem_map_of_mem _ (List.mem_of_getLast?_eq_some hz)
      have hstep : (a :: b :: rest2).dropWhile (fun z => decide (z.pos ≠ x))
          = (b :: rest2).dropWhile (fun z => decide (z.pos ≠ x)) := by
        rw [List.dropWhile_cons]
        simp [hne]
      rw [hstep]
      exact ih hnd2 hlast2

/-- A coherence-maximal store of a duplicate-free coherence order has no
coherence-successor. -/
theorem co_succs_of_isCoMaximal (g : ExecutionGraph) (sLab : EventLabel)
    (hnd : ((g.co sLab.addr).map (fun l => l.pos)).Nodup)
    (hmax : g.isCoMaximal sLab.addr sLab.pos = true) : g.co_succs sLab = [] := by
  unfold ExecutionGraph.co_succs
  apply drop_after_last _ _ hnd
  intro z hz
  simp only [ExecutionGraph.isCoMaximal, ExecutionGraph.co_max, hz, decide_eq_true_eq] at hmax
  exact hmax

/-- Claim C11: on a duplicate-free coherence order, `getCoherentRevisits`
returns the initial candidate list (`getRevisitableFrom` on the fast path, the
graph's `getRevisitable` otherwise) in its order, without exactly the reads
whose `view(0)` contains a coherence-successor of the store or a read that
reads from one; when the store is coherence-maximal the early return gives the
whole candidate list, which is what the filter gives as well. -/
theorem getCoherentRevisits_refines (g : ExecutionGraph) (sLab : EventLabel) (pporf : View)
    (hnd : ((g.co sLab.addr).map (fun l => l.pos)).Nodup) :
    getCoherentRevisits g sLab pporf
        = (revisitCandidates g sLab pporf).filter (fun e => !seesCoAfter g sLab e)
      ∧ (g.isCoMaximal sLab.addr sLab.pos = true →
          getCoherentRevisits g sLab pporf = revisitCandidates g sLab pporf
            ∧ (revisitCandidates g sLab pporf).filter (fun e => !seesCoAfter g sLab e)
                = revisitCandidates g sLab pporf) := by
  have hfilter : ∀ l : List Event,
      l.filter (fun e => !(getMOOptRfAfter g sLab).any (fun ev => (viewAt g e).contains ev))
        = l.filter (fun e => !seesCoAfter g sLab e) := by
    intro l
    congr 1
    funext e
    rw [any_getMOOptRfAfter]
    rfl
  have hcode : getCoherentRevisits g sLab pporf
      = if g.isCoMaximal sLab.addr sLab.pos = true then revisitCandidates g sLab pporf
        else (revisitCandidates g sLab pporf).filter (fun e => !seesCoAfter g sLab e) := by
    unfold getCoherentRevisits
    simp only [isDepTracking, Bool.not_false, Bool.true_and, if_true, hfilter]
    rfl
  have hall : g.isCoMaximal sLab.addr sLab.pos = true →
      (revisitCandidates g sLab pporf).filter (fun e => !seesCoAfter g sLab e)
        = revisitCandidates g sLab pporf := by
    intro hmax
    have hnil := co_succs_of_isCoMaximal g sLab hnd hmax
    apply List.filter_eq_self.mpr
    intro e _
    simp [seesCoAfter, hnil]
  by_cases hmax : g.isCoMaximal sLab.addr sLab.pos = true
  · rw [hcode, if_pos hmax]
    exact ⟨(hall hmax).symm, fun _ => ⟨rfl, hall hmax⟩⟩
  · rw [hcode, if_neg hmax]
    exact ⟨rfl, fun h => absurd h hmax⟩

/-- Witness of C11: the store `(1,1)` is followed by the write `(2,1)`; of the
two candidate reads, the one with that write in its view is removed. -/
theorem getCoherentRevisits_refines_witness :
    getCoherentRevisits filtGraph filtStore filtStore.view0 = [⟨4, 1⟩]
      ∧ revisitCandidates filtGraph filtStore filtStore.view0 = [⟨3, 1⟩, ⟨4, 1⟩]
      ∧ getCoherentRevisits filtGraph filtStore filtStore.view0
          = (revisitCandidates filtGraph filtStore filtStore.view0).filter
              (fun e => !seesCoAfter filtGraph filtStore e) :=
  ⟨by decide, by decide,
   (getCoherentRevisits_refines filtGraph filtStore filtStore.view0 (by decide)).1⟩

/-! ### Error checks -/

/-- Claim C12: `checkErrors` returns the kind of the first failing check in the
order 2, 3, 4, 5, 6, 7, 8 (`VE_AccessNonMalloc`, `VE_DoubleFree`,
`VE_AccessFreed` for 4 to 7, `VE_RaceNotAtomic`); it returns `VE_OK` exactly
when all seven pass; and an event that fails the double-free check is reported
as `VE_DoubleFree` whatever the race check says. The verdict of a check does
not depend on the state it starts from, so the seven verdicts are taken at the
entry state. -/
theorem checkErrors_first_failing (g : ExecutionGraph) (lab : EventLabel)
    (race : Option EventLabel) (st : DriverState) :
    (checkErrors g lab race st).1 =
        (if (checkError2 g lab st).1 = false then VerificationError.VE_AccessNonMalloc
         else if (checkError3 g lab st).1 = false then VerificationError.VE_DoubleFree
         else if (checkError4 g lab st).1 = false then VerificationError.VE_AccessFreed
         else if (checkError5 g lab st).1 = false then VerificationError.VE_AccessFreed
         else if (checkError6 g lab st).1 = false then VerificationError.VE_AccessFreed
         else if (checkError7 g lab st).1 = false then VerificationError.VE_AccessFreed
         else if (checkError8 g lab st).1 = false then VerificationError.VE_RaceNotAtomic
         else VerificationError.VE_OK)
      ∧ ((checkErrors g lab race st).1 = VerificationError.VE_OK ↔
          ((checkError2 g lab st).1 = true ∧ (checkError3 g lab st).1 = true
            ∧ (checkError4 g lab st).1 = true ∧ (checkError5 g lab st).1 = true
            ∧ (checkError6 g lab st).1 = true ∧ (checkError7 g lab st).1 = true
            ∧ (checkError8 g lab st).1 = true))
      ∧ ((checkError3 g lab st).1 = false →
          (checkErrors g lab race st).1 = VerificationError.VE_DoubleFree)
      ∧ (∀ st2, (checkError2 g lab st2).1 = (checkError2 g lab st).1
          ∧ (checkError3 g lab st2).1 = (checkError3 g lab st).1
          ∧ (checkError4 g lab st2).1 = (checkError4 g lab st).1
          ∧ (checkError5 g lab st2).1 = (checkError5 g lab st).1
          ∧ (checkError6 g lab st2).1 = (checkError6 g lab st).1
          ∧ (checkError7 g lab st2).1 = (checkError7 g lab st).1
          ∧ (checkError8 g lab st2).1 = (checkError8 g lab st).1) := by
  rw [checkErrors_eq]
  simp only [checkError2_eq, checkError3_eq, checkError4, checkError5_eq, checkError6_eq,
    checkError7_eq, checkError8_eq]
  cases h3 : (freeCands g lab).isEmpty <;>
  cases h5 : hasPlainFree g lab <;>
  cases h6 : (retireCands g lab).find? (fun p => !lab.view0.contains p.pos) <;>
  cases h7 : hasRetireFree g lab <;>
  cases h8 : (raceCands g lab).find? (fun p => !lab.view0.contains p.pos) <;>
  simp [cexResult]

/-- Claim C13, at a failing input: in the graph whose main thread allocates
address 100 and frees it twice, `checkErrors` on the second free returns
`VE_DoubleFree` together with whatever the counterexample slot held before the
call: the null pointer for a fresh driver, and two different labels for two
different earlier contents. The double-free visitor returns `false` without
storing the other free. -/
theorem checkErrors_hands_out_stale_cexLab :
    (∀ stale : Option EventLabel,
        checkErrors dfGraph heapFree2 none { cexLab := stale }
          = (VerificationError.VE_DoubleFree, stale, { cexLab := stale }))
      ∧ (checkErrors dfGraph heapFree2 none {}).2.1 = none
      ∧ (checkErrors dfGraph heapFree2 none { cexLab := some initLab }).2.1 = some initLab
      ∧ (checkErrors dfGraph heapFree2 none { cexLab := some heapAlloc }).2.1
          = some heapAlloc
      ∧ heapFree1 ∈ dfGraph.samelocs heapFree2 := by
  have hne : (freeCands dfGraph heapFree2).isEmpty = false := by decide
  have hall : ∀ stale : Option EventLabel,
      checkErrors dfGraph heapFree2 none { cexLab := stale }
        = (VerificationError.VE_DoubleFree, stale, { cexLab := stale }) := by
    intro stale
    rw [checkErrors_eq, if_pos hne]
  refine ⟨hall, ?_, ?_, ?_, by decide⟩
  · exact congrArg (fun r => r.2.1) (hall none)
  · exact congrArg (fun r => r.2.1) (hall (some initLab))
  · exact congrArg (fun r => r.2.1) (hall (some heapAlloc))

/-- Claim C14: a second call of `checkErrors` on the same graph and event, made
in the state the first call left, returns the same kind and the same
counterexample and leaves the same state, whether the caller passes the same
`race` variable again or the one the first call filled; with any other `race`
variable the kind is the same and, when it is an error, so is the
counterexample. -/
theorem checkErrors_idempotent (g : ExecutionGraph) (lab : EventLabel)
    (race : Option EventLabel) (st : DriverState) :
    checkErrors g lab race (checkErrors g lab race st).2.2 = checkErrors g lab race st
      ∧ checkErrors g lab (checkErrors g lab race st).2.1 (checkErrors g lab race st).2.2
          = checkErrors g lab race st
      ∧ (∀ race2,
          (checkErrors g lab race2 (checkErrors g lab race st).2.2).1
              = (checkErrors g lab race st).1
            ∧ ((checkErrors g lab race st).1 ≠ VerificationError.VE_OK →
                (checkErrors g lab race2 (checkErrors g lab race st).2.2).2.1
                  = (checkErrors g lab race st).2.1)) := by
  simp only [checkErrors_eq]
  cases h3 : (freeCands g lab).isEmpty <;>
  cases h5 : hasPlainFree g lab <;>
  cases h6 : (retireCands g lab).find? (fun p => !lab.view0.contains p.pos) <;>
  cases h7 : hasRetireFree g lab <;>
  cases h8 : (raceCands g lab).find? (fun p => !lab.view0.contains p.pos) <;>
  simp

/-- The labels tested by the race check are the same-location labels that form
a racing pair with the event under test. -/
theorem mem_raceCands (g : ExecutionGraph) (lab p : EventLabel) :
    p ∈ raceCands g lab ↔ p ∈ g.samelocs lab ∧ racePair lab p = true := by
  unfold raceCands racePair EventLabel.isMemAccess
  cases lab.isRead <;> cases lab.isWrite <;> cases lab.isNotAtomic <;>
  cases hpr : p.isRead <;> cases hpw : p.isWrite <;> cases hpn : p.isNotAtomic <;>
  simp [List.mem_filter, hpr, hpw, hpn]

/-- Claim C15: `checkError8` fails exactly when some same-location label forms
a racing pair with the event under test (both a read or a write, at least one a
write, at least one not atomic) and is not contained in its `view(0)`; the
counterexample stored on failure is such a label. Hence an unordered
same-location write of a non-atomic write is reported, and nothing is reported
when every same-location label is in the view. -/
theorem checkError8_iff (g : ExecutionGraph) (lab : EventLabel) (st : DriverState) :
    ((checkError8 g lab st).1 = false ↔
        ∃ p ∈ g.samelocs lab, racePair lab p = true ∧ lab.view0.contains p.pos = false)
      ∧ ((checkError8 g lab st).1 = false →
          ∃ p ∈ g.samelocs lab, racePair lab p = true ∧ lab.view0.contains p.pos = false
            ∧ (checkError8 g lab st).2.cexLab = some p)
      ∧ (∀ p ∈ g.samelocs lab, lab.isWrite = true → lab.isNotAtomic = true →
          p.isWrite = true → lab.view0.contains p.pos = false →
          (checkError8 g lab st).1 = false)
      ∧ ((∀ p ∈ g.samelocs lab, lab.view0.contains p.pos = true) →
          (checkError8 g lab st).1 = true) := by
  have hfail : (checkError8 g lab st).1 = false →
      ∃ p ∈ g.samelocs lab, racePair lab p = true ∧ lab.view0.contains p.pos = false
        ∧ (checkError8 g lab st).2.cexLab = some p := by
    rw [checkError8_eq]
    cases hfind : (raceCands g lab).find? (fun p => !lab.view0.contains p.pos) with
    | none => simp [cexResult]
    | some p =>
      intro _
      have hmem := (mem_raceCands g lab p).mp (List.mem_of_find?_eq_some hfind)
      have hout := List.find?_some hfind
      exact ⟨p, hmem.1, hmem.2, by simpa using hout, by simp [cexResult]⟩
  have hconv : (∃ p ∈ g.samelocs lab, racePair lab p = true
      ∧ lab.view0.contains p.pos = false) → (checkError8 g lab st).1 = false := by
    rintro ⟨p, hp, hpair, hout⟩
    rw [checkError8_eq]
    cases hfind : (raceCands g lab).find? (fun p => !lab.view0.contains p.pos) with
    | some q => simp [cexResult]
    | none =>
      exfalso
      have hall := List.find?_eq_none.mp hfind p ((mem_raceCands g lab p).mpr ⟨hp, hpair⟩)
      simp [hout] at hall
  refine ⟨⟨fun h => ?_, hconv⟩, hfail, ?_, ?_⟩
  · obtain ⟨p, hp, hpair, hout, _⟩ := hfail h
    exact ⟨p, hp, hpair, hout⟩
  · intro p hp hw hna hpw hout
    apply hconv
    refine ⟨p, hp, ?_, hout⟩
    simp [racePair, EventLabel.isMemAccess, hw, hna, hpw]
  · intro hall
    cases hv : (checkError8 g lab st).1 with
    | true => rfl
    | false =>
      obtain ⟨p, hp, _, hout, _⟩ := hfail hv
      rw [hall p hp] at hout
      cases hout

/-- Claim C16, at a failing input: `checkErrors` never returns
`VE_AccessNonMalloc`; in the graph where thread 2 writes the address allocated
by thread 1 without the allocation in its prefix view it returns `VE_OK`. The
test of the view in `visitLHSUnlessError2_0` is commented out. -/
theorem checkErrors_never_AccessNonMalloc :
    (∀ (g : ExecutionGraph) (lab : EventLabel) (race : Option EventLabel) (st : DriverState),
        (checkErrors g lab race st).1 ≠ VerificationError.VE_AccessNonMalloc)
      ∧ thrAccess.isMemAccess = true
      ∧ nmGraph.alloc_pred thrAccess = some thrAlloc
      ∧ thrAccess.view0.contains thrAlloc.pos = false
      ∧ checkErrors nmGraph thrAccess none {} = (VerificationError.VE_OK, none, {}) := by
  refine ⟨?_, by decide, by decide, by decide, by decide⟩
  intro g lab race st
  rw [checkErrors_eq]
  cases h3 : (freeCands g lab).isEmpty <;>
  cases h5 : hasPlainFree g lab <;>
  cases h6 : (retireCands g lab).find? (fun p => !lab.view0.contains p.pos) <;>
  cases h7 : hasRetireFree g lab <;>
  cases h8 : (raceCands g lab).find? (fun p => !lab.view0.contains p.pos) <;>
  simp

/-- The labels tested by the double-free check are the same-location frees and
retires of a free or retire. -/
theorem mem_freeCands (g : ExecutionGraph) (lab p : EventLabel) :
    p ∈ freeCands g lab ↔ p ∈ g.samelocs lab ∧ lab.isFree = true ∧ p.isFree = true := by
  unfold freeCands EventLabel.isFree
  cases decide (lab.kind = EventLabelKind.Free) <;> cases lab.isHpRetire <;>
  cases hpf : decide (p.kind = EventLabelKind.Free) <;> cases hph : p.isHpRetire <;>
  simp [List.mem_filter, hpf, hph, EventLabel.isFree]

/-- Claim C17 as stated fails: a hazard-pointer retire with a same-location
plain free fails `checkError3` and makes `checkErrors` return
`VE_DoubleFree`. -/
theorem checkError3_retire_counterexample :
    heapRetire.isHpRetire = true
      ∧ heapFree1 ∈ retireGraph.samelocs heapRetire
      ∧ (checkError3 retireGraph heapRetire {}).1 = false
      ∧ (checkErrors retireGraph heapRetire none {}).1 = VerificationError.VE_DoubleFree := by
  decide

/-- Claim C17, amended: `checkError3` fails for `lab` exactly when `lab` is a
free or a hazard-pointer retire and some same-location label is a free or a
hazard-pointer retire, and exactly then `checkErrors` returns
`VE_DoubleFree`. -/
theorem checkError3_iff (g : ExecutionGraph) (lab : EventLabel) (race : Option EventLabel)
    (st : DriverState) :
    ((checkError3 g lab st).1 = false ↔
        lab.isFree = true ∧ ∃ p ∈ g.samelocs lab, p.isFree = true)
      ∧ ((checkErrors g lab race st).1 = VerificationError.VE_DoubleFree ↔
        lab.isFree = true ∧ ∃ p ∈ g.samelocs lab, p.isFree = true) := by
  have hiff : (freeCands g lab).isEmpty = false ↔
      lab.isFree = true ∧ ∃ p ∈ g.samelocs lab, p.isFree = true := by
    constructor
    · intro h
      cases hc : freeCands g lab with
      | nil => simp [hc] at h
      | cons p ps =>
        have hp : p ∈ freeCands g lab := by rw [hc]; exact List.mem_cons_self _ _
        have := (mem_freeCands g lab p).mp hp
        exact ⟨this.2.1, p, this.1, this.2.2⟩
    · rintro ⟨hl, p, hp, hpf⟩
      have hmem := (mem_freeCands g lab p).mpr ⟨hp, hl, hpf⟩
      cases hc : freeCands g lab with
      | nil => rw [hc] at hmem; cases hmem
      | cons q qs => rfl
  refine ⟨?_, ?_⟩
  · rw [checkError3_eq]
    exact hiff
  · rw [← hiff, checkErrors_eq]
    cases h3 : (freeCands g lab).isEmpty <;>
    cases h5 : hasPlainFree g lab <;>
    cases h6 : (retireCands g lab).find? (fun p => !lab.view0.contains p.pos) <;>
    cases h7 : hasRetireFree g lab <;>
    cases h8 : (raceCands g lab).find? (fun p => !lab.view0.contains p.pos) <;>
    simp

/-- A read or a write is neither a free nor a hazard-pointer retire. -/
theorem not_free_of_isMemAccess (lab : EventLabel) (h : lab.isMemAccess = true) :
    lab.isFree = false ∧ lab.isHpRetire = false := by
  unfold EventLabel.isMemAccess EventLabel.isRead EventLabel.isWrite at h
  unfold EventLabel.isFree EventLabel.isHpRetire
  cases hk : lab.kind <;> simp_all

/-- Claim C18 as stated fails: in `protGraph` the read is a memory access
protected by a hazard pointer, its allocation lies in its prefix view, that
allocation has a plain free as free successor, and `checkErrors` returns
`VE_AccessFreed` (through `checkError5`, which fails). -/
theorem checkErrors_protected_counterexample :
    protRead.isMemAccess = true
      ∧ protGraph.isHazptrProtected protRead = true
      ∧ protGraph.alloc_pred protRead = some thrAlloc
      ∧ protRead.view0.contains thrAlloc.pos = true
      ∧ protGraph.free_succ thrAlloc = some earlyFree
      ∧ earlyFree.isFree = true ∧ earlyFree.isHpRetire = false
      ∧ (checkError5 protGraph protRead {}).1 = false
      ∧ (checkErrors protGraph protRead none {}).1 = VerificationError.VE_AccessFreed := by
  decide

/-- Claim C18, amended: for a hazard-pointer protected memory access the retire
check `checkError7` passes whatever retire events exist for its allocation;
`checkError5`, which has no hazard-pointer guard, fails exactly when the
allocation of the access has a free successor that is a plain free, not a
hazard-pointer retire; and when the allocation of the access, if it has one,
lies in its prefix view, `checkErrors` returns `VE_AccessFreed` exactly in that
case. -/
theorem checkErrors_protected (g : ExecutionGraph) (lab : EventLabel)
    (race : Option EventLabel) (st : DriverState)
    (hacc : lab.isMemAccess = true) (hprot : g.isHazptrProtected lab = true) :
    checkError7 g lab st = (true, st)
      ∧ ((checkError5 g lab st).1 = false ↔
          ∃ a f, g.alloc_pred lab = some a ∧ g.free_succ a = some f
            ∧ f.isFree = true ∧ f.isHpRetire = false)
      ∧ ((∀ a, g.alloc_pred lab = some a → lab.view0.contains a.pos = true) →
          ((checkErrors g lab race st).1 = VerificationError.VE_AccessFreed ↔
            ∃ a f, g.alloc_pred lab = some a ∧ g.free_succ a = some f
              ∧ f.isFree = true ∧ f.isHpRetire = false)) := by
  have hk := not_free_of_isMemAccess lab hacc
  have h7 : hasRetireFree g lab = false := by
    simp [hasRetireFree, unprotectedDynAccess, hprot]
  have h3 : (freeCands g lab).isEmpty = true := by
    simp [freeCands, hk.1, hk.2]
  have h6 : (retireCands g lab).find? (fun p => !lab.view0.contains p.pos) = none := by
    simp [retireCands, hk.2]
  have h5 : hasPlainFree g lab = true ↔
      ∃ a f, g.alloc_pred lab = some a ∧ g.free_succ a = some f
        ∧ f.isFree = true ∧ f.isHpRetire = false := by
    unfold hasPlainFree
    cases ha : g.alloc_pred lab with
    | none => simp
    | some a =>
      cases hf : g.free_succ a with
      | none => simp [hf]
      | some f => simp [hf]
  refine ⟨?_, ?_, ?_⟩
  · rw [checkError7_eq, h7]
    rfl
  · rw [← h5, checkError5_eq]
    cases hp : hasPlainFree g lab <;> simp
  · intro _
    rw [← h5, checkErrors_eq]
    cases hp : hasPlainFree g lab <;>
    cases h8 : (raceCands g lab).find? (fun p => !lab.view0.contains p.pos) <;>
    simp [h3, h6, h7]

/-- Witness of C18 (amended). In `protRetireGraph` the allocation of the
protected read lies in its prefix view and has a retire outside that view as
free successor: `checkError7` passes and `checkErrors` returns `VE_OK`, while
the same read without protection (`unprotRetireGraph`) fails `checkError7` and
gets `VE_AccessFreed`. In `protGraph`, where the free successor is a plain
free, `checkError5` fails and `checkErrors` returns `VE_AccessFreed`. -/
theorem checkErrors_protected_witness :
    (protRead.isMemAccess = true
      ∧ protRetireGraph.isHazptrProtected protRead = true
      ∧ protRetireGraph.alloc_pred protRead = some thrAlloc
      ∧ protRead.view0.contains thrAlloc.pos = true
      ∧ protRetireGraph.free_succ thrAlloc = some earlyRetire
      ∧ earlyRetire.isHpRetire = true
      ∧ protRead.view0.contains earlyRetire.pos = false)
      ∧ checkError7 protRetireGraph protRead {} = (true, {})
      ∧ (checkError5 protRetireGraph protRead {}).1 = true
      ∧ (checkErrors protRetireGraph protRead none {}).1 = VerificationError.VE_OK
      ∧ (checkError7 unprotRetireGraph protRead {}).1 = false
      ∧ (checkErrors unprotRetireGraph protRead none {}).1
          = VerificationError.VE_AccessFreed
      ∧ checkError7 protGraph protRead {} = (true, {})
      ∧ (checkError5 protGraph protRead {}).1 = false
      ∧ (checkErrors protGraph protRead none {}).1 = VerificationError.VE_AccessFreed :=
  have hr := checkErrors_protected protRetireGraph protRead none {} (by decide) (by decide)
  have hp := checkErrors_protected protGraph protRead none {} (by decide) (by decide)
  have hplain : ∃ a f, protGraph.alloc_pred protRead = some a
      ∧ protGraph.free_succ a = some f ∧ f.isFree = true ∧ f.isHpRetire = false :=
    ⟨thrAlloc, earlyFree, by decide, by decide, by decide, by decide⟩
  ⟨by decide, hr.1, by decide, by decide, by decide, by decide, hp.1,
    hp.2.1.mpr hplain, (hp.2.2 (by decide)).mpr hplain⟩

/-- Claim C19, at a failing input: `checkError4` passes on every input, its two
calls being commented out. In the graph where thread 1 allocates and frees
address 100 and the write of thread 2 to it is outside the prefix view of the
free, the visitor `visitUnlessError4` fails with that write as counterexample,
yet `checkErrors` on the free returns `VE_OK`. -/
theorem checkErrors_skips_free_before_access :
    (∀ (g : ExecutionGraph) (lab : EventLabel) (st : DriverState),
        checkError4 g lab st = (true, st))
      ∧ thrFree.isFree = true ∧ thrFree.isHpRetire = false
      ∧ uafGraph.samelocs thrFree = []
      ∧ uafGraph.free_pred thrFree = some thrAlloc
      ∧ thrAccess ∈ uafGraph.alloc_succs thrAlloc
      ∧ thrFree.view0.contains thrAccess.pos = false
      ∧ visitUnlessError4 uafGraph thrFree {} = (false, { cexLab := some thrAccess })
      ∧ checkErrors uafGraph thrFree none {} = (VerificationError.VE_OK, none, {}) := by
  refine ⟨fun _ _ _ => rfl, ?_⟩
  decide

/-- `checkWarnings` in closed form: `checkWarning9` always passes, so no
warning is returned and nothing is appended to `racyLabs`. -/
theorem checkWarnings_eq (g : ExecutionGraph) (lab : EventLabel)
    (seenWarnings : List VerificationError) (racyLabs : List (Option EventLabel))
    (st : DriverState) :
    checkWarnings g lab seenWarnings racyLabs st = ([], racyLabs, st) := by
  unfold checkWarnings checkWarning9
  split <;> rfl

/-- Claim C20, at a failing input: `checkWarnings` returns no warning and
leaves `racyLabs` as it is on every input, the body of `checkWarning9` being
commented out. In the graph with two unordered writes of address 0 the visitor
`visitUnlessWarning9` fails with the other write as counterexample, yet
`checkWarnings` on the second write, with no warning seen before, returns the
empty list. -/
theorem checkWarnings_never_reports_WWRace :
    (∀ (g : ExecutionGraph) (lab : EventLabel) (seen : List VerificationError)
        (racyLabs : List (Option EventLabel)) (st : DriverState),
        checkWarnings g lab seen racyLabs st = ([], racyLabs, st))
      ∧ wwSecond.isWrite = true ∧ wwFirst.isWrite = true
      ∧ wwFirst ∈ wwGraph.samelocs wwSecond
      ∧ wwSecond.view0.contains wwFirst.pos = false
      ∧ visitUnlessWarning9 wwGraph wwSecond {} = (false, { cexLab := some wwFirst })
      ∧ checkWarnings wwGraph wwSecond [] [] {} = ([], [], {}) := by
  refine ⟨checkWarnings_eq, ?_⟩
  decide

/-! ### The acyclicity search -/

/-- The running maximum of the stamps dominates its start value and every
stamp of the list. -/
theorem foldl_max_stamp (ls : List EventLabel) :
    ∀ init : Nat, init ≤ ls.foldl (fun m l => max m l.stamp) init
      ∧ ∀ l ∈ ls, l.stamp ≤ ls.foldl (fun m l => max m l.stamp) init := by
  induction ls with
  | nil => intro init; exact ⟨Nat.le_refl _, fun l hl => by cases hl⟩
  | cons x xs ih =>
    intro init
    obtain ⟨h1, h2⟩ := ih (max init x.stamp)
    refine ⟨Nat.le_trans (Nat.le_max_left _ _) h1, ?_⟩
    intro l hl
    rcases List.mem_cons.mp hl with rfl | hmem
    · exact Nat.le_trans (Nat.le_max_right _ _) h1
    · exact h2 l hmem

/-- No label of the graph has a stamp above `getMaxStamp`. -/
theorem stamp_le_getMaxStamp (g : ExecutionGraph) (l : EventLabel) (h : l ∈ g.labels) :
    l.stamp ≤ g.getMaxStamp :=
  (foldl_max_stamp g.labels 0).2 l h

/-- Writing the entry of a stamp inside the table sets the status read at that
stamp. -/
theorem statusOf_setNode_same (st : AcyclicState) (l e : EventLabel) (n : NodeCountStatus)
    (hlt : l.stamp < st.visitedConsAcyclic1_0.length) (heq : e.stamp = l.stamp) :
    (st.setNode l.stamp n).statusOf e = n.status := by
  unfold AcyclicState.statusOf AcyclicState.node AcyclicState.setNode
  rw [heq]
  simp [List.getElem?_set_self hlt]

/-- Writing the entry of a stamp leaves the status read at any other stamp. -/
theorem statusOf_setNode_other (st : AcyclicState) (l e : EventLabel) (n : NodeCountStatus)
    (hne : e.stamp ≠ l.stamp) :
    (st.setNode l.stamp n).statusOf e = st.statusOf e := by
  unfold AcyclicState.statusOf AcyclicState.node AcyclicState.setNode
  simp [List.getElem?_set_ne (Ne.symm hne)]

/-- The counter does not take part in reading a status. -/
theorem statusOf_counter (st : AcyclicState) (c : Nat) (e : EventLabel) :
    ({ st with visitedConsAcyclic1Accepting := c } : AcyclicState).statusOf e
      = st.statusOf e := rfl

/-- Two labels of a well-formed graph with the same stamp are equal. -/
theorem eq_of_stamp_eq (g : ExecutionGraph) (hwf : ConsWellFormed g) (a b : EventLabel)
    (ha : a ∈ g.labels) (hb : b ∈ g.labels) (h : a.stamp = b.stamp) : a = b :=
  List.inj_on_of_nodup_map hwf.stamps_nodup ha hb h

/-- When no label becomes unseen, the number of unseen labels does not grow. -/
theorem unseenCount_le (g : ExecutionGraph) (st st2 : AcyclicState)
    (h : ∀ e ∈ g.labels, st2.statusOf e = NodeStatus.unseen →
      st.statusOf e = NodeStatus.unseen) :
    unseenCount g st2 ≤ unseenCount g st := by
  unfold unseenCount
  apply List.countP_mono_left
  intro x hx hp
  simp only [decide_eq_true_eq] at hp ⊢
  exact h x hx hp

/-- A count over a list drops when the test weakens nowhere and fails at some
element where it held. -/
theorem countP_lt_of_witness (p q : EventLabel → Bool) (ls : List EventLabel)
    (hmono : ∀ x ∈ ls, p x = true → q x = true)
    (x : EventLabel) (hx : x ∈ ls) (hq : q x = true) (hp : p x = false) :
    ls.countP p < ls.countP q := by
  induction ls with
  | nil => cases hx
  | cons y ys ih =>
    have hmono2 : ∀ z ∈ ys, p z = true → q z = true :=
      fun z hz => hmono z (List.mem_cons_of_mem _ hz)
    have hle : ys.countP p ≤ ys.countP q := List.countP_mono_left hmono2
    rw [List.countP_cons, List.countP_cons]
    rcases List.mem_cons.mp hx with rfl | hmem
    · simp only [hq, hp]
      simp
      omega
    · have hlt := ih hmono2 hmem
      by_cases hpy : p y = true
      · have hqy := hmono y (List.mem_cons_self _ _) hpy
        simp only [hpy, hqy]
        omega
      · have hpy2 : p y = false := by simpa using hpy
        have hzero : (if p y = true then 1 else 0) = 0 := by simp [hpy2]
        rw [hzero]
        by_cases hqy : q y = true
        · rw [if_pos hqy]; omega
        · rw [if_neg hqy]; omega

/-- When no label becomes unseen and some unseen label stops being so, the
number of unseen labels drops. -/
theorem unseenCount_lt (g : ExecutionGraph) (st st2 : AcyclicState)
    (h : ∀ e ∈ g.labels, st2.statusOf e = NodeStatus.unseen →
      st.statusOf e = NodeStatus.unseen)
    (x : EventLabel) (hx : x ∈ g.labels) (hbefore : st.statusOf x = NodeStatus.unseen)
    (hafter : st2.statusOf x ≠ NodeStatus.unseen) :
    unseenCount g st2 < unseenCount g st := by
  unfold unseenCount
  apply countP_lt_of_witness _ _ _ _ x hx
  · simpa using hbefore
  · simpa using hafter
  · intro e he hp
    simp only [decide_eq_true_eq] at hp ⊢
    exact h e he hp

/-- Left labels of a well-formed graph reach only left labels of the graph. -/
theorem left_of_reach (g : ExecutionGraph) (hwf : ConsWellFormed g) (st : AcyclicState)
    (hclosed : ∀ a ∈ g.labels, st.statusOf a = NodeStatus.left →
      ∀ b ∈ consSuccs g a, st.statusOf b = NodeStatus.left)
    (a b : EventLabel) (ha : a ∈ g.labels) (hleft : st.statusOf a = NodeStatus.left)
    (hreach : Relation.ReflTransGen (consEdge g) a b) :
    b ∈ g.labels ∧ st.statusOf b = NodeStatus.left := by
  induction hreach with
  | refl => exact ⟨ha, hleft⟩
  | tail _ hedge ih =>
    exact ⟨hwf.succs_closed _ ih.1 _ hedge, hclosed _ ih.1 ih.2 _ hedge⟩

/-- A table that satisfies the invariant is a step from itself. -/
theorem DfsStep.refl (g : ExecutionGraph) (st : AcyclicState) (h : DfsInv g st) :
    DfsStep g st st :=
  ⟨h, fun _ _ => Iff.rfl, fun _ _ h2 => h2, fun _ _ h2 => h2⟩

/-- Steps compose. -/
theorem DfsStep.trans (g : ExecutionGraph) (st1 st2 st3 : AcyclicState)
    (h12 : DfsStep g st1 st2) (h23 : DfsStep g st2 st3) : DfsStep g st1 st3 :=
  ⟨h23.inv,
   fun e he => (h23.entered_iff e he).trans (h12.entered_iff e he),
   fun e he h => h23.left_mono e he (h12.left_mono e he h),
   fun e he h => h12.unseen_anti e he (h23.unseen_anti e he h)⟩

/-- The status of a label of a well-formed graph after the entry of `lab` was
written. -/
theorem statusOf_mark (g : ExecutionGraph) (hwf : ConsWellFormed g) (st : AcyclicState)
    (hsized : st.visitedConsAcyclic1_0.length = g.getMaxStamp + 1)
    (lab e : EventLabel) (hlab : lab ∈ g.labels) (he : e ∈ g.labels)
    (c : Nat) (n : NodeCountStatus) :
    (({ st with visitedConsAcyclic1Accepting := c } : AcyclicState).setNode lab.stamp n).statusOf e
      = if e = lab then n.status else st.statusOf e := by
  have hlt : lab.stamp < st.visitedConsAcyclic1_0.length := by
    have := stamp_le_getMaxStamp g lab hlab
    omega
  by_cases heq : e = lab
  · rw [if_pos heq]
    exact statusOf_setNode_same _ lab e n hlt (by rw [heq])
  · rw [if_neg heq]
    have hne : e.stamp ≠ lab.stamp := fun h => heq (eq_of_stamp_eq g hwf e lab he hlab h)
    rw [statusOf_setNode_other _ lab e n hne]
    rfl

/-- The run over the successors of an entered label `cur`: it returns; when it
succeeds every successor is left; when it fails there is a cycle. -/
theorem visitSuccs_spec (g : ExecutionGraph) (hwf : ConsWellFormed g)
    (visit : EventLabel → AcyclicState → Option (Bool × AcyclicState)) (bound : Nat)
    (hvisit : VisitContract g visit bound) (cur : EventLabel) (hcur : cur ∈ g.labels) :
    ∀ (ps : List EventLabel) (st : AcyclicState),
      (∀ p ∈ ps, p ∈ consSuccs g cur) → DfsInv g st →
      (∀ e ∈ g.labels, st.statusOf e = NodeStatus.entered →
        Relation.ReflTransGen (consEdge g) e cur) →
      unseenCount g st ≤ bound →
      ∃ b st2, visitSuccsConsAcyclic1 visit ps st = some (b, st2)
        ∧ (b = true → DfsStep g st st2 ∧ ∀ p ∈ ps, st2.statusOf p = NodeStatus.left)
        ∧ (b = false → hasConsCycle g) := by
  intro ps
  induction ps with
  | nil =>
    intro st _ hinv _ _
    exact ⟨true, st, rfl, fun _ => ⟨DfsStep.refl g st hinv, fun p hp => by cases hp⟩,
      fun h => by cases h⟩
  | cons p rest ih =>
    intro st hsucc hinv hstack hcount
    have hedge : p ∈ consSuccs g cur := hsucc p (List.mem_cons_self _ _)
    have hp : p ∈ g.labels := hwf.succs_closed cur hcur p hedge
    have hrest : ∀ q ∈ rest, q ∈ consSuccs g cur :=
      fun q hq => hsucc q (List.mem_cons_of_mem _ hq)
    cases hs : st.statusOf p with
    | unseen =>
      have hs2 : (st.node p.stamp).status = NodeStatus.unseen := hs
      have hpre : ∀ e ∈ g.labels, st.statusOf e = NodeStatus.entered →
          Relation.TransGen (consEdge g) e p :=
        fun e he hen => Relation.TransGen.tail' (hstack e he hen) hedge
      obtain ⟨b1, st1, hv, ht, hf⟩ := hvisit p st hp hs hinv hpre hcount
      cases b1 with
      | false =>
        refine ⟨false, st1, ?_, fun h => (by cases h), fun _ => hf rfl⟩
        simp only [visitSuccsConsAcyclic1, hs2, hv]
      | true =>
        obtain ⟨hstep1, hleft1⟩ := ht rfl
        have hstack1 : ∀ e ∈ g.labels, st1.statusOf e = NodeStatus.entered →
            Relation.ReflTransGen (consEdge g) e cur :=
          fun e he hen => hstack e he ((hstep1.entered_iff e he).mp hen)
        have hcount1 : unseenCount g st1 ≤ bound :=
          Nat.le_trans (unseenCount_le g st st1 hstep1.unseen_anti) hcount
        obtain ⟨b2, st2, hv2, ht2, hf2⟩ := ih st1 hrest hstep1.inv hstack1 hcount1
        refine ⟨b2, st2, ?_, ?_, hf2⟩
        · simp only [visitSuccsConsAcyclic1, hs2, hv]
          exact hv2
        · intro hb
          obtain ⟨hstep2, hall2⟩ := ht2 hb
          refine ⟨DfsStep.trans g st st1 st2 hstep1 hstep2, ?_⟩
          intro q hq
          rcases List.mem_cons.mp hq with rfl | hmem
          · exact hstep2.left_mono _ hp hleft1
          · exact hall2 q hmem
    | entered =>
      have hs2 : (st.node p.stamp).status = NodeStatus.entered := hs
      refine ⟨false, st, ?_, fun h => (by cases h), fun _ => ?_⟩
      · simp only [visitSuccsConsAcyclic1, hs2]
      · exact ⟨p, hp, Relation.TransGen.tail' (hstack p hp hs) hedge⟩
    | left =>
      have hs2 : (st.node p.stamp).status = NodeStatus.left := hs
      obtain ⟨b2, st2, hv2, ht2, hf2⟩ := ih st hrest hinv hstack hcount
      refine ⟨b2, st2, ?_, ?_, hf2⟩
      · simp only [visitSuccsConsAcyclic1, hs2]
        exact hv2
      · intro hb
        obtain ⟨hstep2, hall2⟩ := ht2 hb
        refine ⟨hstep2, ?_⟩
        intro q hq
        rcases List.mem_cons.mp hq with rfl | hmem
        · exact hstep2.left_mono _ hp hs
        · exact hall2 q hmem

/-- An unseen label of the graph is counted. -/
theorem unseenCount_pos (g : ExecutionGraph) (st : AcyclicState) (lab : EventLabel)
    (hlab : lab ∈ g.labels) (hun : st.statusOf lab = NodeStatus.unseen) :
    0 < unseenCount g st := by
  unfold unseenCount
  rw [List.countP_pos_iff]
  exact ⟨lab, hlab, by simpa using hun⟩

/-- `visitConsAcyclic1_0` with fuel `fuel` meets the contract on tables with at
most `fuel` unseen labels. -/
theorem visitConsAcyclic1_0_contract (g : ExecutionGraph) (hwf : ConsWellFormed g) :
    ∀ fuel : Nat, VisitContract g (visitConsAcyclic1_0 g fuel) fuel := by
  intro fuel
  induction fuel with
  | zero =>
    intro lab st hlab hun _ _ hcount
    have := unseenCount_pos g st lab hlab hun
    unfold unseenCount at this
    omega
  | succ fuel ih =>
    intro lab st hlab hun hinv hstack hcount
    -- the table after the label was entered
    have hst1 : ∀ e ∈ g.labels,
        (({ st with visitedConsAcyclic1Accepting := st.visitedConsAcyclic1Accepting + 1 }
            : AcyclicState).setNode lab.stamp
            { count := st.visitedConsAcyclic1Accepting + 1,
              status := NodeStatus.entered }).statusOf e
          = if e = lab then NodeStatus.entered else st.statusOf e :=
      fun e he => statusOf_mark g hwf st hinv.sized lab e hlab he _ _
    generalize hdef1 :
      (({ st with visitedConsAcyclic1Accepting := st.visitedConsAcyclic1Accepting + 1 }
          : AcyclicState).setNode lab.stamp
          { count := st.visitedConsAcyclic1Accepting + 1,
            status := NodeStatus.entered }) = st1 at hst1
    have hsized1 : st1.visitedConsAcyclic1_0.length = g.getMaxStamp + 1 := by
      rw [← hdef1]
      simp [AcyclicState.setNode, hinv.sized]
    have hlab1 : st1.statusOf lab = NodeStatus.entered := by
      rw [hst1 lab hlab, if_pos rfl]
    have hleft1 : ∀ e ∈ g.labels, st1.statusOf e = NodeStatus.left →
        st.statusOf e = NodeStatus.left := by
      intro e he h
      rw [hst1 e he] at h
      by_cases heq : e = lab
      · rw [if_pos heq] at h; cases h
      · rw [if_neg heq] at h; exact h
    have hkeep1 : ∀ e ∈ g.labels, st.statusOf e = NodeStatus.left →
        st1.statusOf e = NodeStatus.left := by
      intro e he h
      rw [hst1 e he]
      by_cases heq : e = lab
      · rw [heq, hun] at h; cases h
      · rw [if_neg heq]; exact h
    have hinv1 : DfsInv g st1 := by
      refine ⟨hsized1, ?_, ?_⟩
      · intro a ha hl b hb
        exact hkeep1 b (hwf.succs_closed a ha b hb) (hinv.closed a ha (hleft1 a ha hl) b hb)
      · intro a ha hl
        exact hinv.acyclic a ha (hleft1 a ha hl)
    have hstack1 : ∀ e ∈ g.labels, st1.statusOf e = NodeStatus.entered →
        Relation.ReflTransGen (consEdge g) e lab := by
      intro e he h
      by_cases heq : e = lab
      · rw [heq]
      · rw [hst1 e he, if_neg heq] at h
        exact (hstack e he h).to_reflTransGen
    have hanti1 : ∀ e ∈ g.labels, st1.statusOf e = NodeStatus.unseen →
        st.statusOf e = NodeStatus.unseen := by
      intro e he h
      rw [hst1 e he] at h
      by_cases heq : e = lab
      · rw [if_pos heq] at h; cases h
      · rw [if_neg heq] at h; exact h
    have hcount1 : unseenCount g st1 ≤ fuel := by
      have hlt := unseenCount_lt g st st1 hanti1 lab hlab hun (by rw [hlab1]; simp)
      unfold unseenCount at hlt ⊢
      omega
    obtain ⟨b, st2, hv, ht, hf⟩ :=
      visitSuccs_spec g hwf (visitConsAcyclic1_0 g fuel) fuel ih lab hlab
        (consSuccs g lab) st1 (fun p hp => hp) hinv1 hstack1 hcount1
    cases b with
    | false =>
      refine ⟨false, st2, ?_, fun h => (by cases h), fun _ => hf rfl⟩
      simp only [visitConsAcyclic1_0, hdef1, hv]
    | true =>
      obtain ⟨hstep, hall⟩ := ht rfl
      have hst3 : ∀ e ∈ g.labels,
          (({ st2 with visitedConsAcyclic1Accepting := st2.visitedConsAcyclic1Accepting - 1 }
              : AcyclicState).setNode lab.stamp
              { count := st2.visitedConsAcyclic1Accepting - 1,
                status := NodeStatus.left }).statusOf e
            = if e = lab then NodeStatus.left else st2.statusOf e :=
        fun e he => statusOf_mark g hwf st2 hstep.inv.sized lab e hlab he _ _
      generalize hdef3 :
        (({ st2 with visitedConsAcyclic1Accepting := st2.visitedConsAcyclic1Accepting - 1 }
            : AcyclicState).setNode lab.stamp
            { count := st2.visitedConsAcyclic1Accepting - 1,
              status := NodeStatus.left }) = st3 at hst3
      have hsized3 : st3.visitedConsAcyclic1_0.length = g.getMaxStamp + 1 := by
        rw [← hdef3]
        simp [AcyclicState.setNode, hstep.inv.sized]
      have hlab2 : st2.statusOf lab = NodeStatus.entered :=
        (hstep.entered_iff lab hlab).mpr hlab1
      have hlab3 : st3.statusOf lab = NodeStatus.left := by
        rw [hst3 lab hlab, if_pos rfl]
      have hkeep3 : ∀ e ∈ g.labels, st2.statusOf e = NodeStatus.left →
          st3.statusOf e = NodeStatus.left := by
        intro e he h
        rw [hst3 e he]
        by_cases heq : e = lab
        · rw [if_pos heq]
        · rw [if_neg heq]; exact h
      have hleft3 : ∀ e ∈ g.labels, e ≠ lab → st3.statusOf e = st2.statusOf e := by
        intro e he hne
        rw [hst3 e he, if_neg hne]
      refine ⟨true, st3, ?_, fun _ => ⟨⟨⟨hsized3, ?_, ?_⟩, ?_, ?_, ?_⟩, hlab3⟩,
        fun h => (by cases h)⟩
      · simp only [visitConsAcyclic1_0, hdef1, hv, hdef3]
      · -- the successors of a left label are left
        intro a ha hl b hb
        have hbmem := hwf.succs_closed a ha b hb
        by_cases heq : a = lab
        · rw [heq] at hb
          exact hkeep3 b hbmem (hall b hb)
        · rw [hleft3 a ha heq] at hl
          exact hkeep3 b hbmem (hstep.inv.closed a ha hl b hb)
      · -- no left label lies on a cycle
        intro a ha hl hcyc
        by_cases heq : a = lab
        · rw [heq] at hcyc
          obtain ⟨s, hedge, hreach⟩ := Relation.TransGen.head'_iff.mp hcyc
          have hs : s ∈ g.labels := hwf.succs_closed lab hlab s hedge
          have hsl : st2.statusOf s = NodeStatus.left := hall s hedge
          have := (left_of_reach g hwf st2 hstep.inv.closed s lab hs hsl hreach).2
          rw [hlab2] at this
          cases this
        · rw [hleft3 a ha heq] at hl
          exact hstep.inv.acyclic a ha hl hcyc
      · -- the entered labels are those entered before the visit
        intro e he
        by_cases heq : e = lab
        · rw [heq, hlab3, hun]
          constructor <;> intro h <;> cases h
        · rw [hleft3 e he heq, hstep.entered_iff e he, hst1 e he, if_neg heq]
      · intro e he h
        exact hkeep3 e he (hstep.left_mono e he (hkeep1 e he h))
      · intro e he h
        by_cases heq : e = lab
        · rw [heq, hlab3] at h; cases h
        · rw [hleft3 e he heq] at h
          exact hanti1 e he (hstep.unseen_anti e he h)

/-- The fold over the roots, started in a table without entered labels: it
returns; when it succeeds every root is left; when it fails there is a
cycle. -/
theorem visitRoots_spec (g : ExecutionGraph)
    (visit : EventLabel → AcyclicState → Option (Bool × AcyclicState)) (bound : Nat)
    (hvisit : VisitContract g visit bound) :
    ∀ (roots : List EventLabel) (st : AcyclicState),
      (∀ l ∈ roots, l ∈ g.labels) → DfsInv g st →
      (∀ e ∈ g.labels, st.statusOf e ≠ NodeStatus.entered) →
      unseenCount g st ≤ bound →
      ∃ b st2, visitRootsConsAcyclic1 visit roots st = some (b, st2)
        ∧ (b = true → DfsStep g st st2 ∧ ∀ l ∈ roots, st2.statusOf l = NodeStatus.left)
        ∧ (b = false → hasConsCycle g) := by
  intro roots
  induction roots with
  | nil =>
    intro st _ hinv _ _
    exact ⟨true, st, rfl, fun _ => ⟨DfsStep.refl g st hinv, fun p hp => by cases hp⟩,
      fun h => by cases h⟩
  | cons lab rest ih =>
    intro st hmem hinv hnone hcount
    have hlab : lab ∈ g.labels := hmem lab (List.mem_cons_self _ _)
    have hrest : ∀ l ∈ rest, l ∈ g.labels := fun l hl => hmem l (List.mem_cons_of_mem _ hl)
    by_cases hun : st.statusOf lab = NodeStatus.unseen
    · have hun2 : (st.node lab.stamp).status = NodeStatus.unseen := hun
      have hpre : ∀ e ∈ g.labels, st.statusOf e = NodeStatus.entered →
          Relation.TransGen (consEdge g) e lab :=
        fun e he hen => absurd hen (hnone e he)
      obtain ⟨b1, st1, hv, ht, hf⟩ := hvisit lab st hlab hun hinv hpre hcount
      cases b1 with
      | false =>
        refine ⟨false, st1, ?_, fun h => (by cases h), fun _ => hf rfl⟩
        simp only [visitRootsConsAcyclic1, hun2, hv]
        simp
      | true =>
        obtain ⟨hstep1, hleft1⟩ := ht rfl
        have hnone1 : ∀ e ∈ g.labels, st1.statusOf e ≠ NodeStatus.entered :=
          fun e he hen => hnone e he ((hstep1.entered_iff e he).mp hen)
        have hcount1 : unseenCount g st1 ≤ bound :=
          Nat.le_trans (unseenCount_le g st st1 hstep1.unseen_anti) hcount
        obtain ⟨b2, st2, hv2, ht2, hf2⟩ := ih st1 hrest hstep1.inv hnone1 hcount1
        refine ⟨b2, st2, ?_, ?_, hf2⟩
        · simp only [visitRootsConsAcyclic1, hun2, hv]
          simpa using hv2
        · intro hb
          obtain ⟨hstep2, hall2⟩ := ht2 hb
          refine ⟨DfsStep.trans g st st1 st2 hstep1 hstep2, ?_⟩
          intro q hq
          rcases List.mem_cons.mp hq with rfl | hq2
          · exact hstep2.left_mono _ hlab hleft1
          · exact hall2 q hq2
    · have hun2 : (st.node lab.stamp).status ≠ NodeStatus.unseen := hun
      have hleft : st.statusOf lab = NodeStatus.left := by
        cases hs : st.statusOf lab with
        | unseen => exact absurd hs hun
        | entered => exact absurd hs (hnone lab hlab)
        | left => rfl
      obtain ⟨b2, st2, hv2, ht2, hf2⟩ := ih st hrest hinv hnone hcount
      refine ⟨b2, st2, ?_, ?_, hf2⟩
      · rw [visitRootsConsAcyclic1, if_pos hun2]
        exact hv2
      · intro hb
        obtain ⟨hstep2, hall2⟩ := ht2 hb
        refine ⟨hstep2, ?_⟩
        intro q hq
        rcases List.mem_cons.mp hq with rfl | hq2
        · exact hstep2.left_mono _ hlab hleft
        · exact hall2 q hq2

/-- Every status read from the table left by the reset is `unseen`. -/
theorem statusOf_reset (g : ExecutionGraph) (st : AcyclicState) (e : EventLabel) :
    (resetConsAcyclic1 g st).statusOf e = NodeStatus.unseen := by
  unfold AcyclicState.statusOf AcyclicState.node resetConsAcyclic1
  simp only [List.getD_eq_getElem?_getD]
  cases hget : (List.replicate (g.getMaxStamp + 1) ({} : NodeCountStatus))[e.stamp]? with
  | none => rfl
  | some n =>
    have hmem := List.getElem?_mem hget
    rw [(List.mem_replicate.mp hmem).2]
    rfl

/-- Claim C22: on a graph whose labels have pairwise distinct stamps and whose
successor edges stay inside the graph, `visitConsAcyclic1Full` returns whenever
the recursion bound is at least the number of labels, and it returns true
exactly when the union of the `tc_succ`, `tj_succ`, `rf_succs`, `co_imm_succ`,
`fr_imm_succ` and `po_imm_succ` edges has no cycle; the verdict and the table
it leaves are the same whatever the status table and the counter held before
the call. -/
theorem visitConsAcyclic1Full_correct (g : ExecutionGraph) (hwf : ConsWellFormed g)
    (fuel : Nat) (hfuel : g.labels.length ≤ fuel) (st : AcyclicState) :
    ∃ b st2, visitConsAcyclic1Full g fuel st = some (b, st2)
      ∧ (b = true ↔ ¬ hasConsCycle g)
      ∧ ∀ st3 : AcyclicState, visitConsAcyclic1Full g fuel st3 = some (b, st2) := by
  have hinv0 : DfsInv g (resetConsAcyclic1 g st) := by
    refine ⟨by simp [resetConsAcyclic1], ?_, ?_⟩
    · intro a _ hl
      rw [statusOf_reset] at hl
      cases hl
    · intro a _ hl
      rw [statusOf_reset] at hl
      cases hl
  have hnone0 : ∀ e ∈ g.labels, (resetConsAcyclic1 g st).statusOf e ≠ NodeStatus.entered := by
    intro e _ h
    rw [statusOf_reset] at h
    cases h
  have hcount0 : unseenCount g (resetConsAcyclic1 g st) ≤ fuel :=
    Nat.le_trans (List.countP_le_length _) hfuel
  obtain ⟨b, st2, hv, ht, hf⟩ :=
    visitRoots_spec g (visitConsAcyclic1_0 g fuel) fuel
      (visitConsAcyclic1_0_contract g hwf fuel) g.labels (resetConsAcyclic1 g st)
      (fun l hl => hl) hinv0 hnone0 hcount0
  refine ⟨b, st2, hv, ?_, fun st3 => hv⟩
  constructor
  · intro hb
    obtain ⟨hstep, hall⟩ := ht hb
    rintro ⟨a, ha, hcyc⟩
    exact hstep.inv.acyclic a ha (hall a ha) hcyc
  · intro hno
    cases b with
    | true => rfl
    | false => exact absurd (hf rfl) hno

/-- Witness of C22: the search accepts the scenario graph, which has no cycle,
and rejects the graph whose read takes its value from its own later write. -/
theorem visitConsAcyclic1Full_correct_witness :
    (∃ b st2, visitConsAcyclic1Full scenGraph 8 {} = some (b, st2)
        ∧ (b = true ↔ ¬ hasConsCycle scenGraph)
        ∧ ∀ st3 : AcyclicState, visitConsAcyclic1Full scenGraph 8 st3 = some (b, st2))
      ∧ (visitConsAcyclic1Full scenGraph 8 {}).map (fun r => r.1) = some true
      ∧ (visitConsAcyclic1Full cycGraph 3 {}).map (fun r => r.1) = some false :=
  ⟨visitConsAcyclic1Full_correct scenGraph ⟨by decide, by decide⟩ 8 (by decide) {},
   by decide, by decide⟩

/-! ### Warnings -/

/-- Claim C21: when `seenWarnings` contains `VE_WWRace`, `checkWarnings` returns
the empty list and leaves `racyLabs` (and the driver state) as they are; the
warning check is not run. -/
theorem checkWarnings_seen (g : ExecutionGraph) (lab : EventLabel)
    (seenWarnings : List VerificationError) (racyLabs : List (Option EventLabel))
    (st : DriverState) (hseen : VerificationError.VE_WWRace ∈ seenWarnings) :
    checkWarnings g lab seenWarnings racyLabs st = ([], racyLabs, st) := by
  unfold checkWarnings
  have hcount : ¬ seenWarnings.count VerificationError.VE_WWRace = 0 := by
    intro h
    exact (List.count_eq_zero.mp h) hseen
  rw [if_neg hcount]

/-- Witness of C21: the second write of `wwGraph` with `VE_WWRace` already
seen. -/
theorem checkWarnings_seen_witness :
    checkWarnings wwGraph wwSecond [VerificationError.VE_WWRace] [some initLab] {}
      = ([], [some initLab], {}) :=
  checkWarnings_seen wwGraph wwSecond [VerificationError.VE_WWRace] [some initLab] {}
    (by decide)

/-! ### The relation builders -/

/-- The label found at a position is a label of the graph at that position. -/
theorem getEventLabel_some (g : ExecutionGraph) (e : Event) (l : EventLabel)
    (h : g.getEventLabel e = some l) : l ∈ g.labels ∧ l.pos = e := by
  unfold ExecutionGraph.getEventLabel at h
  refine ⟨List.mem_of_find?_eq_some h, ?_⟩
  have := List.find?_some h
  simpa using this

/-- An assignment adds at most one entry. -/
theorem EventMap.length_assign (m : EventMap) (k v : Event) :
    (m.assign k v).length ≤ m.length + 1 := by
  unfold EventMap.assign
  split <;> simp

/-- After `m[k] = v` the key `k` holds `v`. -/
theorem EventMap.lookup_assign_self (m : EventMap) (k v : Event) :
    (m.assign k v).lookup k = some v := by
  have hmap : ∀ xs : List (Event × Event), xs.any (fun p => decide (p.1 = k)) = true →
      (xs.map (fun p => if p.1 = k then (k, v) else p)).find? (fun p => decide (p.1 = k))
        = some (k, v) := by
    intro xs
    induction xs with
    | nil => intro h; simp at h
    | cons x xs ih =>
      intro hany
      by_cases hx : x.1 = k
      · simp [List.find?_cons, hx]
      · have hany2 : xs.any (fun p => decide (p.1 = k)) = true := by
          simpa [hx] using hany
        rw [List.map_cons, if_neg hx, List.find?_cons]
        have hd : decide (x.1 = k) = false := by simpa using hx
        rw [hd]
        exact ih hany2
  unfold EventMap.assign EventMap.lookup
  by_cases hany : m.any (fun p => decide (p.1 = k)) = true
  · rw [if_pos hany, hmap m hany]
    rfl
  · rw [if_neg hany]
    have hnone : m.find? (fun p => decide (p.1 = k)) = none := by
      rw [List.find?_eq_none]
      intro x hx hp
      apply hany
      rw [List.any_eq_true]
      exact ⟨x, hx, hp⟩
    simp [List.find?_append, hnone]

/-- The assignment `m[k] = v` leaves every other key as it was. -/
theorem EventMap.lookup_assign_other (m : EventMap) (k v k2 : Event) (hne : k2 ≠ k) :
    (m.assign k v).lookup k2 = m.lookup k2 := by
  have hne2 : ¬ k = k2 := fun h => hne h.symm
  have hmap : ∀ xs : List (Event × Event),
      ((xs.map (fun p => if p.1 = k then (k, v) else p)).find?
          (fun p => decide (p.1 = k2))).map (fun p => p.2)
        = (xs.find? (fun p => decide (p.1 = k2))).map (fun p => p.2) := by
    intro xs
    induction xs with
    | nil => rfl
    | cons x xs ih =>
      by_cases hx : x.1 = k
      · have hx2 : ¬ x.1 = k2 := by rw [hx]; exact hne2
        have hd1 : decide (k = k2) = false := by simpa using hne2
        have hd2 : decide (x.1 = k2) = false := by simpa using hx2
        rw [List.map_cons, if_pos hx, List.find?_cons, List.find?_cons, hd1, hd2]
        exact ih
      · rw [List.map_cons, if_neg hx, List.find?_cons, List.find?_cons]
        cases hd : decide (x.1 = k2)
        · exact ih
        · rfl
  unfold EventMap.assign EventMap.lookup
  by_cases hany : m.any (fun p => decide (p.1 = k)) = true
  · rw [if_pos hany]
    exact hmap m
  · rw [if_neg hany, List.find?_append]
    cases hfind : m.find? (fun p => decide (p.1 = k2)) with
    | none =>
      have hd1 : decide (k = k2) = false := by simpa using hne2
      simp [List.find?_cons, hd1]
    | some x => simp

/-- `calculateRA` in closed form. -/
theorem calculateRA_eq (g : ExecutionGraph) (st : DriverState) (lab : EventLabel) :
    calculateRA g st lab =
      match g.po_imm_pred lab with
      | none => st
      | some e1 =>
        match g.po_imm_pred e1 with
        | none => st
        | some e0 =>
          if (e1.kind = EventLabelKind.Read ∨ e1.kind = EventLabelKind.Write)
              ∧ (e1.ordering = AtomicOrdering.Acquire ∨ e1.ordering = AtomicOrdering.Release
                  ∨ e1.ordering = AtomicOrdering.SequentiallyConsistent) then
            { st with relationRA := st.relationRA.assign e0.pos lab.pos }
          else st := by
  unfold calculateRA
  cases h1 : g.po_imm_pred lab with
  | none => simp
  | some e1 =>
    cases h0 : g.po_imm_pred e1 with
    | none => simp [h0]
    | some e0 =>
      simp only [Option.bind, h0]
      cases e1.kind <;> cases e1.ordering <;> simp

/-- `calculateSVO` in closed form. -/
theorem calculateSVO_eq (g : ExecutionGraph) (st : DriverState) (lab : EventLabel) :
    calculateSVO g st lab =
      match g.po_imm_pred lab with
      | none => st
      | some f1 =>
        match g.po_imm_pred f1 with
        | none => st
        | some a =>
          match g.po_imm_pred a with
          | none => st
          | some f2 =>
            match g.po_imm_pred f2 with
            | none => st
            | some e0 =>
              if (f1.kind = EventLabelKind.Fence ∧ f1.ordering = AtomicOrdering.Acquire)
                  ∧ (a.kind = EventLabelKind.Read ∨ a.kind = EventLabelKind.Write)
                  ∧ (f2.kind = EventLabelKind.Fence ∧ f2.ordering = AtomicOrdering.Release)
              then { st with relationSVO := st.relationSVO.assign e0.pos lab.pos }
              else st := by
  unfold calculateSVO
  cases h1 : g.po_imm_pred lab with
  | none => rfl
  | some f1 =>
    cases h2 : g.po_imm_pred f1 with
    | none => simp [h2]
    | some a =>
      cases h3 : g.po_imm_pred a with
      | none => simp [h2, h3]
      | some f2 =>
        cases h4 : g.po_imm_pred f2 with
        | none => simp [h2, h3, h4]
        | some e0 =>
          by_cases hk1 : f1.kind = EventLabelKind.Fence <;>
          by_cases ho1 : f1.ordering = AtomicOrdering.Acquire <;>
          by_cases hr : a.kind = EventLabelKind.Read <;>
          by_cases hw : a.kind = EventLabelKind.Write <;>
          by_cases hk2 : f2.kind = EventLabelKind.Fence <;>
          by_cases ho2 : f2.ordering = AtomicOrdering.Release <;>
          simp [h2, h3, h4, hk1, ho1, hr, hw, hk2, ho2]

/-- The immediate predecessor of a label is a label of the graph, in the same
thread, one index lower. -/
theorem po_imm_pred_some (g : ExecutionGraph) (lab p : EventLabel)
    (h : g.po_imm_pred lab = some p) :
    p ∈ g.labels ∧ p.pos.thread = lab.pos.thread ∧ p.pos.index = lab.pos.index - 1 := by
  obtain ⟨hmem, hpos⟩ := getEventLabel_some g _ p h
  refine ⟨hmem, ?_, ?_⟩ <;> rw [hpos] <;> rfl

/-- `calculateRA` either leaves the state as it is or assigns the position of
`lab` to the position of a label two steps before it in its thread. -/
theorem calculateRA_shape (g : ExecutionGraph) (st : DriverState) (lab : EventLabel) :
    calculateRA g st lab = st
      ∨ ∃ e0 ∈ g.labels, e0.pos.thread = lab.pos.thread ∧ e0.pos.index < lab.pos.index
          ∧ calculateRA g st lab
              = { st with relationRA := st.relationRA.assign e0.pos lab.pos } := by
  rw [calculateRA_eq]
  cases h1 : g.po_imm_pred lab with
  | none => exact Or.inl rfl
  | some e1 =>
    dsimp only
    cases h0 : g.po_imm_pred e1 with
    | none => exact Or.inl rfl
    | some e0 =>
      dsimp only
      split
      · right
        obtain ⟨_, ht1, hi1⟩ := po_imm_pred_some g lab e1 h1
        obtain ⟨hm0, ht0, hi0⟩ := po_imm_pred_some g e1 e0 h0
        exact ⟨e0, hm0, by rw [ht0, ht1], by omega, rfl⟩
      · exact Or.inl rfl

/-- `calculateSVO` either leaves the state as it is or assigns the position of
`lab` to the position of a label four steps before it in its thread. -/
theorem calculateSVO_shape (g : ExecutionGraph) (st : DriverState) (lab : EventLabel) :
    calculateSVO g st lab = st
      ∨ ∃ e0 ∈ g.labels, e0.pos.thread = lab.pos.thread ∧ e0.pos.index < lab.pos.index
          ∧ calculateSVO g st lab
              = { st with relationSVO := st.relationSVO.assign e0.pos lab.pos } := by
  rw [calculateSVO_eq]
  cases h1 : g.po_imm_pred lab with
  | none => exact Or.inl rfl
  | some f1 =>
    dsimp only
    cases h2 : g.po_imm_pred f1 with
    | none => exact Or.inl rfl
    | some a =>
      dsimp only
      cases h3 : g.po_imm_pred a with
      | none => exact Or.inl rfl
      | some f2 =>
        dsimp only
        cases h4 : g.po_imm_pred f2 with
        | none => exact Or.inl rfl
        | some e0 =>
          dsimp only
          split
          · right
            obtain ⟨_, ht1, hi1⟩ := po_imm_pred_some g lab f1 h1
            obtain ⟨_, ht2, hi2⟩ := po_imm_pred_some g f1 a h2
            obtain ⟨_, ht3, hi3⟩ := po_imm_pred_some g a f2 h3
            obtain ⟨hm0, ht4, hi4⟩ := po_imm_pred_some g f2 e0 h4
            exact ⟨e0, hm0, by rw [ht4, ht3, ht2, ht1], by omega, rfl⟩
          · exact Or.inl rfl

/-- Claim C23: `isConsistent` returns true for every graph, state and event;
its effect on the state is at most one assignment in `relationRA` and at most
one in `relationSVO`, each keyed by an earlier label of the thread of `lab`
with the position of `lab` as value; `relationSpush` and the counterexample
slot are left as they are. -/
theorem isConsistent_always_true (g : ExecutionGraph) (st : DriverState) (lab : EventLabel) :
    (isConsistent g st lab).1 = true
      ∧ (∀ (g2 : ExecutionGraph) (st2 : DriverState) (lab2 : EventLabel),
          (isConsistent g2 st2 lab2).1 = (isConsistent g st lab).1)
      ∧ ((isConsistent g st lab).2.relationRA = st.relationRA
          ∨ ∃ e0 ∈ g.labels, e0.pos.thread = lab.pos.thread
              ∧ e0.pos.index < lab.pos.index
              ∧ (isConsistent g st lab).2.relationRA
                  = st.relationRA.assign e0.pos lab.pos)
      ∧ ((isConsistent g st lab).2.relationSVO = st.relationSVO
          ∨ ∃ e0 ∈ g.labels, e0.pos.thread = lab.pos.thread
              ∧ e0.pos.index < lab.pos.index
              ∧ (isConsistent g st lab).2.relationSVO
                  = st.relationSVO.assign e0.pos lab.pos)
      ∧ (isConsistent g st lab).2.relationRA.length ≤ st.relationRA.length + 1
      ∧ (isConsistent g st lab).2.relationSVO.length ≤ st.relationSVO.length + 1
      ∧ (isConsistent g st lab).2.relationSpush = st.relationSpush
      ∧ (isConsistent g st lab).2.cexLab = st.cexLab := by
  have hval : (isConsistent g st lab).2 = calculateSVO g (calculateRA g st lab) lab := rfl
  rw [hval]
  refine ⟨rfl, fun _ _ _ => rfl, ?_⟩
  rcases calculateRA_shape g st lab with hra | ⟨a0, ha0, hta, hia, hra⟩ <;>
  rcases calculateSVO_shape g (calculateRA g st lab) lab
    with hsvo | ⟨b0, hb0, htb, hib, hsvo⟩ <;>
  rw [hsvo, hra]
  · exact ⟨Or.inl rfl, Or.inl rfl, by omega, by omega, rfl, rfl⟩
  · exact ⟨Or.inl rfl, Or.inr ⟨b0, hb0, htb, hib, rfl⟩, Nat.le_succ _,
      EventMap.length_assign _ _ _, rfl, rfl⟩
  · exact ⟨Or.inr ⟨a0, ha0, hta, hia, rfl⟩, Or.inl rfl,
      EventMap.length_assign _ _ _, Nat.le_succ _, rfl, rfl⟩
  · exact ⟨Or.inr ⟨a0, ha0, hta, hia, rfl⟩, Or.inr ⟨b0, hb0, htb, hib, rfl⟩,
      EventMap.length_assign _ _ _, EventMap.length_assign _ _ _, rfl, rfl⟩

/-- Claim C24: `calculateRA` records the edge from `e0` to `lab` exactly when
`lab` has the immediate predecessor `e1`, `e1` has the immediate predecessor
`e0`, and `e1` is a read or a write whose ordering is acquire, release or
sequentially consistent; in every other case it leaves the state as it is. -/
theorem calculateRA_iff (g : ExecutionGraph) (st : DriverState) (lab : EventLabel) :
    (∀ e1 e0, raPattern g lab e1 e0 →
        calculateRA g st lab = { st with relationRA := st.relationRA.assign e0.pos lab.pos }
          ∧ (calculateRA g st lab).relationRA.lookup e0.pos = some lab.pos)
      ∧ ((¬ ∃ e1 e0, raPattern g lab e1 e0) → calculateRA g st lab = st) := by
  constructor
  · rintro e1 e0 ⟨h1, h0, hk, ho⟩
    have heq : calculateRA g st lab
        = { st with relationRA := st.relationRA.assign e0.pos lab.pos } := by
      rw [calculateRA_eq, h1]
      simp only [h0]
      rw [if_pos ⟨hk, ho⟩]
    exact ⟨heq, by rw [heq]; exact EventMap.lookup_assign_self _ _ _⟩
  · intro hno
    rw [calculateRA_eq]
    cases h1 : g.po_imm_pred lab with
    | none => rfl
    | some e1 =>
      dsimp only
      cases h0 : g.po_imm_pred e1 with
      | none => rfl
      | some e0 =>
        dsimp only
        rw [if_neg]
        rintro ⟨hk, ho⟩
        exact hno ⟨e1, e0, h1, h0, hk, ho⟩

/-- Witness of C24: in thread 1 of `raGraph` the read `(1,2)` follows the
release write `(1,1)`, which follows the thread start `(1,0)`; the edge from
`(1,0)` to `(1,2)` is recorded. -/
theorem calculateRA_iff_witness :
    calculateRA raGraph {} raLast = { relationRA := [(⟨1, 0⟩, ⟨1, 2⟩)] }
      ∧ (calculateRA raGraph {} raLast).relationRA.lookup ⟨1, 0⟩ = some ⟨1, 2⟩
      ∧ calculateRA raGraph {} raMiddle = {} :=
  ⟨((calculateRA_iff raGraph {} raLast).1 raMiddle (startLab 1 1 [0, 0])
      ⟨by decide, by decide, by decide, by decide⟩).1,
   by decide, by decide⟩

/-- Claim C25: `calculateSVO` records the edge from `e0` to `lab` exactly when
the four immediate program-order predecessors of `lab` exist and are, going
backwards, an acquire fence, a read or write, a release fence and then `e0`;
in every other case it leaves the state as it is. -/
theorem calculateSVO_iff (g : ExecutionGraph) (st : DriverState) (lab : EventLabel) :
    (∀ f1 a f2 e0, svoPattern g lab f1 a f2 e0 →
        calculateSVO g st lab
            = { st with relationSVO := st.relationSVO.assign e0.pos lab.pos }
          ∧ (calculateSVO g st lab).relationSVO.lookup e0.pos = some lab.pos)
      ∧ ((¬ ∃ f1 a f2 e0, svoPattern g lab f1 a f2 e0) → calculateSVO g st lab = st) := by
  constructor
  · rintro f1 a f2 e0 ⟨h1, hf1, h2, ha, h3, hf2, h4⟩
    have heq : calculateSVO g st lab
        = { st with relationSVO := st.relationSVO.assign e0.pos lab.pos } := by
      rw [calculateSVO_eq, h1]
      simp only [h2, h3, h4]
      rw [if_pos ⟨hf1, ha, hf2⟩]
    exact ⟨heq, by rw [heq]; exact EventMap.lookup_assign_self _ _ _⟩
  · intro hno
    rw [calculateSVO_eq]
    cases h1 : g.po_imm_pred lab with
    | none => rfl
    | some f1 =>
      dsimp only
      cases h2 : g.po_imm_pred f1 with
      | none => rfl
      | some a =>
        dsimp only
        cases h3 : g.po_imm_pred a with
        | none => rfl
        | some f2 =>
          dsimp only
          cases h4 : g.po_imm_pred f2 with
          | none => rfl
          | some e0 =>
            dsimp only
            rw [if_neg]
            rintro ⟨hf1, ha, hf2⟩
            exact hno ⟨f1, a, f2, e0, h1, hf1, h2, ha, h3, hf2, h4⟩

/-- Witness of C25: thread 1 of `svoGraph` runs start, release fence, write,
acquire fence, read; the edge from the start `(1,0)` to the read `(1,4)` is
recorded. -/
theorem calculateSVO_iff_witness :
    calculateSVO svoGraph {} svoLast = { relationSVO := [(⟨1, 0⟩, ⟨1, 4⟩)] }
      ∧ calculateSVO svoGraph {} svoMiddle = {} :=
  ⟨((calculateSVO_iff svoGraph {} svoLast).1 (fenceLab 3 4 AtomicOrdering.Acquire)
      svoMiddle (fenceLab 1 2 AtomicOrdering.Release) (startLab 1 1 [0, 0])
      ⟨by decide, by decide, by decide, by decide, by decide, by decide, by decide⟩).1,
   by decide⟩

/-- Claim C26, at a failing input: `calculateVolint` records nothing when `lab`
and its immediate predecessor are both sequentially consistent, and records an
edge (in `relationSpush`) when `lab` is sequentially consistent and the
predecessor is not: the second test of the source returns on `==` where its
header comment, `[volotile access]; po; [volotile access]`, asks for `!=`. In
`volGraph`, with two sequentially consistent writes in a row, nothing is
recorded for the second; in `volMixedGraph`, with a relaxed write first, the
edge is recorded. -/
theorem calculateVolint_inverted :
    (∀ (g : ExecutionGraph) (st : DriverState) (lab pred : EventLabel),
        g.po_imm_pred lab = some pred →
        lab.ordering = AtomicOrdering.SequentiallyConsistent →
        pred.ordering = AtomicOrdering.SequentiallyConsistent →
        calculateVolint g st lab = st)
      ∧ (∀ (g : ExecutionGraph) (st : DriverState) (lab pred : EventLabel),
        g.po_imm_pred lab = some pred →
        lab.ordering = AtomicOrdering.SequentiallyConsistent →
        pred.ordering ≠ AtomicOrdering.SequentiallyConsistent →
        calculateVolint g st lab
          = { st with relationSpush := st.relationSpush.assign pred.pos lab.pos })
      ∧ volGraph.po_imm_pred (volLab 2 3 AtomicOrdering.SequentiallyConsistent)
          = some (volLab 1 2 AtomicOrdering.SequentiallyConsistent)
      ∧ calculateVolint volGraph {} (volLab 2 3 AtomicOrdering.SequentiallyConsistent) = {}
      ∧ volMixedGraph.po_imm_pred (volLab 2 3 AtomicOrdering.SequentiallyConsistent)
          = some (volLab 1 2 AtomicOrdering.Monotonic)
      ∧ calculateVolint volMixedGraph {} (volLab 2 3 AtomicOrdering.SequentiallyConsistent)
          = { relationSpush := [(⟨1, 1⟩, ⟨1, 2⟩)] } := by
  refine ⟨?_, ?_, by decide, by decide, by decide, by decide⟩
  · intro g st lab pred hp hl hpo
    unfold calculateVolint
    simp [hl, hp, hpo]
  · intro g st lab pred hp hl hpo
    unfold calculateVolint
    simp [hl, hp, hpo]

/-! ### Prefix views -/

/-- The empty view has entry 0 for every thread. -/
theorem View.getMax_empty (t : Int) : View.empty.getMax t = 0 := by
  unfold View.getMax View.empty
  split <;> simp

/-- The join has, for every thread, the larger of the two entries. -/
theorem View.getMax_update (v o : View) (t : Int) :
    (v.update o).getMax t = max (v.getMax t) (o.getMax t) := by
  unfold View.getMax
  by_cases ht : t < 0
  · simp [ht]
  · simp only [if_neg ht, View.update, List.getD_eq_getElem?_getD, List.getElem?_map]
    by_cases hn : t.toNat < max v.view_.length o.view_.length
    · rw [List.getElem?_range hn]
      simp
    · have hr : (List.range (max v.view_.length o.view_.length))[t.toNat]? = none :=
        List.getElem?_eq_none (by simp only [List.length_range]; omega)
      have hv : v.view_[t.toNat]? = none := List.getElem?_eq_none (by omega)
      have ho : o.view_[t.toNat]? = none := List.getElem?_eq_none (by omega)
      simp [hr, hv, ho]

/-- An event is contained in the join exactly when one of the two views
contains it. -/
theorem View.contains_update (v o : View) (e : Event) :
    (v.update o).contains e = (v.contains e || o.contains e) := by
  unfold View.contains
  rw [View.getMax_update, Bool.eq_iff_iff]
  simp [le_max_iff]

/-- The entries of the view that holds one position only. -/
theorem View.getMax_setMax_empty (e : Event) (t : Int) :
    (View.empty.setMax e).getMax t
      = if 0 ≤ t ∧ t.toNat = e.thread.toNat then e.index else 0 := by
  unfold View.getMax View.setMax View.empty
  by_cases ht : t < 0
  · have h0 : ¬ (0 ≤ t ∧ t.toNat = e.thread.toNat) := fun h => by omega
    rw [if_pos ht, if_neg h0]
  · have h0 : 0 ≤ t := by omega
    rw [if_neg ht]
    simp only [List.nil_append, List.length_nil, Nat.sub_zero, List.getD_eq_getElem?_getD,
      List.getElem?_set, List.length_replicate, List.getElem?_replicate]
    by_cases hn : e.thread.toNat = t.toNat
    · have h1 : 0 ≤ t ∧ t.toNat = e.thread.toNat := ⟨h0, hn.symm⟩
      rw [if_pos hn, if_pos h1]
      simp
    · have h1 : ¬ (0 ≤ t ∧ t.toNat = e.thread.toNat) := fun h => hn h.2.symm
      rw [if_neg hn, if_neg h1]
      split <;> rfl

/-- The view built from the position of a label alone has no negative entry. -/
theorem View.getMax_updateIdx_empty_nonneg (e : Event) (t : Int) :
    0 ≤ (View.empty.updateIdx e).getMax t := by
  unfold View.updateIdx
  rw [View.getMax_empty]
  by_cases hi : 0 < e.index
  · rw [if_pos hi, View.getMax_setMax_empty]
    split <;> omega
  · rw [if_neg hi, View.getMax_empty]

/-- The view built from a position of a thread with a non-negative id reaches
the index of that position. -/
theorem View.getMax_updateIdx_empty_self (e : Event) (ht : 0 ≤ e.thread) :
    e.index ≤ (View.empty.updateIdx e).getMax e.thread := by
  unfold View.updateIdx
  rw [View.getMax_empty]
  by_cases hi : 0 < e.index
  · rw [if_pos hi, View.getMax_setMax_empty, if_pos ⟨ht, rfl⟩]
  · rw [if_neg hi, View.getMax_empty]
    omega

/-- The entries of the result of `calcPPoRfBefore`: for every thread the
largest of the entries of its three components. -/
theorem calcPPoRfBefore_getMax (g : ExecutionGraph) (lab : EventLabel) (t : Int) :
    (calcPPoRfBefore g lab).getMax t
      = max ((View.empty.updateIdx lab.pos).getMax t)
          (max ((ppoPrevView g lab).getMax t) ((ppoExtraView g lab).getMax t)) := by
  have hown := View.getMax_updateIdx_empty_nonneg lab.pos t
  unfold calcPPoRfBefore ppoPrevView ppoExtraView
  cases hprev : g.getPreviousLabel lab with
  | none =>
    simp only [View.getMax_empty]
    omega
  | some pLab =>
    dsimp only
    cases hk : pLab.kind <;>
      simp only [reduceCtorEq, if_false, if_true, View.getMax_update, View.getMax_empty] <;>
      omega

/-- Claim C27: `calcPPoRfBefore` is the per-thread-maximum join of the view
that holds the position of `lab` only, the prefix view of the previous label of
`lab` (when there is one) and, for a previous label that is a read, a thread
start or a thread join, the prefix view of the write it reads from, of its
parent thread creation or of the last label of the joined thread. The result
contains the position of `lab` and every event contained in the prefix view of
the previous label; without a previous label it is the view that holds the
position of `lab` only. -/
theorem calcPPoRfBefore_join (g : ExecutionGraph) (lab : EventLabel) :
    (∀ t, (calcPPoRfBefore g lab).getMax t
        = max ((View.empty.updateIdx lab.pos).getMax t)
            (max ((ppoPrevView g lab).getMax t) ((ppoExtraView g lab).getMax t)))
      ∧ (0 ≤ lab.pos.thread → (calcPPoRfBefore g lab).contains lab.pos = true)
      ∧ (∀ pLab, g.getPreviousLabel lab = some pLab →
          ∀ e, pLab.prefixView.contains e = true → (calcPPoRfBefore g lab).contains e = true)
      ∧ (∀ e, (ppoExtraView g lab).contains e = true →
          (calcPPoRfBefore g lab).contains e = true)
      ∧ (g.getPreviousLabel lab = none →
          calcPPoRfBefore g lab = View.empty.updateIdx lab.pos) := by
  refine ⟨calcPPoRfBefore_getMax g lab, ?_, ?_, ?_, ?_⟩
  · intro ht
    have hself := View.getMax_updateIdx_empty_self lab.pos ht
    unfold View.contains
    rw [calcPPoRfBefore_getMax]
    simp only [decide_eq_true_eq]
    omega
  · intro pLab hprev e he
    unfold View.contains at he ⊢
    rw [calcPPoRfBefore_getMax]
    have hpv : ppoPrevView g lab = pLab.prefixView := by
      unfold ppoPrevView
      rw [hprev]
    rw [hpv]
    simp only [decide_eq_true_eq] at he ⊢
    omega
  · intro e he
    unfold View.contains at he ⊢
    rw [calcPPoRfBefore_getMax]
    simp only [decide_eq_true_eq] at he ⊢
    omega
  · intro hprev
    unfold calcPPoRfBefore
    rw [hprev]

/-- Witness of C27: in `ppoGraph` the label `(1,2)` follows the read `(1,1)`,
whose prefix view is `[0,1]` and which reads from the write `(0,1)` with prefix
view `[1]`; the result is `[1,2]`. It contains `(1,2)`, the read and the
write. The thread start `(1,0)` has no previous label and gets the empty
view. -/
theorem calcPPoRfBefore_join_witness :
    calcPPoRfBefore ppoGraph ppoNext = ⟨[1, 2]⟩
      ∧ (calcPPoRfBefore ppoGraph ppoNext).contains ppoNext.pos = true
      ∧ (calcPPoRfBefore ppoGraph ppoNext).contains ppoRead.pos = true
      ∧ (calcPPoRfBefore ppoGraph ppoNext).contains ppoWrite.pos = true
      ∧ calcPPoRfBefore ppoGraph (startLab 1 2 [0, 0]) = View.empty.updateIdx ⟨1, 0⟩ :=
  ⟨by decide,
   (calcPPoRfBefore_join ppoGraph ppoNext).2.1 (by decide),
   (calcPPoRfBefore_join ppoGraph ppoNext).2.2.1 ppoRead (by decide) ppoRead.pos (by decide),
   by decide,
   (calcPPoRfBefore_join ppoGraph (startLab 1 2 [0, 0])).2.2.2.2 (by decide)⟩

/-! ### The hazard-pointer retire check and the pending RMW -/

/-- The labels tested by the retire check: for a hazard-pointer retire with
allocation `a`, the alloc-successors of `a` and `a` itself, as far as they are
unprotected accesses to a dynamic address. -/
theorem mem_retireCands (g : ExecutionGraph) (lab p : EventLabel) :
    p ∈ retireCands g lab ↔
      lab.isHpRetire = true ∧ ∃ a, g.free_pred lab = some a
        ∧ (p ∈ g.alloc_succs a ∨ p = a) ∧ unprotectedDynAccess g p = true := by
  unfold retireCands
  cases hr : lab.isHpRetire with
  | false => simp
  | true =>
    cases hf : g.free_pred lab with
    | none => simp
    | some a =>
      simp only [if_true, Option.toList, List.flatMap_cons, List.flatMap_nil,
        List.append_nil, List.flatten_cons, List.flatten_nil, List.mem_append,
        List.mem_filter, Option.some.injEq, true_and, exists_eq_left', List.mem_singleton]
      constructor
      · rintro (⟨h1, h2⟩ | ⟨h1, h2⟩)
        · exact ⟨Or.inl h1, h2⟩
        · exact ⟨Or.inr h1, h2⟩
      · rintro ⟨h1 | h1, h2⟩
        · exact Or.inl ⟨h1, h2⟩
        · exact Or.inr ⟨h1, h2⟩

/-- Claim C28: `checkError6` passes for an event that is not a hazard-pointer
retire; for a retire with allocation `a = free_pred(lab)` it fails exactly when
some alloc-successor of `a`, or `a` itself, is a memory access to a dynamic
address that is not hazard-pointer protected and is not contained in `view(0)`
of `lab`; on failure the counterexample slot holds such an access. -/
theorem checkError6_iff (g : ExecutionGraph) (lab : EventLabel) (st : DriverState) :
    (lab.isHpRetire = false → checkError6 g lab st = (true, st))
      ∧ ((checkError6 g lab st).1 = false ↔
          lab.isHpRetire = true ∧ ∃ a, g.free_pred lab = some a
            ∧ ∃ p, (p ∈ g.alloc_succs a ∨ p = a) ∧ p.isMemAccess = true
              ∧ g.isDynamic p.addr = true ∧ g.isHazptrProtected p = false
              ∧ lab.view0.contains p.pos = false)
      ∧ ((checkError6 g lab st).1 = false →
          ∃ a, g.free_pred lab = some a
            ∧ ∃ p, (p ∈ g.alloc_succs a ∨ p = a) ∧ p.isMemAccess = true
              ∧ g.isDynamic p.addr = true ∧ g.isHazptrProtected p = false
              ∧ lab.view0.contains p.pos = false
              ∧ (checkError6 g lab st).2.cexLab = some p) := by
  have hguard : ∀ p : EventLabel, unprotectedDynAccess g p = true ↔
      (p.isMemAccess = true ∧ g.isDynamic p.addr = true ∧ g.isHazptrProtected p = false) := by
    intro p
    unfold unprotectedDynAccess
    simp [and_assoc]
  have hfail : (checkError6 g lab st).1 = false →
      lab.isHpRetire = true ∧ ∃ a, g.free_pred lab = some a
        ∧ ∃ p, (p ∈ g.alloc_succs a ∨ p = a) ∧ p.isMemAccess = true
          ∧ g.isDynamic p.addr = true ∧ g.isHazptrProtected p = false
          ∧ lab.view0.contains p.pos = false
          ∧ (checkError6 g lab st).2.cexLab = some p := by
    rw [checkError6_eq]
    cases hfind : (retireCands g lab).find? (fun p => !lab.view0.contains p.pos) with
    | none => simp [cexResult]
    | some p =>
      intro _
      obtain ⟨hr, a, ha, hp, hu⟩ :=
        (mem_retireCands g lab p).mp (List.mem_of_find?_eq_some hfind)
      have hout := List.find?_some hfind
      obtain ⟨h1, h2, h3⟩ := (hguard p).mp hu
      exact ⟨hr, a, ha, p, hp, h1, h2, h3, by simpa using hout, by simp [cexResult]⟩
  refine ⟨?_, ⟨fun h => ?_, ?_⟩, fun h => ?_⟩
  · intro hr
    have hnil : retireCands g lab = [] := by simp [retireCands, hr]
    rw [checkError6_eq, hnil]
    rfl
  · obtain ⟨hr, a, ha, p, hp, h1, h2, h3, h4, _⟩ := hfail h
    exact ⟨hr, a, ha, p, hp, h1, h2, h3, h4⟩
  · rintro ⟨hr, a, ha, p, hp, h1, h2, h3, h4⟩
    rw [checkError6_eq]
    cases hfind : (retireCands g lab).find? (fun p => !lab.view0.contains p.pos) with
    | some q => simp [cexResult]
    | none =>
      exfalso
      have hmem : p ∈ retireCands g lab :=
        (mem_retireCands g lab p).mpr ⟨hr, a, ha, hp, (hguard p).mpr ⟨h1, h2, h3⟩⟩
      have hall := List.find?_eq_none.mp hfind p hmem
      simp [h4] at hall
  · obtain ⟨_, a, ha, p, hp, h1, h2, h3, h4, h5⟩ := hfail h
    exact ⟨a, ha, p, hp, h1, h2, h3, h4, h5⟩

/-- Every event returned by `getCoherentRevisits` is one of its initial
candidates. -/
theorem getCoherentRevisits_subset (g : ExecutionGraph) (sLab : EventLabel) (pporf : View)
    (e : Event) (h : e ∈ getCoherentRevisits g sLab pporf) :
    e ∈ revisitCandidates g sLab pporf := by
  unfold getCoherentRevisits at h
  simp only [isDepTracking, Bool.not_false, Bool.true_and, if_true] at h
  by_cases hmax : g.isCoMaximal sLab.addr sLab.pos = true
  · rw [if_pos hmax] at h
    exact h
  · rw [if_neg hmax] at h
    exact (List.mem_filter.mp h).1

/-- Claim C29: when the store has a pending RMW, `getRevisitableFrom` returns
exactly the candidate readers whose stamp does not exceed the stamp of the
pending RMW event, in their order, so no returned read is stamped later and
every candidate stamped no later is kept; without a pending RMW it returns all
candidates. On the fast path of `getCoherentRevisits` the same stamp bound
holds for every returned event. -/
theorem getRevisitableFrom_pending (g : ExecutionGraph) (sLab : EventLabel) (pporf : View)
    (coPred : EventLabel) :
    ((g.getPendingRMW sLab).isInitializer = false →
        getRevisitableFrom g sLab pporf coPred
            = (revisitableReaders g sLab pporf coPred).filter
                (fun e => decide (stampAt g e ≤ stampAt g (g.getPendingRMW sLab)))
          ∧ (∀ e ∈ getRevisitableFrom g sLab pporf coPred,
              stampAt g e ≤ stampAt g (g.getPendingRMW sLab))
          ∧ (∀ e ∈ revisitableReaders g sLab pporf coPred,
              stampAt g e ≤ stampAt g (g.getPendingRMW sLab) →
              e ∈ getRevisitableFrom g sLab pporf coPred))
      ∧ ((g.getPendingRMW sLab).isInitializer = true →
          getRevisitableFrom g sLab pporf coPred = revisitableReaders g sLab pporf coPred)
      ∧ ((g.getPendingRMW sLab).isInitializer = false →
          (g.co sLab.addr).reverse.find? (fun lab => decide (lab.pos ≠ sLab.pos))
            = some coPred →
          pporf.contains coPred.pos = true →
          ∀ e ∈ getCoherentRevisits g sLab pporf,
            stampAt g e ≤ stampAt g (g.getPendingRMW sLab)) := by
  have hpend : (g.getPendingRMW sLab).isInitializer = false →
      getRevisitableFrom g sLab pporf coPred
        = (revisitableReaders g sLab pporf coPred).filter
            (fun e => decide (stampAt g e ≤ stampAt g (g.getPendingRMW sLab))) := by
    intro hp
    unfold getRevisitableFrom revisitableReaders
    simp only [hp, Bool.not_false, if_true]
    congr 1
    funext e
    by_cases hle : stampAt g e ≤ stampAt g (g.getPendingRMW sLab)
    · have hnl : ¬ stampAt g e > stampAt g (g.getPendingRMW sLab) := Nat.not_lt.mpr hle
      simp [hle, hnl]
    · have hlt : stampAt g e > stampAt g (g.getPendingRMW sLab) := Nat.lt_of_not_le hle
      simp [hle, hlt]
  have hbound : (g.getPendingRMW sLab).isInitializer = false →
      ∀ e ∈ getRevisitableFrom g sLab pporf coPred,
        stampAt g e ≤ stampAt g (g.getPendingRMW sLab) := by
    intro hp e he
    rw [hpend hp] at he
    simpa using (List.mem_filter.mp he).2
  refine ⟨fun hp => ⟨hpend hp, hbound hp, ?_⟩, ?_, ?_⟩
  · intro e he hle
    rw [hpend hp]
    exact List.mem_filter.mpr ⟨he, by simpa using hle⟩
  · intro hp
    unfold getRevisitableFrom revisitableReaders
    simp [hp]
  · intro hp hfind hin e he
    have hcand := getCoherentRevisits_subset g sLab pporf e he
    unfold revisitCandidates at hcand
    rw [hfind] at hcand
    simp only [hin, if_true] at hcand
    exact hbound hp e hcand

/-- Witness of C28: the retire of `hpGraph` fails the check with the write of
thread 2 as counterexample; the plain free of `uafGraph` passes it. -/
theorem checkError6_iff_witness :
    checkError6 hpGraph thrRetire {} = (false, { cexLab := some thrAccess })
      ∧ checkError6 uafGraph thrFree {} = (true, {}) :=
  ⟨by decide, (checkError6_iff uafGraph thrFree {}).1 (by decide)⟩

/-- Witness of C29: with a pending RMW stamped before the candidate read the
read is removed; with one stamped after it the read is kept. -/
theorem getRevisitableFrom_pending_witness :
    getRevisitableFrom pendEarlyGraph revStore revStore.view0 revOld = []
      ∧ getRevisitableFrom pendLateGraph revStore revStore.view0 revOld = [⟨2, 1⟩]
      ∧ getRevisitableFrom revGraph revStore revStore.view0 revOld = [⟨2, 1⟩]
      ∧ ∀ e ∈ getCoherentRevisits pendLateGraph revStore revStore.view0,
          stampAt pendLateGraph e
            ≤ stampAt pendLateGraph (pendLateGraph.getPendingRMW revStore) :=
  ⟨by decide, by decide, by decide,
   (getRevisitableFrom_pending pendLateGraph revStore revStore.view0 revOld).2.2
     (by decide) (by decide) (by decide)⟩

end JAM21
